import Mathlib

/-! BoxUnlocking: a verification development.

A shallow embedding of `src/main.cpp` (the `SecureBox` grid, the GF(2) Gaussian
solver `gauss`, the flattening `boxToVector`, the influence vector
`elementInfluence` and the orchestrator `openBox`), followed by theorems about it.

Conventions of the embedding:
* `std::vector<bool>` is `List Bool`, `std::vector<std::vector<bool>>` is `List (List Bool)`;
* `v[i]` out of range is undefined behaviour in C++; here every indexed read and
  write is checked and the enclosing function returns `none`;
* `uint32_t` arithmetic is `Nat` arithmetic reduced `% 2 ^ 32` wherever the
  source computes a product or a sum; loop counters never wrap because they
  are bounded by a `uint32_t` (or `size_t`) limit;
* `for (i = lo; i < hi; ++i)` is `forLoop body (hi - lo) lo`.
-/

namespace BoxUnlocking

/-! ## Primitives -/

/-- Modulus of `uint32_t` arithmetic. -/
def u32 : Nat := 2 ^ 32

/-- Checked `v[i]` used as an rvalue. -/
def readAt {α : Type} (v : List α) (i : Nat) : Option α :=
  v[i]?

/-- Checked `v[i] = a`. -/
def writeAt {α : Type} (v : List α) (i : Nat) (a : α) : Option (List α) :=
  if i < v.length then some (v.set i a) else none

/-- Checked `m[i][j]` used as an rvalue. -/
def cellAt (m : List (List Bool)) (i j : Nat) : Option Bool :=
  (readAt m i).bind fun r => readAt r j

/-- Checked `m[i][j] = a`. -/
def setCell (m : List (List Bool)) (i j : Nat) (a : Bool) : Option (List (List Bool)) :=
  (readAt m i).bind fun r => (writeAt r j a).bind fun r' => writeAt m i r'

/-- The loop `for (k = i; k < i + n; ++k) s = body k s`, failing as soon as the body fails. -/
def forLoop {σ : Type} (body : Nat → σ → Option σ) : Nat → Nat → σ → Option σ
  | 0, _, s => some s
  | n + 1, i, s => (body i s).bind fun s' => forLoop body n (i + 1) s'

/-- The loop `for (k = i; k < i + n; ++k) if (test k) return true;` falling through to `false`. -/
def anyLoop (test : Nat → Option Bool) : Nat → Nat → Option Bool
  | 0, _ => some false
  | n + 1, i => (test i).bind fun t => if t then some true else anyLoop test n (i + 1)

/-! ## SecureBox -/

/-- The fields of `class SecureBox` that carry state: the grid and its declared sizes.
The generator `rng` is passed to the constructor as a stream of draws. -/
structure SecureBox where
  box : List (List Bool)
  ySize : Nat
  xSize : Nat
deriving DecidableEq

/-- The statement `box[y][x] = !box[y][x];`. -/
def flipCell (box : List (List Bool)) (y x : Nat) : Option (List (List Bool)) :=
  (cellAt box y x).bind fun v => setCell box y x (!v)

/-- Method `SecureBox::toggle` (main.cpp 53-60). -/
def SecureBox.toggle (sb : SecureBox) (y x : Nat) : Option SecureBox :=
  (flipCell sb.box y x).bind fun b0 =>
  (forLoop (fun i b => flipCell b y i) sb.xSize 0 b0).bind fun b1 =>
  (forLoop (fun i b => flipCell b i x) sb.ySize 0 b1).bind fun b2 =>
  some { sb with box := b2 }

/-- Method `SecureBox::isLocked` (main.cpp 67-75). -/
def SecureBox.isLocked (sb : SecureBox) : Option Bool :=
  anyLoop (fun x => anyLoop (fun y => cellAt sb.box y x) sb.ySize 0) sb.xSize 0

/-- Method `SecureBox::getState` (main.cpp 81-84): a copy of the grid. -/
def SecureBox.getState (sb : SecureBox) : List (List Bool) :=
  sb.box

/-- The loop of `SecureBox::shuffle` (main.cpp 97-98) with `t` rounds left; `rng` is the
stream of generator outputs and `k` the number of draws already consumed. Each round
draws the row first and the column second. -/
def shuffleLoop (rng : Nat → Nat) : Nat → Nat → SecureBox → Option SecureBox
  | 0, _, sb => some sb
  | t + 1, k, sb =>
    if sb.ySize = 0 ∨ sb.xSize = 0 then none
    else (sb.toggle (rng k % sb.ySize % u32) (rng (k + 1) % sb.xSize % u32)).bind fun sb' =>
      shuffleLoop rng t (k + 2) sb'

/-- Method `SecureBox::shuffle` (main.cpp 95-99). -/
def SecureBox.shuffle (rng : Nat → Nat) (sb : SecureBox) : Option SecureBox :=
  shuffleLoop rng (rng 0 % 1000 % u32) 1 sb

/-- Lines 39-44 of the constructor: the box before `shuffle()`, an all-false `y` by `x`
grid (`resize` value-initialises every cell). -/
def SecureBox.blank (y x : Nat) : SecureBox :=
  { box := List.replicate y (List.replicate x false), ySize := y, xSize := x }

/-- Constructor `SecureBox::SecureBox` (main.cpp 39-46): the blank box, then `shuffle`. -/
def SecureBox.new (rng : Nat → Nat) (y x : Nat) : Option SecureBox :=
  SecureBox.shuffle rng (SecureBox.blank y x)

/-! ## boxToVector and elementInfluence -/

/-- Function `boxToVector` (main.cpp 253-269). -/
def boxToVector (ySize xSize : Nat) (sb : SecureBox) : Option (List Bool) :=
  let result := List.replicate (ySize * xSize % u32) false
  let boxState := sb.getState
  forLoop (fun x res =>
    forLoop (fun y res =>
      (cellAt boxState y x).bind fun c =>
        if c then writeAt res ((x * ySize + y) % u32) true else some res)
      ySize 0 res)
    xSize 0 result

/-- Function `elementInfluence` (main.cpp 295-305). -/
def elementInfluence (y x ySize xSize : Nat) : Option (List Bool) :=
  let result := List.replicate (ySize * xSize % u32) false
  (forLoop (fun i res => writeAt res ((i * ySize + y) % u32) true) xSize 0 result).bind fun r1 =>
  forLoop (fun i res => writeAt res ((x * ySize + i) % u32) true) ySize 0 r1

/-! ## gauss -/

/-- The mutable state of the forward elimination: the two in-out parameters of `gauss`
and the pivot cursor `row`. -/
structure GaussState where
  A : List (List Bool)
  b : List Bool
  row : Nat
deriving DecidableEq

/-- What `gauss` leaves behind: the returned flag, the two parameters it mutated in
place and the output parameter `unlockSequence`. -/
structure GaussResult where
  success : Bool
  influenceMatrix : List (List Bool)
  stateVector : List Bool
  unlockSequence : List Bool
deriving DecidableEq

/-- Lines 199-202: `std::swap(A[i], A[row])` and the three-assignment swap of `b[i]`, `b[row]`. -/
def swapRows (A : List (List Bool)) (b : List Bool) (i row : Nat) :
    Option (List (List Bool) × List Bool) :=
  (readAt A i).bind fun ri =>
  (readAt A row).bind fun rr =>
  (writeAt A i rr).bind fun A1 =>
  (writeAt A1 row ri).bind fun A2 =>
  (readAt b i).bind fun tmp =>
  (readAt b row).bind fun br =>
  (writeAt b i br).bind fun b1 =>
  (writeAt b1 row tmp).bind fun b2 =>
  some (A2, b2)

/-- Lines 194-205: the pivot search `for (i = row; i < nSize; ++i)` with its `break`;
the first argument counts the iterations left. -/
def pivotSearch (col row : Nat) :
    Nat → Nat → List (List Bool) × List Bool → Option (List (List Bool) × List Bool)
  | 0, _, s => some s
  | n + 1, i, s =>
    (cellAt s.1 i col).bind fun t =>
      if t then swapRows s.1 s.2 i row else pivotSearch col row n (i + 1) s

/-- Lines 215-216: `for (j = col; j < mSize; ++j) A[i][j] = A[i][j] ^ A[row][j];`. -/
def xorRowFrom (mSize col i row : Nat) (A : List (List Bool)) : Option (List (List Bool)) :=
  forLoop (fun j A =>
    (cellAt A i j).bind fun a =>
    (cellAt A row j).bind fun p =>
    setCell A i j (xor a p))
    (mSize - col) col A

/-- Lines 211-220: eliminate column `col` from every row other than the pivot row. -/
def eliminate (nSize mSize col row : Nat) (s : List (List Bool) × List Bool) :
    Option (List (List Bool) × List Bool) :=
  forLoop (fun i s =>
    if i ≠ row then
      (cellAt s.1 i col).bind fun t =>
        if t then
          (xorRowFrom mSize col i row s.1).bind fun A' =>
          (readAt s.2 i).bind fun bi =>
          (readAt s.2 row).bind fun br =>
          (writeAt s.2 i (xor bi br)).bind fun b' =>
          some (A', b')
        else some s
    else some s)
    nSize 0 s

/-- Lines 191-222: the forward elimination `for (col = 0; col < mSize && row < nSize; ++col)`;
the first argument is `mSize - col`, the number of columns left. -/
def forwardLoop (nSize mSize : Nat) : Nat → Nat → GaussState → Option GaussState
  | 0, _, s => some s
  | f + 1, col, s =>
    if s.row < nSize then
      (pivotSearch col s.row (nSize - s.row) s.row (s.A, s.b)).bind fun s1 =>
      (cellAt s1.1 s.row col).bind fun p =>
        if !p then forwardLoop nSize mSize f (col + 1) { A := s1.1, b := s1.2, row := s.row }
        else
          (eliminate nSize mSize col s.row s1).bind fun s2 =>
          forwardLoop nSize mSize f (col + 1) { A := s2.1, b := s2.2, row := s.row + 1 }
    else some s

/-- Lines 230-235: `for (j = 0; j < mSize; ++j) if (A[i][j]) { x[j] = b[i]; break; }`;
the first argument counts the iterations left. -/
def backSubRow (A : List (List Bool)) (b : List Bool) (i : Nat) :
    Nat → Nat → List Bool → Option (List Bool)
  | 0, _, x => some x
  | n + 1, j, x =>
    (cellAt A i j).bind fun t =>
      if t then (readAt b i).bind fun bi => writeAt x j bi
      else backSubRow A b i n (j + 1) x

/-- Function `gauss` (main.cpp 183-238). -/
def gauss (influenceMatrix : List (List Bool)) (stateVector : List Bool) : Option GaussResult :=
  let nSize := influenceMatrix.length
  (readAt influenceMatrix 0).bind fun r0 =>
  let mSize := r0.length
  let x0 := List.replicate mSize false
  (forwardLoop nSize mSize mSize 0 { A := influenceMatrix, b := stateVector, row := 0 }).bind fun s =>
  (anyLoop (fun i => readAt s.b i) (nSize - s.row) s.row).bind fun inconsistent =>
    if inconsistent then
      some { success := false, influenceMatrix := s.A, stateVector := s.b, unlockSequence := x0 }
    else
      (forLoop (fun i x => backSubRow s.A s.b i mSize 0 x) s.row 0 x0).bind fun x =>
      some { success := true, influenceMatrix := s.A, stateVector := s.b, unlockSequence := x }

/-! ## openBox -/

/-- Lines 122-130 of `openBox`: the influence matrix, one `push_back` per coordinate,
outer loop over columns, inner loop over rows. -/
def influenceMatrix (y x : Nat) : Option (List (List Bool)) :=
  forLoop (fun i M =>
    forLoop (fun j M => (elementInfluence j i y x).bind fun e => some (M ++ [e])) y 0 M)
    x 0 []

/-- Lines 137-144 of `openBox`: fire `toggle(i % y, i / y)` for every `i` with `solution[i]`.
The counter is a `uint32_t` compared with a `size_t`, so the loop only ends when the
size is below `2 ^ 32`. -/
def applySolution (y : Nat) (solution : List Bool) (box : SecureBox) : Option SecureBox :=
  if solution.length < u32 then
    forLoop (fun i box =>
      (readAt solution i).bind fun s =>
        if s then (if y = 0 then none else box.toggle (i % y) (i / y)) else some box)
      solution.length 0 box
  else none

/-- Everything `openBox` does after having constructed the box (main.cpp 119-148): the
final box together with the returned flag `box.isLocked()`. -/
def openBoxFrom (y x : Nat) (box : SecureBox) : Option (SecureBox × Bool) :=
  (boxToVector y x box).bind fun stateVector =>
  (influenceMatrix y x).bind fun M =>
  (gauss M stateVector).bind fun g =>
  (if g.success then applySolution y g.unlockSequence box else some box).bind fun box' =>
  (box'.isLocked).bind fun locked =>
  some (box', locked)

/-- Function `openBox` (main.cpp 112-149), the generator being a stream of draws. -/
def openBox (rng : Nat → Nat) (y x : Nat) : Option Bool :=
  (SecureBox.new rng y x).bind fun box => (openBoxFrom y x box).map Prod.snd


/-! ## Vocabulary of the statements -/

/-- Entry `k` of a boolean vector, `false` outside it. -/
def bitAt (v : List Bool) (k : Nat) : Bool :=
  v[k]?.getD false

/-- Entry `(i, j)` of a boolean matrix, `false` outside it. -/
def entry (m : List (List Bool)) (i j : Nat) : Bool :=
  bitAt (m[i]?.getD []) j

/-- A `y` by `x` matrix: `y` rows, each of length `x`. -/
def IsGrid (y x : Nat) (m : List (List Bool)) : Prop :=
  m.length = y ∧ ∀ r ∈ m, r.length = x

instance instDecidableIsGrid (y x : Nat) (m : List (List Bool)) : Decidable (IsGrid y x m) :=
  inferInstanceAs (Decidable (_ ∧ _))

/-- A box whose grid has the declared sizes, as every box built by the constructor has. -/
def SecureBox.WF (sb : SecureBox) : Prop :=
  IsGrid sb.ySize sb.xSize sb.box

instance instDecidableWF (sb : SecureBox) : Decidable sb.WF :=
  inferInstanceAs (Decidable (IsGrid _ _ _))

/-- Apply the toggle calls of a list of coordinates `(row, col)` in order. -/
def applyToggles (sb : SecureBox) : List (Nat × Nat) → Option SecureBox
  | [] => some sb
  | p :: ps => (sb.toggle p.1 p.2).bind fun sb' => applyToggles sb' ps

/-- Every coordinate of the list lies inside a `y` by `x` grid. -/
def InBounds (y x : Nat) (l : List (Nat × Nat)) : Prop :=
  ∀ p ∈ l, p.1 < y ∧ p.2 < x

instance instDecidableInBounds (y x : Nat) (l : List (Nat × Nat)) : Decidable (InBounds y x l) :=
  inferInstanceAs (Decidable (∀ p ∈ l, _))

/-- Parity of the number of toggles of the list that touch cell `(r, c)`. -/
def flips : List (Nat × Nat) → Nat → Nat → Bool
  | [], _, _ => false
  | p :: ps, r, c => xor (decide (r = p.1 ∨ c = p.2)) (flips ps r c)

/-- XOR of `f 0, ..., f (n - 1)`: the sum over GF(2). -/
def xorSum (f : Nat → Bool) : Nat → Bool
  | 0 => false
  | n + 1 => xor (xorSum f n) (f n)

/-- The GF(2) product of a matrix row with a vector: the XOR over `j` of `r[j] AND x[j]`. -/
def dot (r x : List Bool) : Bool :=
  xorSum (fun j => bitAt r j && bitAt x j) r.length

/-- The vector `x` satisfies every equation of the system: row `i` of `A` times `x` is `b[i]`. -/
def Solves (A : List (List Bool)) (b x : List Bool) : Prop :=
  ∀ i, i < A.length → dot (A[i]?.getD []) x = bitAt b i

instance instDecidableSolves (A : List (List Bool)) (b x : List Bool) :
    Decidable (Solves A b x) :=
  inferInstanceAs (Decidable (∀ i, i < A.length → _))

/-- The same, over the entries of an `n` by `m` matrix. -/
def Sat (n m : Nat) (A : List (List Bool)) (b x : List Bool) : Prop :=
  ∀ i, i < n → xorSum (fun j => entry A i j && bitAt x j) m = bitAt b i

/-- The transposition of the row indices `i` and `r`. -/
def swapIdx (i r k : Nat) : Nat :=
  if k = r then i else if k = i then r else k

/-- Invariant of the forward elimination of `gauss` on entering column `col` with state
`s`, for the `n` by `m` input `A0`, `b0`: the shapes are kept; the rows from the cursor on
vanish in every column before `col`; every row `k` before the cursor has a pivot column
`c < col` in which it holds the only true entry and before which it is false; and the
systems `(A0, b0)` and `(s.A, s.b)` have the same solutions. -/
def FwdInv (n m : Nat) (A0 : List (List Bool)) (b0 : List Bool) (col : Nat) (s : GaussState) :
    Prop :=
  IsGrid n m s.A ∧ s.b.length = n ∧ s.row ≤ n ∧
  (∀ i j, s.row ≤ i → i < n → j < col → entry s.A i j = false) ∧
  (∀ k, k < s.row → ∃ c, c < col ∧ c < m ∧ entry s.A k c = true ∧
    (∀ j, j < c → entry s.A k j = false) ∧ ∀ i, i ≠ k → entry s.A i c = false) ∧
  (∀ x, Sat n m A0 b0 x ↔ Sat n m s.A s.b x)

/-- Column `j` is the leading column of row `k`: its first true entry. -/
def Leads (A : List (List Bool)) (k j : Nat) : Prop :=
  entry A k j = true ∧ ∀ j', j' < j → entry A k j' = false

/-- A state the constructor can leave behind: the blank `y` by `x` box after a finite
sequence of in-bounds toggle calls. -/
def Reachable (y x : Nat) (sb : SecureBox) : Prop :=
  ∃ l, InBounds y x l ∧ applyToggles (SecureBox.blank y x) l = some sb

/-- The toggle calls made by the loop at lines 137-144 of `openBox` over the part of the
solution that starts at index `i`: the coordinate `(k % y, k / y)` for every index `k`
whose entry is true, in increasing order of `k`. -/
def firedFrom (y : Nat) : List Bool → Nat → List (Nat × Nat)
  | [], _ => []
  | b :: bs, i =>
    if b then (i % y, i / y) :: firedFrom y bs (i + 1) else firedFrom y bs (i + 1)

/-- The toggle calls `openBox` makes when it applies the solution vector `solution`. -/
def firedToggles (y : Nat) (solution : List Bool) : List (Nat × Nat) :=
  firedFrom y solution 0

/-- The `n + 1` by `k + 1` box whose only true cell is `(0, 0)`. -/
def SecureBox.cornerLocked (n k : Nat) : SecureBox :=
  { box := (true :: List.replicate k false) :: List.replicate n (List.replicate (k + 1) false),
    ySize := n + 1, xSize := k + 1 }

/-- The variant of `eliminate` that the refinement claim compares with: the whole pivot
row, all columns `0 .. mSize - 1`, is XORed into each target row (in `eliminate` the
inner loop starts at `col`). -/
def eliminateWholeRow (nSize mSize col row : Nat) (s : List (List Bool) × List Bool) :
    Option (List (List Bool) × List Bool) :=
  forLoop (fun i s =>
    if i ≠ row then
      (cellAt s.1 i col).bind fun t =>
        if t then
          (xorRowFrom mSize 0 i row s.1).bind fun A' =>
          (readAt s.2 i).bind fun bi =>
          (readAt s.2 row).bind fun br =>
          (writeAt s.2 i (xor bi br)).bind fun b' =>
          some (A', b')
        else some s
    else some s)
    nSize 0 s

/-- The forward elimination of `gauss` with `eliminateWholeRow` in place of `eliminate`. -/
def forwardLoopWholeRow (nSize mSize : Nat) : Nat → Nat → GaussState → Option GaussState
  | 0, _, s => some s
  | f + 1, col, s =>
    if s.row < nSize then
      (pivotSearch col s.row (nSize - s.row) s.row (s.A, s.b)).bind fun s1 =>
      (cellAt s1.1 s.row col).bind fun p =>
        if !p then
          forwardLoopWholeRow nSize mSize f (col + 1) { A := s1.1, b := s1.2, row := s.row }
        else
          (eliminateWholeRow nSize mSize col s.row s1).bind fun s2 =>
          forwardLoopWholeRow nSize mSize f (col + 1)
            { A := s2.1, b := s2.2, row := s.row + 1 }
    else some s

/-- The variant of `gauss` that XORs whole rows: `gauss` with `forwardLoopWholeRow` in
place of `forwardLoop`, everything else as in the source. -/
def gaussWholeRow (influenceMatrix : List (List Bool)) (stateVector : List Bool) :
    Option GaussResult :=
  let nSize := influenceMatrix.length
  (readAt influenceMatrix 0).bind fun r0 =>
  let mSize := r0.length
  let x0 := List.replicate mSize false
  (forwardLoopWholeRow nSize mSize mSize 0
    { A := influenceMatrix, b := stateVector, row := 0 }).bind fun s =>
  (anyLoop (fun i => readAt s.b i) (nSize - s.row) s.row).bind fun inconsistent =>
    if inconsistent then
      some { success := false, influenceMatrix := s.A, stateVector := s.b, unlockSequence := x0 }
    else
      (forLoop (fun i x => backSubRow s.A s.b i mSize 0 x) s.row 0 x0).bind fun x =>
      some { success := true, influenceMatrix := s.A, stateVector := s.b, unlockSequence := x }

/-! # Theorems -/

/-! ## Checked reads and writes -/

theorem readAt_eq_some {α : Type} (v : List α) (i : Nat) (h : i < v.length) :
    readAt v i = some (v.get ⟨i, h⟩) := by
  simp [readAt, List.getElem?_eq_getElem h]

theorem readAt_bool (v : List Bool) (i : Nat) (h : i < v.length) :
    readAt v i = some (bitAt v i) := by
  simp [readAt, bitAt, List.getElem?_eq_getElem h]

theorem readAt_row (m : List (List Bool)) (i : Nat) (h : i < m.length) :
    readAt m i = some (m[i]?.getD []) := by
  simp [readAt, List.getElem?_eq_getElem h]

theorem writeAt_eq_some {α : Type} (v : List α) (i : Nat) (a : α) (h : i < v.length) :
    writeAt v i a = some (v.set i a) := by
  simp [writeAt, h]

theorem bitAt_of_le (v : List Bool) (k : Nat) (h : v.length ≤ k) : bitAt v k = false := by
  simp [bitAt, List.getElem?_eq_none h]

theorem bitAt_set (v : List Bool) (i k : Nat) (a : Bool) :
    bitAt (v.set i a) k = if k = i ∧ i < v.length then a else bitAt v k := by
  unfold bitAt
  by_cases hk : k = i
  · subst hk
    by_cases hl : k < v.length
    · simp [hl]
    · have h1 : (v.set k a).length ≤ k := by simp; omega
      simp [hl, List.getElem?_eq_none (Nat.le_of_not_lt hl), List.getElem?_eq_none h1]
  · have : i ≠ k := fun h => hk h.symm
    simp [hk, List.getElem?_set_ne this]

theorem bitAt_replicate (n k : Nat) : bitAt (List.replicate n false) k = false := by
  unfold bitAt
  by_cases h : k < n
  · simp [List.getElem?_replicate, h]
  · simp [List.getElem?_replicate, h]

theorem vec_ext (v w : List Bool) (hl : v.length = w.length)
    (h : ∀ k, k < v.length → bitAt v k = bitAt w k) : v = w := by
  apply List.ext_getElem hl
  intro k h1 h2
  have := h k h1
  simpa [bitAt, List.getElem?_eq_getElem h1, List.getElem?_eq_getElem h2] using this

theorem isGrid_row (y x : Nat) (m : List (List Bool)) (hm : IsGrid y x m) (i : Nat) (hi : i < y) :
    (m[i]?.getD []).length = x := by
  obtain ⟨hl, hr⟩ := hm
  have h : i < m.length := by omega
  rw [List.getElem?_eq_getElem h]
  exact hr _ (List.getElem_mem h)

theorem entry_of_row_le (m : List (List Bool)) (i j : Nat) (h : m.length ≤ i) :
    entry m i j = false := by
  simp [entry, bitAt, List.getElem?_eq_none h]

theorem entry_of_col_le (y x : Nat) (m : List (List Bool)) (hm : IsGrid y x m) (i j : Nat)
    (h : x ≤ j) : entry m i j = false := by
  by_cases hi : i < y
  · unfold entry
    apply bitAt_of_le
    rw [isGrid_row y x m hm i hi]; exact h
  · exact entry_of_row_le m i j (by rw [hm.1]; omega)

theorem grid_ext (y x : Nat) (m m' : List (List Bool)) (hm : IsGrid y x m) (hm' : IsGrid y x m')
    (h : ∀ i j, i < y → j < x → entry m i j = entry m' i j) : m = m' := by
  apply List.ext_getElem (by rw [hm.1, hm'.1])
  intro i h1 h2
  have hi : i < y := by rw [← hm.1]; exact h1
  have e1 := isGrid_row y x m hm i hi
  have e2 := isGrid_row y x m' hm' i hi
  have := vec_ext (m[i]?.getD []) (m'[i]?.getD []) (by rw [e1, e2])
    (fun k hk => h i k hi (by rw [← e1]; exact hk))
  simpa [List.getElem?_eq_getElem h1, List.getElem?_eq_getElem h2] using this

theorem cellAt_eq_some (y x : Nat) (m : List (List Bool)) (hm : IsGrid y x m) (i j : Nat)
    (hi : i < y) (hj : j < x) : cellAt m i j = some (entry m i j) := by
  have h1 : i < m.length := by rw [hm.1]; exact hi
  have h2 : j < (m[i]?.getD []).length := by rw [isGrid_row y x m hm i hi]; exact hj
  simp [cellAt, readAt_row m i h1, entry, readAt_bool _ j h2]

theorem isGrid_set (y x : Nat) (m : List (List Bool)) (hm : IsGrid y x m) (i : Nat)
    (r : List Bool) (hr : r.length = x) : IsGrid y x (m.set i r) := by
  refine ⟨by simp [hm.1], ?_⟩
  intro r' hr'
  rcases List.mem_or_eq_of_mem_set hr' with h | h
  · exact hm.2 _ h
  · rw [h]; exact hr

theorem entry_set (m : List (List Bool)) (i : Nat) (r : List Bool) (hi : i < m.length)
    (a c : Nat) : entry (m.set i r) a c = if a = i then bitAt r c else entry m a c := by
  unfold entry
  by_cases h : a = i
  · subst h; simp [hi]
  · have : i ≠ a := fun e => h e.symm
    simp [h, List.getElem?_set_ne this]

theorem setCell_spec (y x : Nat) (m : List (List Bool)) (hm : IsGrid y x m) (i j : Nat)
    (hi : i < y) (hj : j < x) (v : Bool) :
    ∃ m', setCell m i j v = some m' ∧ IsGrid y x m' ∧
      ∀ a c, entry m' a c = if a = i ∧ c = j then v else entry m a c := by
  have h1 : i < m.length := by rw [hm.1]; exact hi
  have hrow := isGrid_row y x m hm i hi
  have h2 : j < (m[i]?.getD []).length := by rw [hrow]; exact hj
  refine ⟨m.set i ((m[i]?.getD []).set j v), ?_, ?_, ?_⟩
  · simp [setCell, readAt_row m i h1, writeAt_eq_some _ j v h2, writeAt_eq_some _ i _ h1]
  · exact isGrid_set y x m hm i _ (by simp [hrow])
  · intro a c
    rw [entry_set m i _ h1]
    by_cases ha : a = i
    · subst ha
      rw [bitAt_set]
      by_cases hc : c = j
      · simp [hc, h2]
      · simp [hc, entry]
    · simp [ha]

theorem flipCell_spec (y x : Nat) (m : List (List Bool)) (hm : IsGrid y x m) (i j : Nat)
    (hi : i < y) (hj : j < x) :
    ∃ m', flipCell m i j = some m' ∧ IsGrid y x m' ∧
      ∀ a c, entry m' a c = xor (entry m a c) (decide (a = i ∧ c = j)) := by
  obtain ⟨m', h1, h2, h3⟩ := setCell_spec y x m hm i j hi hj (!entry m i j)
  refine ⟨m', ?_, h2, ?_⟩
  · simp [flipCell, cellAt_eq_some y x m hm i j hi hj, h1]
  · intro a c
    rw [h3]
    by_cases h : a = i ∧ c = j
    · obtain ⟨rfl, rfl⟩ := h; simp
    · simp [h]

/-! ## Loops -/

theorem forLoop_invariant {σ : Type} (P : Nat → σ → Prop) (body : Nat → σ → Option σ) :
    ∀ (n i : Nat) (s : σ), P i s →
      (∀ k t, i ≤ k → k < i + n → P k t → ∃ t', body k t = some t' ∧ P (k + 1) t') →
      ∃ t, forLoop body n i s = some t ∧ P (i + n) t := by
  intro n
  induction n with
  | zero => intro i s h0 _; exact ⟨s, rfl, h0⟩
  | succ n ih =>
    intro i s h0 hstep
    obtain ⟨t', hb, hP⟩ := hstep i s (Nat.le_refl i) (by omega) h0
    obtain ⟨t, ht, hPt⟩ := ih (i + 1) t' hP (fun k t hk1 hk2 hk => hstep k t (by omega) (by omega) hk)
    refine ⟨t, ?_, ?_⟩
    · simp [forLoop, hb, ht]
    · have : i + (n + 1) = i + 1 + n := by omega
      rw [this]; exact hPt

theorem anyLoop_eq (test : Nat → Option Bool) (f : Nat → Bool) :
    ∀ (n i : Nat), (∀ k, i ≤ k → k < i + n → test k = some (f k)) →
      anyLoop test n i = some ((List.range' i n).any f) := by
  intro n
  induction n with
  | zero => intro i _; simp [anyLoop]
  | succ n ih =>
    intro i h
    have h0 := h i (Nat.le_refl i) (by omega)
    have h1 := ih (i + 1) (fun k hk1 hk2 => h k (by omega) (by omega))
    cases hf : f i <;> simp [anyLoop, h0, h1, hf, List.range'_succ]

/-! ## toggle -/

theorem xor_decide_succ (e : Bool) (p : Prop) [Decidable p] (c k : Nat) :
    xor (xor e (decide (p ∧ c < k))) (decide (p ∧ c = k)) = xor e (decide (p ∧ c < k + 1)) := by
  by_cases hp : p
  · by_cases h1 : c < k
    · have h2 : c ≠ k := by omega
      have h3 : c < k + 1 := by omega
      simp [hp, h1, h2, h3]
    · by_cases h2 : c = k
      · have h3 : c < k + 1 := by omega
        simp [hp, h1, h2]
      · have h3 : ¬ c < k + 1 := by omega
        simp [hp, h1, h2, h3]
  · simp [hp]

theorem toggle_entries (sb : SecureBox) (hwf : sb.WF) (row col : Nat)
    (hr : row < sb.ySize) (hc : col < sb.xSize) :
    ∃ sb', sb.toggle row col = some sb' ∧ sb'.ySize = sb.ySize ∧ sb'.xSize = sb.xSize ∧
      sb'.WF ∧ ∀ r c, r < sb.ySize → c < sb.xSize →
        entry sb'.box r c = xor (entry sb.box r c) (decide (r = row ∨ c = col)) := by
  obtain ⟨b0, hb0, hg0, he0⟩ := flipCell_spec sb.ySize sb.xSize sb.box hwf row col hr hc
  obtain ⟨b1, hb1, hg1, he1⟩ := forLoop_invariant
    (fun k b => IsGrid sb.ySize sb.xSize b ∧ ∀ a c, entry b a c =
      xor (entry b0 a c) (decide (a = row ∧ c < k)))
    (fun i b => flipCell b row i) sb.xSize 0 b0 ⟨hg0, by simp⟩
    (by
      intro k t _ hk ⟨hg, he⟩
      obtain ⟨t', ht', hg', he'⟩ := flipCell_spec sb.ySize sb.xSize t hg row k hr (by omega)
      refine ⟨t', ht', hg', ?_⟩
      intro a c
      rw [he', he, xor_decide_succ])
  obtain ⟨b2, hb2, hg2, he2⟩ := forLoop_invariant
    (fun k b => IsGrid sb.ySize sb.xSize b ∧ ∀ a c, entry b a c =
      xor (entry b1 a c) (decide (c = col ∧ a < k)))
    (fun i b => flipCell b i col) sb.ySize 0 b1 ⟨hg1, by simp⟩
    (by
      intro k t _ hk ⟨hg, he⟩
      obtain ⟨t', ht', hg', he'⟩ := flipCell_spec sb.ySize sb.xSize t hg k col (by omega) hc
      refine ⟨t', ht', hg', ?_⟩
      intro a c
      rw [he', he, ← xor_decide_succ]
      simp [and_comm])
  refine ⟨{ sb with box := b2 }, ?_, rfl, rfl, hg2, ?_⟩
  · simp [SecureBox.toggle, hb0, hb1, hb2]
  · intro r c hr' hc'
    rw [he2, he1, he0]
    simp only [Nat.zero_add]
    by_cases h1 : r = row <;> by_cases h2 : c = col <;> simp [h1, h2, hr', hc']
    simp [hr, hc]

theorem secureBox_ext (a b : SecureBox) (h1 : a.box = b.box) (h2 : a.ySize = b.ySize)
    (h3 : a.xSize = b.xSize) : a = b := by
  cases a; cases b; simp_all

theorem toggle_twice_eq (sb : SecureBox) (hwf : sb.WF) (row col : Nat)
    (hr : row < sb.ySize) (hc : col < sb.xSize) :
    (sb.toggle row col).bind (fun t => t.toggle row col) = some sb := by
  obtain ⟨t, ht, hy, hx, hw, he⟩ := toggle_entries sb hwf row col hr hc
  obtain ⟨t2, ht2, hy2, hx2, hw2, he2⟩ := toggle_entries t hw row col (by omega) (by omega)
  have : t2 = sb := by
    apply secureBox_ext _ _ _ (by omega) (by omega)
    apply grid_ext sb.ySize sb.xSize
    · rw [← hy, ← hx, ← hy2, ← hx2]; exact hw2
    · exact hwf
    · intro i j hi hj
      rw [he2 i j (by omega) (by omega), he i j hi hj]
      simp
  simp [ht, ht2, this]

theorem flips_perm (l l' : List (Nat × Nat)) (h : l.Perm l') (r c : Nat) :
    flips l r c = flips l' r c := by
  induction h with
  | nil => rfl
  | cons p _ ih => simp [flips, ih]
  | swap p q l =>
    simp only [flips]
    cases decide (r = p.1 ∨ c = p.2) <;> cases decide (r = q.1 ∨ c = q.2) <;> simp
  | trans _ _ ih1 ih2 => rw [ih1, ih2]

theorem applyToggles_entries (l : List (Nat × Nat)) :
    ∀ (sb : SecureBox), sb.WF → InBounds sb.ySize sb.xSize l →
      ∃ t, applyToggles sb l = some t ∧ t.ySize = sb.ySize ∧ t.xSize = sb.xSize ∧ t.WF ∧
        ∀ r c, r < sb.ySize → c < sb.xSize →
          entry t.box r c = xor (entry sb.box r c) (flips l r c) := by
  induction l with
  | nil =>
    intro sb hwf _
    exact ⟨sb, rfl, rfl, rfl, hwf, by simp [flips]⟩
  | cons p ps ih =>
    intro sb hwf hin
    have hp := hin p (List.mem_cons_self _ _)
    obtain ⟨t, ht, hy, hx, hw, he⟩ := toggle_entries sb hwf p.1 p.2 hp.1 hp.2
    have hin' : InBounds t.ySize t.xSize ps := by
      intro q hq
      rw [hy, hx]
      exact hin q (List.mem_cons_of_mem _ hq)
    obtain ⟨u, hu, hy', hx', hw', he'⟩ := ih t hw hin'
    refine ⟨u, ?_, by omega, by omega, hw', ?_⟩
    · simp [applyToggles, ht, hu]
    · intro r c hr hc
      rw [he' r c (by omega) (by omega), he r c hr hc]
      simp [flips]

theorem applyToggles_perm (sb : SecureBox) (hwf : sb.WF) (l l' : List (Nat × Nat))
    (hp : l.Perm l') (hin : InBounds sb.ySize sb.xSize l) :
    ∃ t, applyToggles sb l = some t ∧ applyToggles sb l' = some t := by
  have hin' : InBounds sb.ySize sb.xSize l' := fun p hp' => hin p (hp.mem_iff.mpr hp')
  obtain ⟨t, ht, hy, hx, hw, he⟩ := applyToggles_entries l sb hwf hin
  obtain ⟨t', ht', hy', hx', hw', he'⟩ := applyToggles_entries l' sb hwf hin'
  refine ⟨t, ht, ?_⟩
  rw [ht']
  congr 1
  apply secureBox_ext _ _ _ (by omega) (by omega)
  apply grid_ext sb.ySize sb.xSize
  · rw [← hy', ← hx']; exact hw'
  · rw [← hy, ← hx]; exact hw
  · intro i j hi hj
    rw [he i j hi hj, he' i j hi hj, flips_perm l l' hp]

/-! ### Claims about toggle -/

/-- C6: on a `ySize` by `xSize` grid, `toggle(row, col)` with `row < ySize` and
`col < xSize` succeeds, keeps the sizes, negates every cell `(r, c)` with `r = row` or
`c = col` (the cell `(row, col)` included, although it is written three times) and leaves
every cell with `r ≠ row` and `c ≠ col` unchanged. -/
theorem toggle_negates_row_and_column (sb : SecureBox) (hwf : sb.WF) (row col : Nat)
    (hr : row < sb.ySize) (hc : col < sb.xSize) :
    ∃ sb', sb.toggle row col = some sb' ∧ sb'.ySize = sb.ySize ∧ sb'.xSize = sb.xSize ∧
      sb'.WF ∧ ∀ r c, r < sb.ySize → c < sb.xSize →
        ((r = row ∨ c = col) → entry sb'.box r c = !entry sb.box r c) ∧
        ((r ≠ row ∧ c ≠ col) → entry sb'.box r c = entry sb.box r c) := by
  obtain ⟨t, ht, hy, hx, hw, he⟩ := toggle_entries sb hwf row col hr hc
  refine ⟨t, ht, hy, hx, hw, ?_⟩
  intro r c hr' hc'
  rw [he r c hr' hc']
  constructor
  · intro h; simp [h]
  · intro h
    have : ¬ (r = row ∨ c = col) := by
      rintro (h1 | h1)
      · exact h.1 h1
      · exact h.2 h1
    simp [this]

/-- Witness of C6 on the 2 by 3 grid `[[1,0,1],[0,0,1]]` toggled at `(0, 1)`. -/
theorem toggle_negates_row_and_column_witness :
    (SecureBox.mk [[true, false, true], [false, false, true]] 2 3).WF ∧ 0 < 2 ∧ 1 < 3 ∧
    ∃ sb', (SecureBox.mk [[true, false, true], [false, false, true]] 2 3).toggle 0 1 = some sb' ∧
      sb'.ySize = 2 ∧ sb'.xSize = 3 ∧ sb'.WF ∧ ∀ r c, r < 2 → c < 3 →
        ((r = 0 ∨ c = 1) → entry sb'.box r c =
          !entry (SecureBox.mk [[true, false, true], [false, false, true]] 2 3).box r c) ∧
        ((r ≠ 0 ∧ c ≠ 1) → entry sb'.box r c =
          entry (SecureBox.mk [[true, false, true], [false, false, true]] 2 3).box r c) :=
  ⟨by decide, by decide, by decide,
    toggle_negates_row_and_column (SecureBox.mk [[true, false, true], [false, false, true]] 2 3)
      (by decide) 0 1 (by decide) (by decide)⟩

/-- C8: on a `ySize` by `xSize` grid, `toggle(row, col)` applied twice in succession with
`row < ySize` and `col < xSize` succeeds both times and gives back exactly the grid it
started from. -/
theorem toggle_involution (sb : SecureBox) (hwf : sb.WF) (row col : Nat)
    (hr : row < sb.ySize) (hc : col < sb.xSize) :
    ∃ t, sb.toggle row col = some t ∧ t.toggle row col = some sb := by
  obtain ⟨t, ht, _, _, _, _⟩ := toggle_entries sb hwf row col hr hc
  have h := toggle_twice_eq sb hwf row col hr hc
  rw [ht] at h
  exact ⟨t, ht, h⟩

/-- Witness of C8 on the 2 by 3 grid `[[1,0,1],[0,0,1]]` toggled at `(1, 2)`. -/
theorem toggle_involution_witness :
    (SecureBox.mk [[true, false, true], [false, false, true]] 2 3).WF ∧ 1 < 2 ∧ 2 < 3 ∧
    ∃ t, (SecureBox.mk [[true, false, true], [false, false, true]] 2 3).toggle 1 2 = some t ∧
      t.toggle 1 2 = some (SecureBox.mk [[true, false, true], [false, false, true]] 2 3) :=
  ⟨by decide, by decide, by decide,
    toggle_involution (SecureBox.mk [[true, false, true], [false, false, true]] 2 3)
      (by decide) 1 2 (by decide) (by decide)⟩

/-- C9: on a `ySize` by `xSize` grid, a list `l` of in-bounds toggle coordinates applied
in order and any permutation `l'` of it applied in order both succeed and end in the same
box; in particular, for in-bounds `a` and `b`, `toggle(a)` then `toggle(b)` ends in the
same box as `toggle(b)` then `toggle(a)`. -/
theorem toggles_commute (sb : SecureBox) (hwf : sb.WF) (l l' : List (Nat × Nat))
    (hp : l.Perm l') (hin : InBounds sb.ySize sb.xSize l) (a b : Nat × Nat)
    (ha : a.1 < sb.ySize ∧ a.2 < sb.xSize) (hb : b.1 < sb.ySize ∧ b.2 < sb.xSize) :
    (∃ t, applyToggles sb l = some t ∧ applyToggles sb l' = some t) ∧
    (∃ t, (sb.toggle a.1 a.2).bind (fun u => u.toggle b.1 b.2) = some t ∧
        (sb.toggle b.1 b.2).bind (fun u => u.toggle a.1 a.2) = some t) := by
  refine ⟨applyToggles_perm sb hwf l l' hp hin, ?_⟩
  have hin2 : InBounds sb.ySize sb.xSize [a, b] := by
    intro p hp
    simp at hp
    rcases hp with rfl | rfl
    · exact ha
    · exact hb
  obtain ⟨t, h1, h2⟩ := applyToggles_perm sb hwf [a, b] [b, a] (List.Perm.swap b a []) hin2
  refine ⟨t, ?_, ?_⟩
  · rw [← h1]
    simp only [applyToggles]
    congr 1; funext u
    cases u.toggle b.1 b.2 <;> rfl
  · rw [← h2]
    simp only [applyToggles]
    congr 1; funext u
    cases u.toggle a.1 a.2 <;> rfl

/-- Witness of C9 on the 2 by 3 grid `[[1,0,1],[0,0,1]]`: the toggles `(0,1), (1,2), (0,0)`
against the order `(1,2), (0,0), (0,1)`, and the pair `(0,2)`, `(1,0)`. -/
theorem toggles_commute_witness :
    (SecureBox.mk [[true, false, true], [false, false, true]] 2 3).WF ∧
    [(0, 1), (1, 2), (0, 0)].Perm [(1, 2), (0, 0), (0, 1)] ∧
    InBounds 2 3 [(0, 1), (1, 2), (0, 0)] ∧ (0 < 2 ∧ 2 < 3) ∧ (1 < 2 ∧ 0 < 3) ∧
    (∃ t, applyToggles (SecureBox.mk [[true, false, true], [false, false, true]] 2 3)
          [(0, 1), (1, 2), (0, 0)] = some t ∧
        applyToggles (SecureBox.mk [[true, false, true], [false, false, true]] 2 3)
          [(1, 2), (0, 0), (0, 1)] = some t) ∧
    (∃ t, ((SecureBox.mk [[true, false, true], [false, false, true]] 2 3).toggle 0 2).bind
          (fun u => u.toggle 1 0) = some t ∧
        ((SecureBox.mk [[true, false, true], [false, false, true]] 2 3).toggle 1 0).bind
          (fun u => u.toggle 0 2) = some t) :=
  ⟨by decide, by decide, by decide, by decide, by decide,
    toggles_commute (SecureBox.mk [[true, false, true], [false, false, true]] 2 3) (by decide)
      [(0, 1), (1, 2), (0, 0)] [(1, 2), (0, 0), (0, 1)] (by decide) (by decide) (0, 2) (1, 0)
      (by decide) (by decide)⟩

/-! ## Flat indices -/

theorem flat_index_iff (Y k i y : Nat) (hy : y < Y) :
    k = i * Y + y ↔ k % Y = y ∧ k / Y = i := by
  have hY : 0 < Y := by omega
  constructor
  · intro h
    subst h
    constructor
    · rw [Nat.mul_comm, Nat.mul_add_mod, Nat.mod_eq_of_lt hy]
    · rw [Nat.mul_comm, Nat.mul_add_div hY, Nat.div_eq_of_lt hy, Nat.add_zero]
  · rintro ⟨h1, h2⟩
    have := Nat.div_add_mod k Y
    rw [h1, h2, Nat.mul_comm] at this
    exact this.symm

theorem flat_index_lt (Y X i y : Nat) (hi : i < X) (hy : y < Y) : i * Y + y < Y * X := by
  have h1 : (i + 1) * Y ≤ X * Y := Nat.mul_le_mul_right Y hi
  have h2 : (i + 1) * Y = i * Y + Y := by ring
  have h3 : X * Y = Y * X := Nat.mul_comm X Y
  omega

theorem flat_index_mod (Y X i y : Nat) (hi : i < X) (hy : y < Y) (hN : Y * X < u32) :
    (i * Y + y) % u32 = i * Y + y :=
  Nat.mod_eq_of_lt (Nat.lt_trans (flat_index_lt Y X i y hi hy) hN)

theorem writeAt_true_spec (v : List Bool) (i : Nat) (h : i < v.length) :
    ∃ w, writeAt v i true = some w ∧ w.length = v.length ∧
      ∀ k, bitAt w k = (bitAt v k || decide (k = i)) := by
  refine ⟨v.set i true, writeAt_eq_some v i true h, by simp, ?_⟩
  intro k
  rw [bitAt_set]
  by_cases hk : k = i <;> simp [hk, h]

/-! ## elementInfluence -/

theorem elementInfluence_spec (y x Y X : Nat) (hy : y < Y) (hx : x < X) (hN : Y * X < u32) :
    ∃ e, elementInfluence y x Y X = some e ∧ e.length = Y * X ∧
      ∀ k, k < Y * X → bitAt e k = decide (k % Y = y ∨ k / Y = x) := by
  have hmod : Y * X % u32 = Y * X := Nat.mod_eq_of_lt hN
  obtain ⟨r1, hr1, hl1, he1⟩ := forLoop_invariant
    (fun i res => res.length = Y * X ∧
      ∀ k, bitAt res k = decide (k % Y = y ∧ k / Y < i))
    (fun i res => writeAt res ((i * Y + y) % u32) true) X 0
    (List.replicate (Y * X % u32) false)
    ⟨by simp [hmod], by intro k; simp [bitAt_replicate]⟩
    (by
      intro i t _ hi ⟨hl, he⟩
      have hi' : i < X := by omega
      beta_reduce
      rw [flat_index_mod Y X i y hi' hy hN]
      obtain ⟨w, hw, hwl, hwe⟩ := writeAt_true_spec t (i * Y + y)
        (by rw [hl]; exact flat_index_lt Y X i y hi' hy)
      refine ⟨w, hw, by rw [hwl, hl], ?_⟩
      intro k
      rw [hwe, he]
      have := flat_index_iff Y k i y hy
      by_cases h1 : k % Y = y <;> by_cases h2 : k / Y < i <;>
        by_cases h3 : k / Y = i <;> simp [h1, h2, h3, this] <;> omega)
  obtain ⟨r2, hr2, hl2, he2⟩ := forLoop_invariant
    (fun i res => res.length = Y * X ∧
      ∀ k, bitAt res k = (bitAt r1 k || decide (k / Y = x ∧ k % Y < i)))
    (fun i res => writeAt res ((x * Y + i) % u32) true) Y 0 r1
    ⟨hl1, by intro k; simp⟩
    (by
      intro i t _ hi ⟨hl, he⟩
      have hi' : i < Y := by omega
      beta_reduce
      rw [flat_index_mod Y X x i hx hi' hN]
      obtain ⟨w, hw, hwl, hwe⟩ := writeAt_true_spec t (x * Y + i)
        (by rw [hl]; exact flat_index_lt Y X x i hx hi')
      refine ⟨w, hw, by rw [hwl, hl], ?_⟩
      intro k
      rw [hwe, he]
      have := flat_index_iff Y k x i hi'
      by_cases h1 : k / Y = x <;> by_cases h2 : k % Y < i <;>
        by_cases h3 : k % Y = i <;> simp [h1, h2, h3, this] <;> omega)
  refine ⟨r2, ?_, hl2, ?_⟩
  · simp only [elementInfluence, hr1, Option.some_bind, hr2]
  · intro k hk
    have hY : 0 < Y := by omega
    have h1 : k / Y < X := Nat.div_lt_of_lt_mul hk
    have h2 : k % Y < Y := Nat.mod_lt k hY
    rw [he2, he1]
    simp only [Nat.zero_add]
    by_cases h3 : k % Y = y <;> by_cases h4 : k / Y = x <;> simp [h1, h2, h3, h4]
    exact Or.inl hx

/-! ## boxToVector -/

theorem boxToVector_inner (Y X : Nat) (g : List (List Bool)) (hg : IsGrid Y X g)
    (hN : Y * X < u32) (x : Nat) (hx : x < X) (res : List Bool) (hl : res.length = Y * X)
    (he : ∀ k, k < Y * X → bitAt res k = (decide (k / Y < x) && entry g (k % Y) (k / Y))) :
    ∃ w, forLoop (fun y res => (cellAt g y x).bind fun c =>
        if c then writeAt res ((x * Y + y) % u32) true else some res) Y 0 res = some w ∧
      w.length = Y * X ∧
      ∀ k, k < Y * X → bitAt w k = (decide (k / Y < x + 1) && entry g (k % Y) (k / Y)) := by
  obtain ⟨w, hw, hwl, hwe⟩ := forLoop_invariant
    (fun y res => res.length = Y * X ∧ ∀ k, k < Y * X →
      bitAt res k = (decide (k / Y < x ∨ (k / Y = x ∧ k % Y < y)) && entry g (k % Y) (k / Y)))
    (fun y res => (cellAt g y x).bind fun c =>
        if c then writeAt res ((x * Y + y) % u32) true else some res) Y 0 res
    ⟨hl, by intro k hk; rw [he k hk]; simp⟩
    (by
      intro y t _ hy ⟨htl, hte⟩
      have hy' : y < Y := by omega
      beta_reduce
      rw [cellAt_eq_some Y X g hg y x hy' hx, Option.some_bind,
        flat_index_mod Y X x y hx hy' hN]
      have hflat := fun k => flat_index_iff Y k x y hy'
      cases hc : entry g y x
      · refine ⟨t, by simp, htl, ?_⟩
        intro k hk
        rw [hte k hk]
        by_cases h1 : k / Y = x
        · by_cases h2 : k % Y = y
          · have h3 : ¬ (k / Y < x) := by omega
            simp [h1, h2, hc]
          · have h3 : k % Y < y ↔ k % Y < y + 1 := by omega
            simp [h1, h3]
        · simp [h1]
      · obtain ⟨w, hw, hwl, hwe⟩ := writeAt_true_spec t (x * Y + y)
          (by rw [htl]; exact flat_index_lt Y X x y hx hy')
        refine ⟨w, by simp [hw], by rw [hwl, htl], ?_⟩
        intro k hk
        have hd : decide (k = x * Y + y) = decide (k % Y = y ∧ k / Y = x) :=
          decide_eq_decide.mpr (hflat k)
        rw [hwe, hte k hk, hd]
        by_cases h1 : k / Y = x
        · by_cases h2 : k % Y = y
          · simp [h1, h2, hc]
          · have h3 : k % Y < y ↔ k % Y < y + 1 := by omega
            simp [h1, h2, h3]
        · simp [h1])
  refine ⟨w, hw, hwl, ?_⟩
  intro k hk
  rw [hwe k hk]
  have hY : 0 < Y := by
    rcases Nat.eq_zero_or_pos Y with h | h
    · subst h; simp at hk
    · exact h
  have h2 : k % Y < Y := Nat.mod_lt k hY
  have h3 : (k / Y < x ∨ (k / Y = x ∧ k % Y < 0 + Y)) ↔ k / Y < x + 1 := by omega
  rw [decide_eq_decide.mpr h3]

theorem boxToVector_spec (Y X : Nat) (sb : SecureBox) (hg : IsGrid Y X sb.box)
    (hN : Y * X < u32) :
    ∃ v, boxToVector Y X sb = some v ∧ v.length = Y * X ∧
      ∀ k, k < Y * X → bitAt v k = entry sb.box (k % Y) (k / Y) := by
  have hmod : Y * X % u32 = Y * X := Nat.mod_eq_of_lt hN
  obtain ⟨v, hv, hvl, hve⟩ := forLoop_invariant
    (fun x res => res.length = Y * X ∧ ∀ k, k < Y * X →
      bitAt res k = (decide (k / Y < x) && entry sb.box (k % Y) (k / Y)))
    (fun x res => forLoop (fun y res => (cellAt sb.box y x).bind fun c =>
        if c then writeAt res ((x * Y + y) % u32) true else some res) Y 0 res) X 0
    (List.replicate (Y * X % u32) false)
    ⟨by simp [hmod], by intro k _; simp [bitAt_replicate]⟩
    (by
      intro x t _ hx ⟨htl, hte⟩
      exact boxToVector_inner Y X sb.box hg hN x (by omega) t htl hte)
  refine ⟨v, hv, hvl, ?_⟩
  intro k hk
  rw [hve k hk]
  have h1 : k / Y < 0 + X := by rw [Nat.zero_add]; exact Nat.div_lt_of_lt_mul hk
  rw [decide_eq_true h1, Bool.true_and]

/-! ## The flat encoding of a toggle -/

theorem bitAt_nil (k : Nat) : bitAt [] k = false := by
  simp [bitAt]

theorem bitAt_cons_zero (a : Bool) (v : List Bool) : bitAt (a :: v) 0 = a := by
  simp [bitAt]

theorem bitAt_cons_succ (a : Bool) (v : List Bool) (k : Nat) :
    bitAt (a :: v) (k + 1) = bitAt v k := by
  simp [bitAt]

theorem bitAt_zipWith_xor (v : List Bool) :
    ∀ (e : List Bool), v.length = e.length → ∀ k,
      bitAt (List.zipWith xor v e) k = xor (bitAt v k) (bitAt e k) := by
  induction v with
  | nil =>
    intro e hl k
    have : e = [] := List.length_eq_zero.mp hl.symm
    subst this
    simp [bitAt_nil]
  | cons a v ih =>
    intro e hl k
    cases e with
    | nil => simp at hl
    | cons b e =>
      cases k with
      | zero => simp [bitAt_cons_zero]
      | succ k =>
        simp only [List.zipWith_cons_cons, bitAt_cons_succ]
        exact ih e (by simpa using hl) k

theorem isGrid_blank (y x : Nat) : (SecureBox.blank y x).WF := by
  refine ⟨by simp [SecureBox.blank], ?_⟩
  intro r hr
  simp only [SecureBox.blank] at hr
  rw [List.eq_of_mem_replicate hr]
  simp [SecureBox.blank]

theorem entry_blank (y x r c : Nat) : entry (SecureBox.blank y x).box r c = false := by
  unfold entry SecureBox.blank
  by_cases h : r < y
  · simp [List.getElem?_replicate, h, bitAt_replicate]
  · simp [List.getElem?_replicate, h, bitAt_nil]

theorem elementInfluence_wrap_zero (y x Y X : Nat) (hX : 0 < X) (h : Y * X % u32 = 0) :
    elementInfluence y x Y X = none := by
  cases X with
  | zero => omega
  | succ n => simp [elementInfluence, h, forLoop, writeAt]

theorem boxToVector_toggle (sb : SecureBox) (hwf : sb.WF)
    (hN : sb.ySize * sb.xSize < u32) (row col : Nat)
    (hr : row < sb.ySize) (hc : col < sb.xSize) :
    ∃ sb' v v' e, sb.toggle row col = some sb' ∧
      boxToVector sb.ySize sb.xSize sb = some v ∧
      boxToVector sb.ySize sb.xSize sb' = some v' ∧
      elementInfluence row col sb.ySize sb.xSize = some e ∧
      v' = List.zipWith xor v e := by
  obtain ⟨sb', ht, hy, hx, hw, he⟩ := toggle_entries sb hwf row col hr hc
  obtain ⟨v, hv, hvl, hve⟩ := boxToVector_spec sb.ySize sb.xSize sb hwf hN
  have hw' : IsGrid sb.ySize sb.xSize sb'.box := by rw [← hy, ← hx]; exact hw
  obtain ⟨v', hv', hvl', hve'⟩ := boxToVector_spec sb.ySize sb.xSize sb' hw' hN
  obtain ⟨e, hi, hil, hie⟩ := elementInfluence_spec row col sb.ySize sb.xSize hr hc hN
  refine ⟨sb', v, v', e, ht, hv, hv', hi, ?_⟩
  apply vec_ext
  · simp [hvl, hvl', hil]
  · intro k hk
    rw [hvl'] at hk
    have hY : 0 < sb.ySize := by omega
    rw [bitAt_zipWith_xor v e (by rw [hvl, hil]), hve' k hk, hve k hk, hie k hk,
      he _ _ (Nat.mod_lt k hY) (Nat.div_lt_of_lt_mul hk)]

/-! ### Claims about the flat encoding -/

/-- C7 (amended): for a `ySize` by `xSize` box with `ySize * xSize < 2 ^ 32` and every
`row < ySize`, `col < xSize`, the calls `toggle`, `boxToVector` (before and after the
toggle) and `elementInfluence` all succeed, and `boxToVector` of the toggled box is the
element-wise XOR of `boxToVector` of the original box with
`elementInfluence(row, col, ySize, xSize)`. -/
theorem boxToVector_toggle_is_xor_influence (sb : SecureBox) (hwf : sb.WF)
    (hN : sb.ySize * sb.xSize < u32) (row col : Nat)
    (hr : row < sb.ySize) (hc : col < sb.xSize) :
    ∃ sb' v v' e, sb.toggle row col = some sb' ∧
      boxToVector sb.ySize sb.xSize sb = some v ∧
      boxToVector sb.ySize sb.xSize sb' = some v' ∧
      elementInfluence row col sb.ySize sb.xSize = some e ∧
      v' = List.zipWith xor v e :=
  boxToVector_toggle sb hwf hN row col hr hc

/-- Witness of C7 (amended) on the 2 by 3 grid `[[1,0,1],[0,0,1]]` toggled at `(1, 2)`. -/
theorem boxToVector_toggle_is_xor_influence_witness :
    (SecureBox.mk [[true, false, true], [false, false, true]] 2 3).WF ∧ 2 * 3 < u32 ∧
    1 < 2 ∧ 2 < 3 ∧
    ∃ sb' v v' e,
      (SecureBox.mk [[true, false, true], [false, false, true]] 2 3).toggle 1 2 = some sb' ∧
      boxToVector 2 3 (SecureBox.mk [[true, false, true], [false, false, true]] 2 3) = some v ∧
      boxToVector 2 3 sb' = some v' ∧
      elementInfluence 1 2 2 3 = some e ∧
      v' = List.zipWith xor v e :=
  ⟨by decide, by decide, by decide, by decide,
    boxToVector_toggle_is_xor_influence
      (SecureBox.mk [[true, false, true], [false, false, true]] 2 3)
      (by decide) (by decide) 1 2 (by decide) (by decide)⟩

/-- Counterexample to C7 as stated: for `ySize = xSize = 65536` the `uint32_t` product
`ySize * xSize` wraps to `0`, so `elementInfluence(0, 0, 65536, 65536)` allocates an empty
vector and its first write `result[0]` is out of range; no influence vector exists to
XOR with, already on the all-false 65536 by 65536 box. -/
theorem boxToVector_toggle_is_xor_influence_fails_on_wrap :
    (SecureBox.blank 65536 65536).WF ∧ 1 ≤ 65536 ∧ 65536 < u32 ∧ 0 < 65536 ∧
    ¬ ∃ sb' v v' e, (SecureBox.blank 65536 65536).toggle 0 0 = some sb' ∧
      boxToVector 65536 65536 (SecureBox.blank 65536 65536) = some v ∧
      boxToVector 65536 65536 sb' = some v' ∧
      elementInfluence 0 0 65536 65536 = some e ∧
      v' = List.zipWith xor v e := by
  refine ⟨isGrid_blank 65536 65536, by decide, by decide, by decide, ?_⟩
  rintro ⟨_, _, _, e, _, _, _, he, _⟩
  rw [elementInfluence_wrap_zero 0 0 65536 65536 (by decide) (by decide)] at he
  exact Option.noConfusion he

/-- C10 (amended): for `row < ySize`, `col < xSize` and `ySize * xSize < 2 ^ 32`,
`elementInfluence(row, col, ySize, xSize)` returns a vector of length `ySize * xSize`
whose entry at flat index `k` is true if and only if `k mod ySize = row` or
`k div ySize = col`; in the column-major encoding the entry at `c * ySize + r` is true if
and only if `r = row` or `c = col`. Moreover
`elementInfluence(1, 1, 3, 3) = [0,1,0,1,1,1,0,1,0]`. -/
theorem elementInfluence_marks_row_and_column (row col ySize xSize : Nat)
    (hr : row < ySize) (hc : col < xSize) (hN : ySize * xSize < u32) :
    (∃ e, elementInfluence row col ySize xSize = some e ∧ e.length = ySize * xSize ∧
      (∀ k, k < ySize * xSize → (bitAt e k = true ↔ (k % ySize = row ∨ k / ySize = col))) ∧
      (∀ r c, r < ySize → c < xSize →
        (bitAt e (c * ySize + r) = true ↔ (r = row ∨ c = col)))) ∧
    elementInfluence 1 1 3 3 =
      some [false, true, false, true, true, true, false, true, false] := by
  refine ⟨?_, by decide⟩
  obtain ⟨e, he, hl, hb⟩ := elementInfluence_spec row col ySize xSize hr hc hN
  refine ⟨e, he, hl, ?_, ?_⟩
  · intro k hk
    rw [hb k hk]
    simp
  · intro r c hr' hc'
    obtain ⟨h1, h2⟩ := (flat_index_iff ySize (c * ySize + r) c r hr').mp rfl
    rw [hb _ (flat_index_lt ySize xSize c r hc' hr'), h1, h2]
    simp

/-- Witness of C10 (amended) at `elementInfluence(0, 2, 2, 3)`. -/
theorem elementInfluence_marks_row_and_column_witness :
    0 < 2 ∧ 2 < 3 ∧ 2 * 3 < u32 ∧
    ((∃ e, elementInfluence 0 2 2 3 = some e ∧ e.length = 2 * 3 ∧
      (∀ k, k < 2 * 3 → (bitAt e k = true ↔ (k % 2 = 0 ∨ k / 2 = 2))) ∧
      (∀ r c, r < 2 → c < 3 → (bitAt e (c * 2 + r) = true ↔ (r = 0 ∨ c = 2)))) ∧
    elementInfluence 1 1 3 3 =
      some [false, true, false, true, true, true, false, true, false]) :=
  ⟨by decide, by decide, by decide,
    elementInfluence_marks_row_and_column 0 2 2 3 (by decide) (by decide) (by decide)⟩

/-- Counterexample to C10 as stated: for `ySize = 2 ^ 31` and `xSize = 2` the `uint32_t`
product `ySize * xSize` wraps to `0`, so `elementInfluence(5, 1, 2 ^ 31, 2)` allocates an
empty vector and its first write is out of range: it returns no vector at all, let
alone one of length `2 ^ 32`. -/
theorem elementInfluence_fails_on_wrap :
    1 ≤ 2147483648 ∧ 1 ≤ 2 ∧ 2147483648 < u32 ∧ 5 < 2147483648 ∧ 1 < 2 ∧
    ¬ ∃ e, elementInfluence 5 1 2147483648 2 = some e ∧ e.length = 2147483648 * 2 ∧
      ∀ k, k < 2147483648 * 2 → (bitAt e k = true ↔ (k % 2147483648 = 5 ∨ k / 2147483648 = 1)) := by
  refine ⟨by decide, by decide, by decide, by decide, by decide, ?_⟩
  rintro ⟨e, he, _⟩
  rw [elementInfluence_wrap_zero 5 1 2147483648 2 (by decide) (by decide)] at he
  exact Option.noConfusion he

/-! ## Sums over GF(2) -/

theorem xorSum_congr (f g : Nat → Bool) (n : Nat) (h : ∀ j, j < n → f j = g j) :
    xorSum f n = xorSum g n := by
  induction n with
  | zero => rfl
  | succ n ih =>
    simp only [xorSum]
    rw [ih (fun j hj => h j (by omega)), h n (by omega)]

theorem xorSum_false (n : Nat) : xorSum (fun _ => false) n = false := by
  induction n with
  | zero => rfl
  | succ n ih => simp [xorSum, ih]

theorem xorSum_xor (f g : Nat → Bool) (n : Nat) :
    xorSum (fun j => xor (f j) (g j)) n = xor (xorSum f n) (xorSum g n) := by
  induction n with
  | zero => rfl
  | succ n ih =>
    simp only [xorSum, ih]
    cases xorSum f n <;> cases xorSum g n <;> cases f n <;> cases g n <;> rfl

theorem xorSum_and_left (a : Bool) (f : Nat → Bool) (n : Nat) :
    xorSum (fun j => a && f j) n = (a && xorSum f n) := by
  induction n with
  | zero => simp [xorSum]
  | succ n ih =>
    simp only [xorSum, ih]
    cases a <;> simp

theorem xorSum_single (c : Nat) (v : Bool) (n : Nat) (hc : c < n) :
    xorSum (fun j => decide (j = c) && v) n = v := by
  induction n with
  | zero => omega
  | succ n ih =>
    simp only [xorSum]
    by_cases h : c = n
    · subst h
      rw [xorSum_congr _ (fun _ => false) c (by intro j hj; simp; omega), xorSum_false]
      simp
    · rw [ih (by omega)]
      have : ¬ n = c := fun e => h e.symm
      simp [this]

theorem solves_iff_sat (n m : Nat) (A : List (List Bool)) (hA : IsGrid n m A)
    (b x : List Bool) : Solves A b x ↔ Sat n m A b x := by
  unfold Solves Sat dot
  rw [hA.1]
  constructor
  · intro h i hi
    have := h i hi
    rw [isGrid_row n m A hA i hi] at this
    exact this
  · intro h i hi
    rw [isGrid_row n m A hA i hi]
    exact h i hi

/-! ## Row swaps -/

theorem swapIdx_involutive (i r k : Nat) : swapIdx i r (swapIdx i r k) = k := by
  unfold swapIdx
  by_cases h1 : k = r <;> by_cases h2 : k = i <;> by_cases h3 : i = r <;> simp [h1, h2, h3]

theorem swapIdx_lt (n i r k : Nat) (hi : i < n) (hr : r < n) (hk : k < n) :
    swapIdx i r k < n := by
  unfold swapIdx
  split
  · exact hi
  · split
    · exact hr
    · exact hk

theorem swapIdx_of_lt (row i r k : Nat) (hi : row ≤ i) (hr : row ≤ r) (hk : k < row) :
    swapIdx i r k = k := by
  unfold swapIdx
  have h1 : k ≠ r := by omega
  have h2 : k ≠ i := by omega
  simp [h1, h2]

theorem swapIdx_ge (row i r k : Nat) (hi : row ≤ i) (hr : row ≤ r) (hk : row ≤ k) :
    row ≤ swapIdx i r k := by
  unfold swapIdx
  split
  · exact hi
  · split
    · exact hr
    · exact hk

theorem swapRows_spec (n m : Nat) (A : List (List Bool)) (b : List Bool) (hA : IsGrid n m A)
    (hb : b.length = n) (i r : Nat) (hi : i < n) (hr : r < n) :
    ∃ A' b', swapRows A b i r = some (A', b') ∧ IsGrid n m A' ∧ b'.length = n ∧
      (∀ k j, entry A' k j = entry A (swapIdx i r k) j) ∧
      (∀ k, bitAt b' k = bitAt b (swapIdx i r k)) := by
  have hi' : i < A.length := by rw [hA.1]; exact hi
  have hr' : r < A.length := by rw [hA.1]; exact hr
  have hbi : i < b.length := by rw [hb]; exact hi
  have hbr : r < b.length := by rw [hb]; exact hr
  refine ⟨(A.set i (A[r]?.getD [])).set r (A[i]?.getD []),
    (b.set i (bitAt b r)).set r (bitAt b i), ?_, ?_, ?_, ?_, ?_⟩
  · simp [swapRows, readAt_row A i hi', readAt_row A r hr', readAt_bool b i hbi,
      readAt_bool b r hbr, writeAt_eq_some, hi', hr', hbi, hbr]
  · apply isGrid_set
    · apply isGrid_set _ _ _ hA
      exact isGrid_row n m A hA r hr
    · exact isGrid_row n m A hA i hi
  · simp [hb]
  · intro k j
    rw [entry_set _ r _ (by simp [hr']), entry_set _ i _ hi']
    unfold swapIdx
    by_cases h1 : k = r
    · simp [h1, entry]
    · by_cases h2 : k = i
      · subst h2
        simp [h1, entry]
      · simp [h1, h2]
  · intro k
    rw [bitAt_set, bitAt_set]
    unfold swapIdx
    by_cases h1 : k = r
    · simp [h1, hbr]
    · by_cases h2 : k = i
      · subst h2
        simp [h1, hbi]
      · simp [h1, h2]

/-! ## Pivot search -/

theorem swapIdx_self (r k : Nat) : swapIdx r r k = k := by
  unfold swapIdx
  by_cases h : k = r <;> simp [h]

theorem swapIdx_right (i r : Nat) : swapIdx i r r = i := by
  simp [swapIdx]

theorem pivotSearch_spec (n m : Nat) (A : List (List Bool)) (b : List Bool)
    (hA : IsGrid n m A) (hb : b.length = n) (col row : Nat) (hcol : col < m) (hrow : row < n) :
    ∀ (f i : Nat), row ≤ i → i + f = n →
      (∀ k, row ≤ k → k < i → entry A k col = false) →
      ∃ A' b' p, pivotSearch col row f i (A, b) = some (A', b') ∧ IsGrid n m A' ∧
        b'.length = n ∧ row ≤ p ∧ p < n ∧
        (∀ k j, entry A' k j = entry A (swapIdx p row k) j) ∧
        (∀ k, bitAt b' k = bitAt b (swapIdx p row k)) ∧
        (entry A' row col = false → ∀ k, row ≤ k → k < n → entry A' k col = false) := by
  intro f
  induction f with
  | zero =>
    intro i _ hin hprev
    refine ⟨A, b, row, rfl, hA, hb, Nat.le_refl row, hrow, ?_, ?_, ?_⟩
    · intro k j; rw [swapIdx_self]
    · intro k; rw [swapIdx_self]
    · intro _ k hk1 hk2
      exact hprev k hk1 (by omega)
  | succ f ih =>
    intro i hri hin hprev
    have hi : i < n := by omega
    simp only [pivotSearch]
    rw [cellAt_eq_some n m A hA i col hi hcol, Option.some_bind]
    cases hc : entry A i col
    · have := ih (i + 1) (by omega) (by omega) (by
        intro k hk1 hk2
        by_cases hki : k = i
        · rw [hki]; exact hc
        · exact hprev k hk1 (by omega))
      simpa using this
    · obtain ⟨A', b', hs, hA', hb', he, hbe⟩ := swapRows_spec n m A b hA hb i row hi hrow
      refine ⟨A', b', i, by simpa using hs, hA', hb', hri, hi, he, hbe, ?_⟩
      intro h
      rw [he, swapIdx_right, hc] at h
      exact Bool.noConfusion h

/-! ## Elimination -/

theorem xorRowFrom_spec (n m : Nat) (A : List (List Bool)) (hA : IsGrid n m A)
    (col i row : Nat) (hi : i < n) (hrow : row < n) (hne : i ≠ row) (hcol : col ≤ m) :
    ∃ A', xorRowFrom m col i row A = some A' ∧ IsGrid n m A' ∧
      ∀ k j, entry A' k j =
        if k = i ∧ col ≤ j ∧ j < m then xor (entry A i j) (entry A row j) else entry A k j := by
  obtain ⟨A', h1, h2, h3⟩ := forLoop_invariant
    (fun j t => IsGrid n m t ∧ ∀ k j', entry t k j' =
      if k = i ∧ col ≤ j' ∧ j' < j then xor (entry A i j') (entry A row j') else entry A k j')
    (fun j A => (cellAt A i j).bind fun a => (cellAt A row j).bind fun p =>
      setCell A i j (xor a p)) (m - col) col A
    ⟨hA, by
      intro k j'
      have : ¬ (k = i ∧ col ≤ j' ∧ j' < col) := by omega
      simp [this]⟩
    (by
      intro j t hj1 hj2 ⟨ht, he⟩
      have hj : j < m := by omega
      beta_reduce
      rw [cellAt_eq_some n m t ht i j hi hj, Option.some_bind,
        cellAt_eq_some n m t ht row j hrow hj, Option.some_bind]
      obtain ⟨t', hs, ht', he'⟩ := setCell_spec n m t ht i j hi hj
        (xor (entry t i j) (entry t row j))
      refine ⟨t', hs, ht', ?_⟩
      intro k j'
      rw [he', he k j', he i j, he row j]
      have hr : ¬ (row = i ∧ col ≤ j ∧ j < j) := by omega
      have hi' : ¬ (i = i ∧ col ≤ j ∧ j < j) := by omega
      rw [if_neg hr, if_neg hi']
      by_cases hk : k = i ∧ j' = j
      · obtain ⟨rfl, rfl⟩ := hk
        have : k = k ∧ col ≤ j' ∧ j' < j' + 1 := ⟨rfl, hj1, by omega⟩
        rw [if_pos ⟨rfl, rfl⟩, if_pos this]
      · rw [if_neg hk]
        by_cases hc : k = i ∧ col ≤ j' ∧ j' < j
        · have : k = i ∧ col ≤ j' ∧ j' < j + 1 := ⟨hc.1, hc.2.1, by omega⟩
          rw [if_pos hc, if_pos this]
        · have : ¬ (k = i ∧ col ≤ j' ∧ j' < j + 1) := by
            rintro ⟨h1, h2, h3⟩
            by_cases hjj : j' = j
            · exact hk ⟨h1, hjj⟩
            · exact hc ⟨h1, h2, by omega⟩
          rw [if_neg hc, if_neg this])
  refine ⟨A', h1, h2, ?_⟩
  intro k j
  rw [h3]
  have : col + (m - col) = m := by omega
  rw [this]

theorem eliminate_spec (n m : Nat) (A : List (List Bool)) (b : List Bool)
    (hA : IsGrid n m A) (hb : b.length = n) (col row : Nat) (hcol : col < m) (hrow : row < n)
    (hzero : ∀ j, j < col → entry A row j = false) :
    ∃ A' b', eliminate n m col row (A, b) = some (A', b') ∧ IsGrid n m A' ∧ b'.length = n ∧
      (∀ k j, entry A' k j =
        xor (entry A k j) (decide (k ≠ row) && entry A k col && entry A row j)) ∧
      (∀ k, bitAt b' k = xor (bitAt b k) (decide (k ≠ row) && entry A k col && bitAt b row)) := by
  obtain ⟨⟨A', b'⟩, h1, h2, h3, h4, h5⟩ := forLoop_invariant
    (fun i (s : List (List Bool) × List Bool) => IsGrid n m s.1 ∧ s.2.length = n ∧
      (∀ k j, entry s.1 k j =
        xor (entry A k j) (decide (k ≠ row ∧ k < i) && entry A k col && entry A row j)) ∧
      (∀ k, bitAt s.2 k =
        xor (bitAt b k) (decide (k ≠ row ∧ k < i) && entry A k col && bitAt b row)))
    (fun i s =>
      if i ≠ row then
        (cellAt s.1 i col).bind fun t =>
          if t then
            (xorRowFrom m col i row s.1).bind fun A' =>
            (readAt s.2 i).bind fun bi =>
            (readAt s.2 row).bind fun br =>
            (writeAt s.2 i (xor bi br)).bind fun b' =>
            some (A', b')
          else some s
      else some s) n 0 (A, b)
    ⟨hA, hb, by intro k j; simp, by intro k; simp⟩
    (by
      intro i s _ hi ⟨hs, hsb, he, hbe⟩
      have hi' : i < n := by omega
      beta_reduce
      by_cases hir : i = row
      · refine ⟨s, by simp [hir], hs, hsb, ?_, ?_⟩
        · intro k j
          rw [he]
          have : (k ≠ row ∧ k < i) ↔ (k ≠ row ∧ k < i + 1) := by omega
          rw [decide_eq_decide.mpr this]
        · intro k
          rw [hbe]
          have : (k ≠ row ∧ k < i) ↔ (k ≠ row ∧ k < i + 1) := by omega
          rw [decide_eq_decide.mpr this]
      · rw [if_pos hir, cellAt_eq_some n m s.1 hs i col hi' hcol, Option.some_bind]
        have hic : entry s.1 i col = entry A i col := by
          rw [he]
          have : ¬ (i ≠ row ∧ i < i) := by omega
          simp [this]
        have hrowj : ∀ j, entry s.1 row j = entry A row j := by
          intro j; rw [he]; simp
        have hij : ∀ j, entry s.1 i j = entry A i j := by
          intro j
          rw [he]
          have : ¬ (i ≠ row ∧ i < i) := by omega
          simp [this]
        cases hc : entry A i col
        · rw [hic, hc]
          refine ⟨s, by simp, hs, hsb, ?_, ?_⟩
          · intro k j
            rw [he]
            by_cases hk : k = i
            · subst hk; simp [hc]
            · have : (k ≠ row ∧ k < i) ↔ (k ≠ row ∧ k < i + 1) := by omega
              rw [decide_eq_decide.mpr this]
          · intro k
            rw [hbe]
            by_cases hk : k = i
            · subst hk; simp [hc]
            · have : (k ≠ row ∧ k < i) ↔ (k ≠ row ∧ k < i + 1) := by omega
              rw [decide_eq_decide.mpr this]
        · rw [hic, hc]
          obtain ⟨A1, hx, hA1, hxe⟩ := xorRowFrom_spec n m s.1 hs col i row hi' hrow hir
            (Nat.le_of_lt hcol)
          have hbi : i < s.2.length := by rw [hsb]; exact hi'
          have hbr : row < s.2.length := by rw [hsb]; exact hrow
          refine ⟨(A1, s.2.set i (xor (bitAt s.2 i) (bitAt s.2 row))), ?_, hA1, ?_, ?_, ?_⟩
          · simp [hx, readAt_bool s.2 i hbi, readAt_bool s.2 row hbr, writeAt_eq_some, hbi]
          · simp [hsb]
          · intro k j
            rw [hxe]
            by_cases hk : k = i
            · subst hk
              have h1 : k ≠ row ∧ k < k + 1 := ⟨hir, by omega⟩
              by_cases hj : col ≤ j ∧ j < m
              · rw [if_pos ⟨rfl, hj⟩, hij, hrowj]
                simp [h1, hc]
              · rw [if_neg (fun h => hj h.2), hij]
                have : entry A row j = false := by
                  by_cases hjc : j < col
                  · exact hzero j hjc
                  · exact entry_of_col_le n m A hA row j (by omega)
                simp [this]
            · rw [if_neg (fun h => hk h.1), he]
              have : (k ≠ row ∧ k < i) ↔ (k ≠ row ∧ k < i + 1) := by omega
              rw [decide_eq_decide.mpr this]
          · intro k
            show bitAt (s.2.set i (xor (bitAt s.2 i) (bitAt s.2 row))) k = _
            rw [bitAt_set]
            by_cases hk : k = i
            · subst hk
              have h1 : k ≠ row ∧ k < k + 1 := ⟨hir, by omega⟩
              have h2 : ¬ (k ≠ row ∧ k < k) := by omega
              have h3 : ¬ (row ≠ row ∧ row < k) := by omega
              rw [if_pos ⟨rfl, hbi⟩, hbe, hbe]
              simp [h1, h2, hc]
            · rw [if_neg (fun h => hk h.1), hbe]
              have : (k ≠ row ∧ k < i) ↔ (k ≠ row ∧ k < i + 1) := by omega
              rw [decide_eq_decide.mpr this])
  refine ⟨A', b', h1, h2, h3, ?_, ?_⟩
  · intro k j
    rw [h4]
    by_cases hk : k < n
    · have : (k ≠ row ∧ k < 0 + n) ↔ k ≠ row := by omega
      rw [decide_eq_decide.mpr this]
    · have : entry A k col = false := entry_of_row_le A k col (by rw [hA.1]; omega)
      simp [this]
  · intro k
    rw [h5]
    by_cases hk : k < n
    · have : (k ≠ row ∧ k < 0 + n) ↔ k ≠ row := by omega
      rw [decide_eq_decide.mpr this]
    · have : entry A k col = false := entry_of_row_le A k col (by rw [hA.1]; omega)
      simp [this]

/-! ## Forward elimination -/

theorem sat_swap (n m : Nat) (A A' : List (List Bool)) (b b' : List Bool) (p r : Nat)
    (hp : p < n) (hr : r < n)
    (he : ∀ k j, entry A' k j = entry A (swapIdx p r k) j)
    (hb : ∀ k, bitAt b' k = bitAt b (swapIdx p r k)) (x : List Bool) :
    Sat n m A b x ↔ Sat n m A' b' x := by
  constructor
  · intro h i hi
    rw [hb i, ← h _ (swapIdx_lt n p r i hp hr hi)]
    exact xorSum_congr _ _ m (fun j _ => by rw [he])
  · intro h i hi
    have := h _ (swapIdx_lt n p r i hp hr hi)
    rw [hb, swapIdx_involutive] at this
    rw [← this]
    exact xorSum_congr _ _ m (fun j _ => by rw [he, swapIdx_involutive])

theorem sat_eliminate (n m : Nat) (A A' : List (List Bool)) (b b' : List Bool) (col row : Nat)
    (hrow : row < n)
    (he : ∀ k j, entry A' k j =
      xor (entry A k j) (decide (k ≠ row) && entry A k col && entry A row j))
    (hb : ∀ k, bitAt b' k = xor (bitAt b k) (decide (k ≠ row) && entry A k col && bitAt b row))
    (x : List Bool) :
    Sat n m A b x ↔ Sat n m A' b' x := by
  have key : ∀ i, xorSum (fun j => entry A' i j && bitAt x j) m =
      xor (xorSum (fun j => entry A i j && bitAt x j) m)
        (decide (i ≠ row) && entry A i col && xorSum (fun j => entry A row j && bitAt x j) m) := by
    intro i
    rw [← xorSum_and_left, ← xorSum_xor]
    apply xorSum_congr
    intro j _
    rw [he]
    cases entry A i j <;> cases decide (i ≠ row) <;> cases entry A i col <;>
      cases entry A row j <;> cases bitAt x j <;> rfl
  constructor
  · intro h i hi
    rw [key, h i hi, h row hrow, hb]
  · intro h
    have hr : xorSum (fun j => entry A row j && bitAt x j) m = bitAt b row := by
      have := h row hrow
      rw [key, hb] at this
      simpa using this
    intro i hi
    have := h i hi
    rw [key, hb, hr] at this
    revert this
    cases xorSum (fun j => entry A i j && bitAt x j) m <;> cases bitAt b i <;>
      cases (decide (i ≠ row) && entry A i col && bitAt b row) <;> simp

theorem fwdInv_swap (n m : Nat) (A0 : List (List Bool)) (b0 : List Bool) (col : Nat)
    (s : GaussState) (h : FwdInv n m A0 b0 col s) (hrow : s.row < n)
    (A' : List (List Bool)) (b' : List Bool) (hA' : IsGrid n m A') (hb' : b'.length = n)
    (p : Nat) (hp1 : s.row ≤ p) (hp2 : p < n)
    (he : ∀ k j, entry A' k j = entry s.A (swapIdx p s.row k) j)
    (hb : ∀ k, bitAt b' k = bitAt s.b (swapIdx p s.row k)) :
    FwdInv n m A0 b0 col { A := A', b := b', row := s.row } := by
  obtain ⟨_, _, h3, h4, h5, h6⟩ := h
  refine ⟨hA', hb', h3, ?_, ?_, ?_⟩
  · intro i j hi1 hi2 hj
    show entry A' i j = false
    rw [he]
    exact h4 _ j (swapIdx_ge s.row p s.row i hp1 (Nat.le_refl _) hi1)
      (swapIdx_lt n p s.row i hp2 hrow hi2) hj
  · intro k hk
    obtain ⟨c, hc1, hc2, hc3, hc4, hc5⟩ := h5 k hk
    have hfix : swapIdx p s.row k = k := swapIdx_of_lt s.row p s.row k hp1 (Nat.le_refl _) hk
    refine ⟨c, hc1, hc2, ?_, ?_, ?_⟩
    · show entry A' k c = true
      rw [he, hfix]; exact hc3
    · intro j hj
      show entry A' k j = false
      rw [he, hfix]; exact hc4 j hj
    · intro i hi
      show entry A' i c = false
      rw [he]
      apply hc5
      intro hcontra
      apply hi
      have := swapIdx_involutive p s.row i
      rw [hcontra, hfix] at this
      exact this.symm
  · intro x
    rw [h6 x]
    exact sat_swap n m s.A A' s.b b' p s.row hp2 hrow he hb x

theorem fwdInv_skip (n m : Nat) (A0 : List (List Bool)) (b0 : List Bool) (col : Nat)
    (s : GaussState) (h : FwdInv n m A0 b0 col s)
    (hz : ∀ k, s.row ≤ k → k < n → entry s.A k col = false) :
    FwdInv n m A0 b0 (col + 1) s := by
  obtain ⟨h1, h2, h3, h4, h5, h6⟩ := h
  refine ⟨h1, h2, h3, ?_, ?_, h6⟩
  · intro i j hi1 hi2 hj
    by_cases hjc : j = col
    · rw [hjc]; exact hz i hi1 hi2
    · exact h4 i j hi1 hi2 (by omega)
  · intro k hk
    obtain ⟨c, hc1, hc⟩ := h5 k hk
    exact ⟨c, by omega, hc⟩

theorem fwdInv_eliminate (n m : Nat) (A0 : List (List Bool)) (b0 : List Bool) (col : Nat)
    (s : GaussState) (h : FwdInv n m A0 b0 col s) (hrow : s.row < n) (hcol : col < m)
    (hpiv : entry s.A s.row col = true)
    (A' : List (List Bool)) (b' : List Bool) (hA' : IsGrid n m A') (hb' : b'.length = n)
    (he : ∀ k j, entry A' k j =
      xor (entry s.A k j) (decide (k ≠ s.row) && entry s.A k col && entry s.A s.row j))
    (hb : ∀ k, bitAt b' k =
      xor (bitAt s.b k) (decide (k ≠ s.row) && entry s.A k col && bitAt s.b s.row)) :
    FwdInv n m A0 b0 (col + 1) { A := A', b := b', row := s.row + 1 } := by
  obtain ⟨_, _, _, h4, h5, h6⟩ := h
  have hrz : ∀ j, j < col → entry s.A s.row j = false :=
    fun j hj => h4 s.row j (Nat.le_refl _) hrow hj
  refine ⟨hA', hb', hrow, ?_, ?_, ?_⟩
  · intro i j hi1 hi2 hj
    show entry A' i j = false
    have hi1' : s.row + 1 ≤ i := hi1
    rw [he]
    by_cases hjc : j = col
    · subst hjc
      have : i ≠ s.row := by omega
      simp [this, hpiv]
    · rw [h4 i j (by omega) hi2 (by omega), hrz j (by omega)]
      simp
  · intro k hk
    have hk' : k < s.row + 1 := hk
    by_cases hks : k = s.row
    · refine ⟨col, by omega, hcol, ?_, ?_, ?_⟩
      · show entry A' k col = true
        rw [he, hks]; simp [hpiv]
      · intro j hj
        show entry A' k j = false
        rw [he, hks, hrz j hj]; simp
      · intro i hi
        show entry A' i col = false
        rw [he, hpiv]
        have : i ≠ s.row := by rw [← hks]; exact hi
        simp [this]
    · obtain ⟨c, hc1, hc2, hc3, hc4, hc5⟩ := h5 k (by omega)
      have hrc : entry s.A s.row c = false := hc5 s.row (fun e => hks e.symm)
      refine ⟨c, by omega, hc2, ?_, ?_, ?_⟩
      · show entry A' k c = true
        rw [he, hrc, hc3]; simp
      · intro j hj
        show entry A' k j = false
        rw [he, hc4 j hj, hrz j (by omega)]; simp
      · intro i hi
        show entry A' i c = false
        rw [he, hc5 i hi, hrc]; simp
  · intro x
    rw [h6 x]
    exact sat_eliminate n m s.A A' s.b b' col s.row hrow he hb x

theorem fwdInv_done (n m : Nat) (A0 : List (List Bool)) (b0 : List Bool) (col : Nat)
    (s : GaussState) (h : FwdInv n m A0 b0 col s)
    (hend : col = m ∨ ¬ s.row < n) : FwdInv n m A0 b0 m s := by
  obtain ⟨h1, h2, h3, h4, h5, h6⟩ := h
  refine ⟨h1, h2, h3, ?_, ?_, h6⟩
  · intro i j hi1 hi2 hj
    rcases hend with hend | hend
    · exact h4 i j hi1 hi2 (by omega)
    · omega
  · intro k hk
    obtain ⟨c, hc1, hc⟩ := h5 k hk
    exact ⟨c, by omega, hc⟩

theorem forwardLoop_spec (n m : Nat) (A0 : List (List Bool)) (b0 : List Bool) :
    ∀ (f col : Nat) (s : GaussState), col + f = m → FwdInv n m A0 b0 col s →
      ∃ s', forwardLoop n m f col s = some s' ∧ FwdInv n m A0 b0 m s' := by
  intro f
  induction f with
  | zero =>
    intro col s hf h
    exact ⟨s, rfl, fwdInv_done n m A0 b0 col s h (Or.inl (by omega))⟩
  | succ f ih =>
    intro col s hf h
    have hcol : col < m := by omega
    simp only [forwardLoop]
    by_cases hrow : s.row < n
    · rw [if_pos hrow]
      obtain ⟨A1, b1, p, hps, hA1, hb1, hp1, hp2, he1, hbe1, hz1⟩ :=
        pivotSearch_spec n m s.A s.b h.1 h.2.1 col s.row hcol hrow (n - s.row) s.row
          (Nat.le_refl _) (by omega) (by intro k hk1 hk2; omega)
      rw [hps, Option.some_bind]
      have hinv1 := fwdInv_swap n m A0 b0 col s h hrow A1 b1 hA1 hb1 p hp1 hp2 he1 hbe1
      rw [cellAt_eq_some n m A1 hA1 s.row col hrow hcol, Option.some_bind]
      cases hc : entry A1 s.row col
      · simp only [Bool.not_false, if_true]
        exact ih (col + 1) _ (by omega) (fwdInv_skip n m A0 b0 col _ hinv1 (hz1 hc))
      · simp only [Bool.not_true, Bool.false_eq_true, if_false]
        obtain ⟨A2, b2, hel, hA2, hb2, he2, hbe2⟩ :=
          eliminate_spec n m A1 b1 hA1 hb1 col s.row hcol hrow
            (fun j hj => hinv1.2.2.2.1 s.row j (Nat.le_refl _) hrow hj)
        rw [hel, Option.some_bind]
        exact ih (col + 1) _ (by omega)
          (fwdInv_eliminate n m A0 b0 col _ hinv1 hrow hcol hc A2 b2 hA2 hb2 he2 hbe2)
    · rw [if_neg hrow]
      exact ⟨s, rfl, fwdInv_done n m A0 b0 col s h (Or.inr hrow)⟩

/-! ## Back-substitution -/

theorem leads_unique (A : List (List Bool)) (k j c : Nat) (h1 : Leads A k j)
    (h2 : Leads A k c) : j = c := by
  rcases Nat.lt_trichotomy j c with h | h | h
  · have := h2.2 j h
    rw [h1.1] at this
    exact Bool.noConfusion this
  · exact h
  · have := h1.2 c h
    rw [h2.1] at this
    exact Bool.noConfusion this

theorem backSubRow_spec (n m : Nat) (A : List (List Bool)) (b : List Bool) (hA : IsGrid n m A)
    (hb : b.length = n) (i c : Nat) (hi : i < n) (hc : c < m) (hl : Leads A i c)
    (x : List Bool) (hx : x.length = m) :
    ∀ (f j : Nat), j ≤ c → j + f = m →
      backSubRow A b i f j x = some (x.set c (bitAt b i)) := by
  intro f
  induction f with
  | zero => intro j h1 h2; omega
  | succ f ih =>
    intro j h1 h2
    simp only [backSubRow]
    rw [cellAt_eq_some n m A hA i j hi (by omega), Option.some_bind]
    by_cases hjc : j = c
    · subst hjc
      rw [hl.1]
      simp [readAt_bool b i (by rw [hb]; exact hi), writeAt_eq_some x j _ (by rw [hx]; exact hc)]
    · rw [hl.2 j (by omega)]
      simpa using ih (j + 1) (by omega) (by omega)

theorem backSub_spec (n m : Nat) (A0 : List (List Bool)) (b0 : List Bool) (s : GaussState)
    (h : FwdInv n m A0 b0 m s) :
    ∃ x, forLoop (fun i x => backSubRow s.A s.b i m 0 x) s.row 0 (List.replicate m false)
        = some x ∧ x.length = m ∧
      ∀ j, bitAt x j = true ↔ ∃ k, k < s.row ∧ Leads s.A k j ∧ bitAt s.b k = true := by
  obtain ⟨h1, h2, h3, h4, h5, h6⟩ := h
  obtain ⟨x, hx1, hx2, hx3⟩ := forLoop_invariant
    (fun i x => x.length = m ∧
      ∀ j, bitAt x j = true ↔ ∃ k, k < i ∧ Leads s.A k j ∧ bitAt s.b k = true)
    (fun i x => backSubRow s.A s.b i m 0 x) s.row 0 (List.replicate m false)
    ⟨by simp, by
      intro j
      rw [bitAt_replicate]
      constructor
      · intro h; exact Bool.noConfusion h
      · rintro ⟨k, hk, _⟩; omega⟩
    (by
      intro i x _ hi ⟨hxl, hxe⟩
      have hi' : i < s.row := by omega
      obtain ⟨c, _, hc2, hc3, hc4, hc5⟩ := h5 i hi'
      have hlead : Leads s.A i c := ⟨hc3, hc4⟩
      refine ⟨x.set c (bitAt s.b i), ?_, by simp [hxl], ?_⟩
      · exact backSubRow_spec n m s.A s.b h1 h2 i c (by omega) hc2 hlead x hxl m 0
          (Nat.zero_le _) (by omega)
      · intro j
        rw [bitAt_set]
        by_cases hjc : j = c
        · subst hjc
          rw [if_pos ⟨rfl, by rw [hxl]; exact hc2⟩]
          constructor
          · intro hb
            exact ⟨i, by omega, hlead, hb⟩
          · rintro ⟨k, _, hk2, hk3⟩
            by_cases hki : k = i
            · rw [← hki]; exact hk3
            · have := hc5 k hki
              rw [hk2.1] at this
              exact Bool.noConfusion this
        · rw [if_neg (fun h => hjc h.1), hxe]
          constructor
          · rintro ⟨k, hk1, hk2, hk3⟩
            exact ⟨k, by omega, hk2, hk3⟩
          · rintro ⟨k, hk1, hk2, hk3⟩
            by_cases hki : k = i
            · subst hki
              exact absurd (leads_unique s.A k j c hk2 hlead) hjc
            · exact ⟨k, by omega, hk2, hk3⟩)
  refine ⟨x, hx1, hx2, ?_⟩
  intro j
  rw [hx3 j, Nat.zero_add]

theorem backSub_sat (n m : Nat) (A0 : List (List Bool)) (b0 : List Bool) (s : GaussState)
    (h : FwdInv n m A0 b0 m s) (x : List Bool)
    (hx : ∀ j, bitAt x j = true ↔ ∃ k, k < s.row ∧ Leads s.A k j ∧ bitAt s.b k = true)
    (hcons : ∀ i, s.row ≤ i → i < n → bitAt s.b i = false) :
    Sat n m s.A s.b x := by
  obtain ⟨h1, h2, h3, h4, h5, h6⟩ := h
  intro i hi
  by_cases hir : i < s.row
  · obtain ⟨c, _, hc2, hc3, hc4, hc5⟩ := h5 i hir
    have hlead : Leads s.A i c := ⟨hc3, hc4⟩
    rw [xorSum_congr _ (fun j => decide (j = c) && bitAt s.b i) m, xorSum_single c _ m hc2]
    intro j _
    by_cases hjc : j = c
    · subst hjc
      rw [hc3]
      simp only [Bool.true_and, decide_True]
      rw [Bool.eq_iff_iff, hx]
      constructor
      · rintro ⟨k, _, hk2, hk3⟩
        by_cases hki : k = i
        · rw [← hki]; exact hk3
        · have := hc5 k hki
          rw [hk2.1] at this
          exact Bool.noConfusion this
      · intro hb
        exact ⟨i, hir, hlead, hb⟩
    · simp only [hjc, decide_False, Bool.false_and]
      cases hxj : bitAt x j
      · simp
      · obtain ⟨k, hk1, hk2, _⟩ := (hx j).mp hxj
        have hki : i ≠ k := by
          intro e
          subst e
          exact hjc (leads_unique s.A i j c hk2 hlead)
        obtain ⟨c', _, _, hc3', hc4', hc5'⟩ := h5 k hk1
        have : j = c' := leads_unique s.A k j c' hk2 ⟨hc3', hc4'⟩
        rw [this, hc5' i hki]
        rfl
  · rw [hcons i (by omega) hi, xorSum_congr _ (fun _ => false) m, xorSum_false]
    intro j hj
    rw [h4 i j (by omega) hi hj]
    rfl

/-! ## gauss -/

theorem fwdInv_init (n m : Nat) (A : List (List Bool)) (b : List Bool) (hA : IsGrid n m A)
    (hb : b.length = n) : FwdInv n m A b 0 { A := A, b := b, row := 0 } :=
  ⟨hA, hb, Nat.zero_le _, fun _ _ _ _ hj => absurd hj (Nat.not_lt_zero _),
    fun _ hk => absurd hk (Nat.not_lt_zero _), fun _ => Iff.rfl⟩

theorem gauss_spec (n m : Nat) (A : List (List Bool)) (b : List Bool) (hA : IsGrid n m A)
    (hn : 0 < n) (hb : b.length = n) :
    ∃ res, gauss A b = some res ∧ res.unlockSequence.length = m ∧
      (res.success = true → Sat n m A b res.unlockSequence) ∧
      ((∃ x, Sat n m A b x) → res.success = true) := by
  have h0 : readAt A 0 = some (A[0]?.getD []) := readAt_row A 0 (by rw [hA.1]; exact hn)
  have hm : (A[0]?.getD []).length = m := isGrid_row n m A hA 0 hn
  obtain ⟨s, hs, hinv⟩ := forwardLoop_spec n m A b m 0 { A := A, b := b, row := 0 }
    (by omega) (fwdInv_init n m A b hA hb)
  have hany := anyLoop_eq (fun i => readAt s.b i) (bitAt s.b) (n - s.row) s.row
    (fun k _ hk2 => readAt_bool s.b k (by rw [hinv.2.1]; omega))
  simp only [gauss, h0, Option.some_bind, hm, hA.1, hs, hany]
  cases hc : (List.range' s.row (n - s.row)).any (bitAt s.b)
  · have hcons : ∀ i, s.row ≤ i → i < n → bitAt s.b i = false := by
      intro i hi1 hi2
      rw [List.any_eq_false] at hc
      have := hc i (List.mem_range'_1.mpr ⟨hi1, by omega⟩)
      simpa using this
    obtain ⟨x, hx1, hx2, hx3⟩ := backSub_spec n m A b s hinv
    refine ⟨GaussResult.mk true s.A s.b x, by simp [hx1], hx2, ?_, fun _ => rfl⟩
    intro _
    exact (hinv.2.2.2.2.2 x).mpr (backSub_sat n m A b s hinv x hx3 hcons)
  · refine ⟨GaussResult.mk false s.A s.b (List.replicate m false), by simp, by simp, ?_, ?_⟩
    · intro h; exact Bool.noConfusion h
    · rintro ⟨x, hx⟩
      exfalso
      rw [List.any_eq_true] at hc
      obtain ⟨i, hi, hbi⟩ := hc
      obtain ⟨hi1, hi2⟩ := List.mem_range'_1.mp hi
      have hi3 : i < n := by omega
      have := (hinv.2.2.2.2.2 x).mp hx i hi3
      rw [hbi, xorSum_congr _ (fun _ => false) m, xorSum_false] at this
      · exact Bool.noConfusion this
      · intro j hj
        rw [hinv.2.2.2.1 i j hi1 hi3 hj]
        rfl

theorem sat_iff_rows (n m : Nat) (A : List (List Bool)) (hA : IsGrid n m A) (b x : List Bool) :
    Sat n m A b x ↔ ∀ i, i < n → dot (A[i]?.getD []) x = bitAt b i := by
  rw [← solves_iff_sat n m A hA b x]
  unfold Solves
  rw [hA.1]

/-! ### Claims about gauss -/

/-- C2: for a boolean matrix `A` with `n ≥ 1` rows, all of length `m`, and a right-hand
side `b` of length `n`, `gauss(A, b)` returns, and if it returns true then the solution
`s` it leaves in `unlockSequence` has length `m` and, for every row `i` of the original
`A` and `b`, the XOR over `j` of `A[i][j] AND s[j]` equals `b[i]`. -/
theorem gauss_solution_solves_system (n m : Nat) (A : List (List Bool)) (b : List Bool)
    (hn : 1 ≤ n) (hA : IsGrid n m A) (hb : b.length = n) :
    ∃ res, gauss A b = some res ∧
      (res.success = true → res.unlockSequence.length = m ∧
        ∀ i, i < n → dot (A[i]?.getD []) res.unlockSequence = bitAt b i) := by
  obtain ⟨res, h1, h2, h3, _⟩ := gauss_spec n m A b hA hn hb
  exact ⟨res, h1, fun hs => ⟨h2, (sat_iff_rows n m A hA b _).mp (h3 hs)⟩⟩

/-- Witness of C2 on the solvable 3 by 3 system
`[[0,1,1],[1,1,0],[1,0,1]] · s = [1,0,1]`, on which `gauss` returns true. -/
theorem gauss_solution_solves_system_witness :
    1 ≤ 3 ∧
    IsGrid 3 3 [[false, true, true], [true, true, false], [true, false, true]] ∧
    [true, false, true].length = 3 ∧
    (gauss [[false, true, true], [true, true, false], [true, false, true]]
      [true, false, true]).map (fun res => res.success) = some true ∧
    ∃ res, gauss [[false, true, true], [true, true, false], [true, false, true]]
        [true, false, true] = some res ∧
      (res.success = true → res.unlockSequence.length = 3 ∧
        ∀ i, i < 3 →
          dot ([[false, true, true], [true, true, false], [true, false, true]][i]?.getD [])
            res.unlockSequence = bitAt [true, false, true] i) :=
  ⟨by decide, by decide, by decide, by decide,
    gauss_solution_solves_system 3 3
      [[false, true, true], [true, true, false], [true, false, true]] [true, false, true]
      (by decide) (by decide) (by decide)⟩

/-- C3: for a boolean matrix `A` with `n ≥ 1` rows, all of length `m`, and a right-hand
side `b` of length `n`, `gauss(A, b)` returns, and it returns true if and only if some
boolean vector `x` of length `m` satisfies `A · x = b` over GF(2); so it returns false
only when the system has no solution at all. -/
theorem gauss_succeeds_iff_solvable (n m : Nat) (A : List (List Bool)) (b : List Bool)
    (hn : 1 ≤ n) (hA : IsGrid n m A) (hb : b.length = n) :
    ∃ res, gauss A b = some res ∧
      (res.success = true ↔
        ∃ x : List Bool, x.length = m ∧ ∀ i, i < n → dot (A[i]?.getD []) x = bitAt b i) := by
  obtain ⟨res, h1, h2, h3, h4⟩ := gauss_spec n m A b hA hn hb
  refine ⟨res, h1, ?_, ?_⟩
  · intro hs
    exact ⟨res.unlockSequence, h2, (sat_iff_rows n m A hA b _).mp (h3 hs)⟩
  · rintro ⟨x, _, hx⟩
    exact h4 ⟨x, (sat_iff_rows n m A hA b x).mpr hx⟩

/-- Witness of C3 on the unsolvable 2 by 2 system `[[1,1],[1,1]] · x = [1,0]`, on which
`gauss` returns false. -/
theorem gauss_succeeds_iff_solvable_witness :
    1 ≤ 2 ∧ IsGrid 2 2 [[true, true], [true, true]] ∧ [true, false].length = 2 ∧
    (gauss [[true, true], [true, true]] [true, false]).map (fun res => res.success)
      = some false ∧
    ∃ res, gauss [[true, true], [true, true]] [true, false] = some res ∧
      (res.success = true ↔
        ∃ x : List Bool, x.length = 2 ∧
          ∀ i, i < 2 → dot ([[true, true], [true, true]][i]?.getD []) x = bitAt [true, false] i) :=
  ⟨by decide, by decide, by decide, by decide,
    gauss_succeeds_iff_solvable 2 2 [[true, true], [true, true]] [true, false]
      (by decide) (by decide) (by decide)⟩

/-! ## The influence matrix -/

theorem entry_append_singleton (M : List (List Bool)) (e : List Bool) (k j : Nat) :
    entry (M ++ [e]) k j =
      if k < M.length then entry M k j else if k = M.length then bitAt e j else false := by
  unfold entry
  by_cases h1 : k < M.length
  · rw [if_pos h1, List.getElem?_append_left h1]
  · rw [if_neg h1, List.getElem?_append_right (by omega)]
    by_cases h2 : k = M.length
    · simp [h2]
    · rw [if_neg h2]
      have : k - M.length ≠ 0 := by omega
      cases hk : k - M.length with
      | zero => omega
      | succ d => simp [bitAt_nil]

theorem influenceMatrix_inner (y x : Nat) (hN : y * x < u32) (i : Nat) (hi : i < x)
    (M : List (List Bool)) (hl : M.length = i * y) (hr : ∀ r ∈ M, r.length = y * x)
    (he : ∀ k j, k < i * y → j < y * x →
      entry M k j = decide (j % y = k % y ∨ j / y = k / y)) :
    ∃ M', forLoop (fun j M => (elementInfluence j i y x).bind fun e => some (M ++ [e])) y 0 M
        = some M' ∧ M'.length = (i + 1) * y ∧ (∀ r ∈ M', r.length = y * x) ∧
      ∀ k j, k < (i + 1) * y → j < y * x →
        entry M' k j = decide (j % y = k % y ∨ j / y = k / y) := by
  obtain ⟨M', h1, h2, h3, h4⟩ := forLoop_invariant
    (fun j M => M.length = i * y + j ∧ (∀ r ∈ M, r.length = y * x) ∧
      ∀ k j', k < i * y + j → j' < y * x →
        entry M k j' = decide (j' % y = k % y ∨ j' / y = k / y))
    (fun j M => (elementInfluence j i y x).bind fun e => some (M ++ [e])) y 0 M
    ⟨by simp [hl], hr, by simpa using he⟩
    (by
      intro j t _ hj ⟨htl, htr, hte⟩
      have hj' : j < y := by omega
      obtain ⟨e, hes, hel, hee⟩ := elementInfluence_spec j i y x hj' hi hN
      refine ⟨t ++ [e], by simp [hes], by simp [htl]; omega, ?_, ?_⟩
      · intro r hr'
        rcases List.mem_append.mp hr' with h | h
        · exact htr r h
        · rw [List.mem_singleton.mp h]; exact hel
      · intro k j' hk hj''
        rw [entry_append_singleton, htl]
        by_cases hk1 : k < i * y + j
        · rw [if_pos hk1]; exact hte k j' hk1 hj''
        · have hk2 : k = i * y + j := by omega
          obtain ⟨hm, hd⟩ := (flat_index_iff y k i j hj').mp hk2
          rw [if_neg hk1, if_pos hk2, hee j' hj'', hm, hd])
  refine ⟨M', h1, ?_, h3, ?_⟩
  · rw [h2]; ring
  · intro k j hk hj
    exact h4 k j (by rw [Nat.zero_add]; linarith [Nat.add_mul i 1 y]) hj

theorem influenceMatrix_spec (y x : Nat) (hN : y * x < u32) :
    ∃ M, influenceMatrix y x = some M ∧ IsGrid (y * x) (y * x) M ∧
      ∀ k j, k < y * x → j < y * x →
        entry M k j = decide (j % y = k % y ∨ j / y = k / y) := by
  obtain ⟨M, h1, h2, h3, h4⟩ := forLoop_invariant
    (fun i M => M.length = i * y ∧ (∀ r ∈ M, r.length = y * x) ∧
      ∀ k j, k < i * y → j < y * x →
        entry M k j = decide (j % y = k % y ∨ j / y = k / y))
    (fun i M => forLoop (fun j M => (elementInfluence j i y x).bind fun e => some (M ++ [e]))
      y 0 M) x 0 []
    ⟨by simp, by simp, by intro k j hk; simp at hk⟩
    (by
      intro i t _ hi ⟨htl, htr, hte⟩
      exact influenceMatrix_inner y x hN i (by omega) t htl htr hte)
  have hxy : (0 + x) * y = y * x := by rw [Nat.zero_add, Nat.mul_comm]
  refine ⟨M, h1, ⟨by rw [h2, hxy], h3⟩, ?_⟩
  intro k j hk hj
  exact h4 k j (by rw [hxy]; exact hk) hj

/-! ## Failure of the influence matrix when the product wraps -/

theorem forLoop_some_at {σ : Type} (P : Nat → σ → Prop) (body : Nat → σ → Option σ)
    (hP : ∀ k s1 s2, P k s1 → body k s1 = some s2 → P (k + 1) s2) :
    ∀ (n i : Nat) (s t : σ), forLoop body n i s = some t → P i s →
      ∀ k, i ≤ k → k < i + n → ∃ s1 s2, P k s1 ∧ body k s1 = some s2 := by
  intro n
  induction n with
  | zero => intro i s t _ _ k h1 h2; omega
  | succ n ih =>
    intro i s t h h0 k h1 h2
    simp only [forLoop] at h
    cases hb : body i s with
    | none => rw [hb] at h; exact Option.noConfusion h
    | some s' =>
      rw [hb, Option.some_bind] at h
      by_cases hk : k = i
      · subst hk; exact ⟨s, s', h0, hb⟩
      · exact ih (i + 1) s' t h (hP i s s' h0 hb) k (by omega) (by omega)

theorem writeAt_length {α : Type} (v w : List α) (i : Nat) (a : α)
    (h : writeAt v i a = some w) : w.length = v.length ∧ i < v.length := by
  unfold writeAt at h
  by_cases hi : i < v.length
  · rw [if_pos hi] at h
    have := Option.some.inj h
    rw [← this]
    exact ⟨by simp, hi⟩
  · rw [if_neg hi] at h
    exact Option.noConfusion h

theorem elementInfluence_some_bound (j i y x : Nat) (e : List Bool)
    (h : elementInfluence j i y x = some e) (k : Nat) (hk : k < x) :
    (k * y + j) % u32 < y * x % u32 := by
  unfold elementInfluence at h
  cases h1 : forLoop (fun i res => writeAt res ((i * y + j) % u32) true) x 0
      (List.replicate (y * x % u32) false) with
  | none => simp only [h1] at h; exact Option.noConfusion h
  | some r1 =>
    obtain ⟨s1, s2, hs1, hs2⟩ := forLoop_some_at
      (fun _ (res : List Bool) => res.length = y * x % u32)
      (fun i res => writeAt res ((i * y + j) % u32) true)
      (by
        intro k s1 s2 hl hw
        rw [(writeAt_length s1 s2 _ _ hw).1]; exact hl)
      x 0 _ r1 h1 (by simp) k (Nat.zero_le _) (by omega)
    have := (writeAt_length s1 s2 _ _ hs2).2
    rw [hs1] at this
    exact this

theorem influenceMatrix_some_bound (y x : Nat) (M : List (List Bool))
    (h : influenceMatrix y x = some M) (j k : Nat) (hj : j < y) (hk : k < x) :
    (k * y + j) % u32 < y * x % u32 := by
  unfold influenceMatrix at h
  obtain ⟨M1, M2, _, hM⟩ := forLoop_some_at (fun _ (_ : List (List Bool)) => True)
    (fun i M => forLoop (fun j M => (elementInfluence j i y x).bind fun e => some (M ++ [e]))
      y 0 M) (fun _ _ _ _ _ => trivial) x 0 [] M h trivial 0 (Nat.le_refl _) (by omega)
  obtain ⟨M3, M4, _, hM'⟩ := forLoop_some_at (fun _ (_ : List (List Bool)) => True)
    (fun j M => (elementInfluence j 0 y x).bind fun e => some (M ++ [e]))
    (fun _ _ _ _ _ => trivial) y 0 M1 M2 hM trivial j (Nat.zero_le _) (by omega)
  cases he : elementInfluence j 0 y x with
  | none => simp only [he] at hM'; exact Option.noConfusion hM'
  | some e => exact elementInfluence_some_bound j 0 y x e he k hk

theorem influenceMatrix_no_wrap (y x : Nat) (hy : 1 ≤ y) (M : List (List Bool))
    (h : influenceMatrix y x = some M) : y * x < u32 := by
  by_contra hcon
  have hu : 0 < u32 := by decide
  have hr : y * x % u32 < u32 := Nat.mod_lt _ hu
  have hlt : y * x % u32 < y * x := by omega
  have h1 : y * x % u32 % y < y := Nat.mod_lt _ (by omega)
  have h2 : y * x % u32 / y < x := Nat.div_lt_of_lt_mul hlt
  have := influenceMatrix_some_bound y x M h _ _ h1 h2
  have hd : y * x % u32 / y * y + y * x % u32 % y = y * x % u32 := by
    rw [Nat.mul_comm]; exact Nat.div_add_mod _ _
  rw [hd, Nat.mod_mod] at this
  exact Nat.lt_irrefl _ this

theorem influenceMatrix_wrap (y x : Nat) (hy : 1 ≤ y) (h : u32 ≤ y * x) :
    influenceMatrix y x = none := by
  cases hM : influenceMatrix y x with
  | none => rfl
  | some M =>
    have := influenceMatrix_no_wrap y x hy M hM
    omega

/-! ## isLocked and the application of a solution -/

theorem isLocked_spec (sb : SecureBox) (hwf : sb.WF) :
    sb.isLocked = some ((List.range' 0 sb.xSize).any fun x =>
      (List.range' 0 sb.ySize).any fun y => entry sb.box y x) := by
  unfold SecureBox.isLocked
  apply anyLoop_eq
  intro x _ hx
  apply anyLoop_eq
  intro y _ hy
  exact cellAt_eq_some sb.ySize sb.xSize sb.box hwf y x (by omega) (by omega)

theorem isLocked_false_iff (sb : SecureBox) (hwf : sb.WF) :
    sb.isLocked = some false ↔
      ∀ r c, r < sb.ySize → c < sb.xSize → entry sb.box r c = false := by
  rw [isLocked_spec sb hwf]
  constructor
  · intro h r c hr hc
    have h1 := Option.some.inj h
    rw [List.any_eq_false] at h1
    have h2 := h1 c (List.mem_range'_1.mpr ⟨Nat.zero_le _, by omega⟩)
    simp only [Bool.not_eq_true] at h2
    rw [List.any_eq_false] at h2
    simpa using h2 r (List.mem_range'_1.mpr ⟨Nat.zero_le _, by omega⟩)
  · intro h
    congr 1
    rw [List.any_eq_false]
    intro c hc
    simp only [Bool.not_eq_true]
    rw [List.any_eq_false]
    intro r hr
    have hc' := (List.mem_range'_1.mp hc).2
    have hr' := (List.mem_range'_1.mp hr).2
    simp [h r c (by omega) (by omega)]

theorem applySolution_spec (sb : SecureBox) (hwf : sb.WF) (s : List Bool)
    (hs : s.length = sb.ySize * sb.xSize) (hN : sb.ySize * sb.xSize < u32) :
    ∃ t, applySolution sb.ySize s sb = some t ∧ t.ySize = sb.ySize ∧ t.xSize = sb.xSize ∧
      t.WF ∧ ∀ r c, r < sb.ySize → c < sb.xSize →
        entry t.box r c = xor (entry sb.box r c)
          (xorSum (fun i => decide (r = i % sb.ySize ∨ c = i / sb.ySize) && bitAt s i)
            (sb.ySize * sb.xSize)) := by
  obtain ⟨t, h1, h2, h3, h4, h5⟩ := forLoop_invariant
    (fun n (t : SecureBox) => t.ySize = sb.ySize ∧ t.xSize = sb.xSize ∧ t.WF ∧
      ∀ r c, r < sb.ySize → c < sb.xSize →
        entry t.box r c = xor (entry sb.box r c)
          (xorSum (fun i => decide (r = i % sb.ySize ∨ c = i / sb.ySize) && bitAt s i) n))
    (fun i box => (readAt s i).bind fun b =>
      if b then (if sb.ySize = 0 then none else box.toggle (i % sb.ySize) (i / sb.ySize))
      else some box) s.length 0 sb
    ⟨rfl, rfl, hwf, by intro r c _ _; simp [xorSum]⟩
    (by
      intro i t _ hi ⟨hty, htx, htw, hte⟩
      have hi' : i < sb.ySize * sb.xSize := by omega
      have hY : 0 < sb.ySize := by
        rcases Nat.eq_zero_or_pos sb.ySize with h | h
        · rw [h] at hi'; simp at hi'
        · exact h
      beta_reduce
      rw [readAt_bool s i (by omega), Option.some_bind]
      cases hb : bitAt s i
      · refine ⟨t, by simp, hty, htx, htw, ?_⟩
        intro r c hr hc
        rw [hte r c hr hc]
        simp [xorSum, hb]
      · have hne : sb.ySize ≠ 0 := by omega
        obtain ⟨t', ht', hy', hx', hw', he'⟩ := toggle_entries t htw (i % sb.ySize)
          (i / sb.ySize) (by rw [hty]; exact Nat.mod_lt i hY)
          (by rw [htx]; exact Nat.div_lt_of_lt_mul hi')
        refine ⟨t', by simp [hne, ht'], by omega, by omega, hw', ?_⟩
        intro r c hr hc
        rw [he' r c (by omega) (by omega), hte r c hr hc]
        simp [xorSum, hb])
  refine ⟨t, ?_, h2, h3, h4, ?_⟩
  · unfold applySolution
    rw [if_pos (by omega)]
    exact h1
  · intro r c hr hc
    rw [h5 r c hr hc, Nat.zero_add, hs]

/-! ## A solution of the system unlocks the box -/

theorem solution_unlocks (sb : SecureBox) (hwf : sb.WF) (hN : sb.ySize * sb.xSize < u32)
    (v0 : List Bool) (M : List (List Bool)) (s : List Bool)
    (hv : boxToVector sb.ySize sb.xSize sb = some v0)
    (hM : influenceMatrix sb.ySize sb.xSize = some M)
    (hs : s.length = sb.ySize * sb.xSize)
    (hsat : Sat (sb.ySize * sb.xSize) (sb.ySize * sb.xSize) M v0 s) :
    ∃ t, applySolution sb.ySize s sb = some t ∧ t.ySize = sb.ySize ∧ t.xSize = sb.xSize ∧
      t.WF ∧ (∀ r c, entry t.box r c = false) ∧
      boxToVector sb.ySize sb.xSize t = some (List.replicate (sb.ySize * sb.xSize) false) ∧
      t.isLocked = some false := by
  obtain ⟨v, hv', _, hve⟩ := boxToVector_spec sb.ySize sb.xSize sb hwf hN
  obtain ⟨M', hM', _, hMe⟩ := influenceMatrix_spec sb.ySize sb.xSize hN
  rw [hv] at hv'
  rw [hM] at hM'
  have e1 : v0 = v := Option.some.inj hv'
  have e2 : M = M' := Option.some.inj hM'
  subst e1 e2
  obtain ⟨t, ht, hty, htx, htw, hte⟩ := applySolution_spec sb hwf s hs hN
  have hzero : ∀ r c, r < sb.ySize → c < sb.xSize → entry t.box r c = false := by
    intro r c hr hc
    have hk := flat_index_lt sb.ySize sb.xSize c r hc hr
    obtain ⟨hm, hd⟩ := (flat_index_iff sb.ySize (c * sb.ySize + r) c r hr).mp rfl
    have h1 := hsat _ hk
    rw [hve _ hk, hm, hd] at h1
    rw [hte r c hr hc, ← h1]
    rw [xorSum_congr (fun i => decide (r = i % sb.ySize ∨ c = i / sb.ySize) && bitAt s i)
      (fun j => entry M (c * sb.ySize + r) j && bitAt s j)]
    · simp
    · intro j hj
      rw [hMe _ j hk hj, hm, hd]
      have : (r = j % sb.ySize ∨ c = j / sb.ySize) ↔ (j % sb.ySize = r ∨ j / sb.ySize = c) := by
        constructor
        · rintro (h | h)
          · exact Or.inl h.symm
          · exact Or.inr h.symm
        · rintro (h | h)
          · exact Or.inl h.symm
          · exact Or.inr h.symm
      rw [decide_eq_decide.mpr this]
  have htg : IsGrid sb.ySize sb.xSize t.box := by rw [← hty, ← htx]; exact htw
  refine ⟨t, ht, hty, htx, htw, ?_, ?_, ?_⟩
  · intro r c
    by_cases hr : r < sb.ySize
    · by_cases hc : c < sb.xSize
      · exact hzero r c hr hc
      · exact entry_of_col_le sb.ySize sb.xSize t.box htg r c (by omega)
    · exact entry_of_row_le t.box r c (by rw [htg.1]; omega)
  · obtain ⟨w, hw, hwl, hwe⟩ := boxToVector_spec sb.ySize sb.xSize t htg hN
    rw [hw]
    congr 1
    apply vec_ext
    · simp [hwl]
    · intro k hk
      rw [hwl] at hk
      have hY : 0 < sb.ySize := by
        rcases Nat.eq_zero_or_pos sb.ySize with h | h
        · rw [h] at hk; simp at hk
        · exact h
      rw [hwe k hk, bitAt_replicate]
      exact hzero _ _ (Nat.mod_lt k hY) (Nat.div_lt_of_lt_mul hk)
  · rw [isLocked_false_iff t htw, hty, htx]
    exact hzero

theorem gauss_solution_unlocks (sb : SecureBox) (hwf : sb.WF) (hy : 1 ≤ sb.ySize)
    (v0 : List Bool) (M : List (List Bool)) (res : GaussResult)
    (hv : boxToVector sb.ySize sb.xSize sb = some v0)
    (hM : influenceMatrix sb.ySize sb.xSize = some M)
    (hg : gauss M v0 = some res) (hs : res.success = true) :
    ∃ t, applySolution sb.ySize res.unlockSequence sb = some t ∧ t.ySize = sb.ySize ∧
      t.xSize = sb.xSize ∧ t.WF ∧ (∀ r c, entry t.box r c = false) ∧
      boxToVector sb.ySize sb.xSize t = some (List.replicate (sb.ySize * sb.xSize) false) ∧
      t.isLocked = some false := by
  have hN := influenceMatrix_no_wrap sb.ySize sb.xSize hy M hM
  obtain ⟨v, hv', hvl, _⟩ := boxToVector_spec sb.ySize sb.xSize sb hwf hN
  obtain ⟨M', hM', hMg, _⟩ := influenceMatrix_spec sb.ySize sb.xSize hN
  rw [hv] at hv'
  rw [hM] at hM'
  have e1 : v0 = v := Option.some.inj hv'
  have e2 : M = M' := Option.some.inj hM'
  subst e1 e2
  have hpos : 0 < sb.ySize * sb.xSize := by
    rcases Nat.eq_zero_or_pos (sb.ySize * sb.xSize) with h | h
    · exfalso
      have hl := hMg.1
      rw [h] at hl
      have : M = [] := List.length_eq_zero.mp hl
      subst this
      simp [gauss, readAt] at hg
    · exact h
  obtain ⟨res', hg', hl', hsat', _⟩ := gauss_spec _ _ M v0 hMg hpos hvl
  rw [hg] at hg'
  have e3 : res = res' := Option.some.inj hg'
  subst e3
  exact solution_unlocks sb hwf hN v0 M res.unlockSequence hv hM hl' (hsat' hs)

/-! ## Reachable states are solvable -/

theorem reachable_entries (y x : Nat) (sb : SecureBox) (h : Reachable y x sb) :
    sb.WF ∧ sb.ySize = y ∧ sb.xSize = x ∧
      ∃ l, InBounds y x l ∧ ∀ r c, r < y → c < x → entry sb.box r c = flips l r c := by
  obtain ⟨l, hin, hl⟩ := h
  obtain ⟨t, ht, hy, hx, hw, he⟩ := applyToggles_entries l (SecureBox.blank y x)
    (isGrid_blank y x) hin
  rw [hl] at ht
  have e : sb = t := Option.some.inj ht
  subst e
  refine ⟨hw, hy, hx, l, hin, ?_⟩
  intro r c hr hc
  rw [he r c hr hc, entry_blank]
  simp

theorem flips_solvable (y x : Nat) (M : List (List Bool))
    (hM : ∀ k j, k < y * x → j < y * x →
      entry M k j = decide (j % y = k % y ∨ j / y = k / y))
    (l : List (Nat × Nat)) (hin : InBounds y x l) :
    ∃ s : List Bool, s.length = y * x ∧ ∀ i, i < y * x →
      xorSum (fun j => entry M i j && bitAt s j) (y * x) = flips l (i % y) (i / y) := by
  induction l with
  | nil =>
    refine ⟨List.replicate (y * x) false, by simp, ?_⟩
    intro i _
    rw [xorSum_congr _ (fun _ => false) _ (by intro j _; simp [bitAt_replicate]), xorSum_false]
    rfl
  | cons p ps ih =>
    obtain ⟨s, hsl, hs⟩ := ih (fun q hq => hin q (List.mem_cons_of_mem _ hq))
    obtain ⟨hp1, hp2⟩ := hin p (List.mem_cons_self _ _)
    have hidx := flat_index_lt y x p.2 p.1 hp2 hp1
    obtain ⟨hm, hd⟩ := (flat_index_iff y (p.2 * y + p.1) p.2 p.1 hp1).mp rfl
    refine ⟨s.set (p.2 * y + p.1) (!bitAt s (p.2 * y + p.1)), by simp [hsl], ?_⟩
    intro i hi
    rw [xorSum_congr _ (fun j => xor (entry M i j && bitAt s j)
      (decide (j = p.2 * y + p.1) && entry M i (p.2 * y + p.1))) (y * x)]
    · rw [xorSum_xor, hs i hi, xorSum_single _ _ _ hidx, hM i _ hi hidx, hm, hd]
      simp only [flips]
      have : (p.1 = i % y ∨ p.2 = i / y) ↔ (i % y = p.1 ∨ i / y = p.2) := by
        constructor
        · rintro (h | h)
          · exact Or.inl h.symm
          · exact Or.inr h.symm
        · rintro (h | h)
          · exact Or.inl h.symm
          · exact Or.inr h.symm
      rw [decide_eq_decide.mpr this, Bool.xor_comm]
    · intro j _
      rw [bitAt_set]
      by_cases hj : j = p.2 * y + p.1
      · subst hj
        rw [if_pos ⟨rfl, by rw [hsl]; exact hidx⟩]
        cases entry M i (p.2 * y + p.1) <;> cases bitAt s (p.2 * y + p.1) <;> simp
      · rw [if_neg (fun h => hj h.1)]
        simp [hj]

theorem reachable_gauss_succeeds (y x : Nat) (hy : 1 ≤ y) (hx : 1 ≤ x) (hN : y * x < u32)
    (sb : SecureBox) (hr : Reachable y x sb) :
    ∃ v0 M res, boxToVector y x sb = some v0 ∧ influenceMatrix y x = some M ∧
      gauss M v0 = some res ∧ res.success = true := by
  obtain ⟨hwf, hsy, hsx, l, hin, hfl⟩ := reachable_entries y x sb hr
  have hg : IsGrid y x sb.box := by rw [← hsy, ← hsx]; exact hwf
  obtain ⟨v0, hv, hvl, hve⟩ := boxToVector_spec y x sb hg hN
  obtain ⟨M, hM, hMg, hMe⟩ := influenceMatrix_spec y x hN
  have hpos : 0 < y * x := Nat.mul_pos hy hx
  obtain ⟨res, hres, _, _, hsucc⟩ := gauss_spec _ _ M v0 hMg hpos hvl
  refine ⟨v0, M, res, hv, hM, hres, hsucc ?_⟩
  obtain ⟨s, _, hs⟩ := flips_solvable y x M hMe l hin
  refine ⟨s, ?_⟩
  intro i hi
  rw [hs i hi, hve i hi]
  exact (hfl _ _ (Nat.mod_lt i hy) (Nat.div_lt_of_lt_mul hi)).symm

/-! ## The constructor -/

theorem shuffleLoop_applies (rng : Nat → Nat) (y x : Nat) (hy : 1 ≤ y) (hx : 1 ≤ x) :
    ∀ (t k : Nat) (sb : SecureBox), sb.WF → sb.ySize = y → sb.xSize = x →
      ∃ l, InBounds y x l ∧ shuffleLoop rng t k sb = applyToggles sb l := by
  intro t
  induction t with
  | zero => intro k sb _ _ _; exact ⟨[], by intro p hp; simp at hp, rfl⟩
  | succ t ih =>
    intro k sb hwf hsy hsx
    have hu : 0 < u32 := by decide
    have h1 : rng k % y % u32 < y :=
      Nat.lt_of_le_of_lt (Nat.mod_le _ _) (Nat.mod_lt _ (by omega))
    have h2 : rng (k + 1) % x % u32 < x :=
      Nat.lt_of_le_of_lt (Nat.mod_le _ _) (Nat.mod_lt _ (by omega))
    obtain ⟨sb', ht, hy', hx', hw', _⟩ := toggle_entries sb hwf (rng k % y % u32)
      (rng (k + 1) % x % u32) (by rw [hsy]; exact h1) (by rw [hsx]; exact h2)
    obtain ⟨l, hin, hl⟩ := ih (k + 2) sb' hw' (by omega) (by omega)
    refine ⟨(rng k % y % u32, rng (k + 1) % x % u32) :: l, ?_, ?_⟩
    · intro p hp
      rcases List.mem_cons.mp hp with h | h
      · rw [h]; exact ⟨h1, h2⟩
      · exact hin p h
    · have hne : ¬ (sb.ySize = 0 ∨ sb.xSize = 0) := by omega
      simp only [shuffleLoop, applyToggles]
      rw [if_neg hne, hsy, hsx, ht, Option.some_bind, Option.some_bind, hl]

theorem new_reachable (rng : Nat → Nat) (y x : Nat) (hy : 1 ≤ y) (hx : 1 ≤ x) :
    ∃ sb, SecureBox.new rng y x = some sb ∧ Reachable y x sb := by
  obtain ⟨l, hin, hl⟩ := shuffleLoop_applies rng y x hy hx (rng 0 % 1000 % u32) 1
    (SecureBox.blank y x) (isGrid_blank y x) rfl rfl
  obtain ⟨t, ht, _⟩ := applyToggles_entries l (SecureBox.blank y x) (isGrid_blank y x) hin
  refine ⟨t, ?_, l, hin, ht⟩
  unfold SecureBox.new SecureBox.shuffle
  rw [hl, ht]

/-! ## openBox -/

theorem openBoxFrom_reachable (y x : Nat) (hy : 1 ≤ y) (hx : 1 ≤ x) (hN : y * x < u32)
    (sb : SecureBox) (hr : Reachable y x sb) :
    ∃ v0 M res t, boxToVector y x sb = some v0 ∧ influenceMatrix y x = some M ∧
      gauss M v0 = some res ∧ res.success = true ∧
      applySolution y res.unlockSequence sb = some t ∧
      (∀ r c, entry t.box r c = false) ∧ t.isLocked = some false ∧
      openBoxFrom y x sb = some (t, false) := by
  obtain ⟨v0, M, res, hv, hM, hg, hs⟩ := reachable_gauss_succeeds y x hy hx hN sb hr
  obtain ⟨hwf, hsy, hsx, _⟩ := reachable_entries y x sb hr
  subst hsy hsx
  obtain ⟨t, ht, _, _, _, hz, _, hl⟩ := gauss_solution_unlocks sb hwf hy v0 M res hv hM hg hs
  refine ⟨v0, M, res, t, hv, hM, hg, hs, ht, hz, hl, ?_⟩
  simp [openBoxFrom, hv, hM, hg, hs, ht, hl]

theorem reachable_blank (y x : Nat) : Reachable y x (SecureBox.blank y x) :=
  ⟨[], fun _ hp => absurd hp (List.not_mem_nil _), rfl⟩

theorem openBoxFrom_wrap (y x : Nat) (hy : 1 ≤ y) (h : u32 ≤ y * x) (sb : SecureBox) :
    openBoxFrom y x sb = none := by
  unfold openBoxFrom
  rw [influenceMatrix_wrap y x hy h]
  cases boxToVector y x sb <;> rfl

/-! ### Claims about openBox -/

/-- C1 (amended): for `ySize ≥ 1`, `xSize ≥ 1` with `ySize * xSize < 2 ^ 32` and every box
state reachable from the all-false grid by in-bounds toggles, `openBox` run on that state
returns false: the state vector and the influence matrix are built, `gauss` succeeds, the
decoded toggles are applied and the final grid has every cell false. Hence `openBox`
itself returns false whatever the generator draws. -/
theorem openBox_unlocks_reachable (y x : Nat) (hy : 1 ≤ y) (hx : 1 ≤ x) (hN : y * x < u32)
    (sb : SecureBox) (hr : Reachable y x sb) (rng : Nat → Nat) :
    (∃ v0 M res t, boxToVector y x sb = some v0 ∧ influenceMatrix y x = some M ∧
      gauss M v0 = some res ∧ res.success = true ∧
      applySolution y res.unlockSequence sb = some t ∧
      (∀ r c, entry t.box r c = false) ∧ t.isLocked = some false ∧
      openBoxFrom y x sb = some (t, false)) ∧
    openBox rng y x = some false := by
  refine ⟨openBoxFrom_reachable y x hy hx hN sb hr, ?_⟩
  obtain ⟨sb', hnew, hr'⟩ := new_reachable rng y x hy hx
  obtain ⟨_, _, _, t, _, _, _, _, _, _, _, ho⟩ := openBoxFrom_reachable y x hy hx hN sb' hr'
  simp [openBox, hnew, ho]

/-- Witness of C1 (amended) on the 2 by 2 box `[[1,1],[0,1]]`, reached from the blank box
by `toggle(0, 1)`, and the generator stream `7 k + 3`. -/
theorem openBox_unlocks_reachable_witness :
    1 ≤ 2 ∧ 1 ≤ 2 ∧ 2 * 2 < u32 ∧
    Reachable 2 2 (SecureBox.mk [[true, true], [false, true]] 2 2) ∧
    ((∃ v0 M res t,
      boxToVector 2 2 (SecureBox.mk [[true, true], [false, true]] 2 2) = some v0 ∧
      influenceMatrix 2 2 = some M ∧
      gauss M v0 = some res ∧ res.success = true ∧
      applySolution 2 res.unlockSequence (SecureBox.mk [[true, true], [false, true]] 2 2)
        = some t ∧
      (∀ r c, entry t.box r c = false) ∧ t.isLocked = some false ∧
      openBoxFrom 2 2 (SecureBox.mk [[true, true], [false, true]] 2 2) = some (t, false)) ∧
    openBox (fun k => 7 * k + 3) 2 2 = some false) :=
  ⟨by decide, by decide, by decide, ⟨[(0, 1)], by decide, by decide⟩,
    openBox_unlocks_reachable 2 2 (by decide) (by decide) (by decide)
      (SecureBox.mk [[true, true], [false, true]] 2 2)
      ⟨[(0, 1)], by decide, by decide⟩ (fun k => 7 * k + 3)⟩

/-- Counterexample to C1 as stated: for `ySize = xSize = 65536` the `uint32_t` product
`ySize * xSize` wraps to `0`; on the all-false box (reachable by the empty toggle
sequence, which the constructor produces when its first draw is `0`) the first call
`elementInfluence(0, 0, 65536, 65536)` writes outside its empty vector, so `openBox`
returns nothing, and in particular not false. -/
theorem openBox_fails_on_wrap :
    1 ≤ 65536 ∧ 65536 < u32 ∧
    Reachable 65536 65536 (SecureBox.blank 65536 65536) ∧
    SecureBox.new (fun _ => 0) 65536 65536 = some (SecureBox.blank 65536 65536) ∧
    openBoxFrom 65536 65536 (SecureBox.blank 65536 65536) = none ∧
    openBox (fun _ => 0) 65536 65536 = none := by
  have hnew : SecureBox.new (fun _ => 0) 65536 65536 = some (SecureBox.blank 65536 65536) := by
    unfold SecureBox.new SecureBox.shuffle
    have : (0 % 1000 % u32) = 0 := by decide
    rw [this]
    rfl
  have hfrom := openBoxFrom_wrap 65536 65536 (by decide) (by decide)
    (SecureBox.blank 65536 65536)
  refine ⟨by decide, by decide, reachable_blank _ _, hnew, hfrom, ?_⟩
  unfold openBox
  rw [hnew, Option.some_bind, hfrom]
  rfl

/-- C4: for a `ySize` by `xSize` box with `ySize ≥ 1` in any state `g`, reachable or not:
if `v0 = boxToVector(g)`, `M` is the influence matrix `openBox` builds and `gauss(M, v0)`
returns true with solution `s`, then applying `toggle(i mod ySize, i div ySize)` for every
index `i` with `s[i]` true succeeds and yields a box whose `boxToVector` is all-false and
on which `isLocked()` returns false. -/
theorem gauss_success_unlocks_any_state (sb : SecureBox) (hwf : sb.WF) (hy : 1 ≤ sb.ySize)
    (v0 : List Bool) (M : List (List Bool)) (res : GaussResult)
    (hv : boxToVector sb.ySize sb.xSize sb = some v0)
    (hM : influenceMatrix sb.ySize sb.xSize = some M)
    (hg : gauss M v0 = some res) (hs : res.success = true) :
    ∃ t, applySolution sb.ySize res.unlockSequence sb = some t ∧
      boxToVector sb.ySize sb.xSize t = some (List.replicate (sb.ySize * sb.xSize) false) ∧
      t.isLocked = some false := by
  obtain ⟨t, h1, _, _, _, _, h2, h3⟩ := gauss_solution_unlocks sb hwf hy v0 M res hv hM hg hs
  exact ⟨t, h1, h2, h3⟩

/-- Witness of C4 on the 2 by 2 box `[[1,1],[0,1]]`: its vector is `[1,0,1,1]`, `gauss`
returns true with solution `[0,0,1,0]`, i.e. the single toggle `(0, 1)`. -/
theorem gauss_success_unlocks_any_state_witness :
    (SecureBox.mk [[true, true], [false, true]] 2 2).WF ∧ 1 ≤ 2 ∧
    boxToVector 2 2 (SecureBox.mk [[true, true], [false, true]] 2 2)
      = some [true, false, true, true] ∧
    influenceMatrix 2 2 = some [[true, true, true, false], [true, true, false, true],
      [true, false, true, true], [false, true, true, true]] ∧
    gauss [[true, true, true, false], [true, true, false, true],
        [true, false, true, true], [false, true, true, true]] [true, false, true, true]
      = some (GaussResult.mk true
          [[true, false, false, false], [false, true, false, false],
            [false, false, true, false], [false, false, false, true]]
          [false, false, true, false] [false, false, true, false]) ∧
    ∃ t, applySolution 2 [false, false, true, false]
          (SecureBox.mk [[true, true], [false, true]] 2 2) = some t ∧
      boxToVector 2 2 t = some (List.replicate (2 * 2) false) ∧
      t.isLocked = some false :=
  ⟨by decide, by decide, by decide, by decide, by decide,
    gauss_success_unlocks_any_state (SecureBox.mk [[true, true], [false, true]] 2 2)
      (by decide) (by decide) [true, false, true, true]
      [[true, true, true, false], [true, true, false, true],
        [true, false, true, true], [false, true, true, true]]
      (GaussResult.mk true
        [[true, false, false, false], [false, true, false, false],
          [false, false, true, false], [false, false, false, true]]
        [false, false, true, false] [false, false, true, false])
      (by decide) (by decide) (by decide) rfl⟩

/-- C5 (amended): for `ySize ≥ 1`, `xSize ≥ 1` with `ySize * xSize < 2 ^ 32` and every box
state `g` obtained from the all-false grid by a finite sequence of in-bounds toggles,
`boxToVector(g)` and the influence matrix of `openBox` are built and `gauss` applied to
them returns true. -/
theorem gauss_succeeds_on_reachable (y x : Nat) (hy : 1 ≤ y) (hx : 1 ≤ x) (hN : y * x < u32)
    (sb : SecureBox) (hr : Reachable y x sb) :
    ∃ v0 M res, boxToVector y x sb = some v0 ∧ influenceMatrix y x = some M ∧
      gauss M v0 = some res ∧ res.success = true :=
  reachable_gauss_succeeds y x hy hx hN sb hr

/-- Witness of C5 (amended) on the 2 by 3 box reached from the blank box by the toggles
`(0, 1)`, `(1, 2)`, `(0, 1)`, `(1, 0)`. -/
theorem gauss_succeeds_on_reachable_witness :
    1 ≤ 2 ∧ 1 ≤ 3 ∧ 2 * 3 < u32 ∧
    Reachable 2 3 (SecureBox.mk [[true, false, true], [false, false, false]] 2 3) ∧
    ∃ v0 M res,
      boxToVector 2 3 (SecureBox.mk [[true, false, true], [false, false, false]] 2 3) = some v0 ∧
      influenceMatrix 2 3 = some M ∧ gauss M v0 = some res ∧ res.success = true :=
  ⟨by decide, by decide, by decide, ⟨[(0, 1), (1, 2), (0, 1), (1, 0)], by decide, by decide⟩,
    gauss_succeeds_on_reachable 2 3 (by decide) (by decide) (by decide)
      (SecureBox.mk [[true, false, true], [false, false, false]] 2 3)
      ⟨[(0, 1), (1, 2), (0, 1), (1, 0)], by decide, by decide⟩⟩

/-- Counterexample to C5 as stated: for `ySize = 4` and `xSize = 2 ^ 30` the `uint32_t`
product `ySize * xSize` wraps to `0`, so no influence matrix is built (the first
`elementInfluence` call writes outside its empty vector) and `gauss` is never reached,
already for the all-false box. -/
theorem gauss_succeeds_on_reachable_fails_on_wrap :
    1 ≤ 4 ∧ 1 ≤ 1073741824 ∧ 1073741824 < u32 ∧
    Reachable 4 1073741824 (SecureBox.blank 4 1073741824) ∧
    ¬ ∃ v0 M res, boxToVector 4 1073741824 (SecureBox.blank 4 1073741824) = some v0 ∧
      influenceMatrix 4 1073741824 = some M ∧ gauss M v0 = some res ∧ res.success = true := by
  refine ⟨by decide, by decide, by decide, reachable_blank _ _, ?_⟩
  rintro ⟨_, M, _, _, hM, _⟩
  rw [influenceMatrix_wrap 4 1073741824 (by decide) (by decide)] at hM
  exact Option.noConfusion hM

/-! ## The toggle calls made by openBox -/

theorem applySolution_loop_fired (y : Nat) (hy : y ≠ 0) (suf : List Bool) :
    ∀ (pre : List Bool) (sb : SecureBox),
      forLoop (fun i box => (readAt (pre ++ suf) i).bind fun s =>
          if s then (if y = 0 then none else box.toggle (i % y) (i / y)) else some box)
        suf.length pre.length sb = applyToggles sb (firedFrom y suf pre.length) := by
  induction suf with
  | nil => intro pre sb; rfl
  | cons b bs ih =>
    intro pre sb
    have hread : readAt (pre ++ b :: bs) pre.length = some b := by
      unfold readAt
      rw [List.getElem?_append_right (Nat.le_refl _)]
      simp
    have hih := ih (pre ++ [b])
    simp only [List.append_assoc, List.singleton_append, List.length_append,
      List.length_singleton] at hih
    simp only [List.length_cons, forLoop, hread, Option.some_bind, firedFrom]
    cases b
    · simp only [Bool.false_eq_true, if_false, Option.some_bind]
      exact hih sb
    · simp only [if_true, applyToggles]
      rw [if_neg hy]
      congr 1
      funext sb'
      exact hih sb'

theorem applySolution_fired (y : Nat) (hy : y ≠ 0) (s : List Bool) (hs : s.length < u32)
    (sb : SecureBox) : applySolution y s sb = applyToggles sb (firedToggles y s) := by
  unfold applySolution firedToggles
  rw [if_pos hs]
  exact applySolution_loop_fired y hy s [] sb

theorem firedFrom_inBounds (y x : Nat) (hy : 0 < y) (s : List Bool) :
    ∀ i, i + s.length ≤ y * x → InBounds y x (firedFrom y s i) := by
  induction s with
  | nil => intro i _ p hp; simp [firedFrom] at hp
  | cons b bs ih =>
    intro i hi
    simp only [List.length_cons] at hi
    have hrest := ih (i + 1) (by omega)
    cases b
    · simpa [firedFrom] using hrest
    · intro p hp
      simp only [firedFrom, if_true] at hp
      rcases List.mem_cons.mp hp with h | h
      · rw [h]
        exact ⟨Nat.mod_lt i hy, Nat.div_lt_of_lt_mul (by omega)⟩
      · exact hrest p h

/-! ### Claims settled by evaluation -/

/-- C11: for `ySize = 1` and `xSize = 1` and either initial state `b` of the single cell,
`openBox` returns false: the vector is `[b]`, the influence matrix is `[[1]]`, `gauss`
succeeds with solution `[b]`, so no toggle is fired when the cell is false and exactly the
toggle `(0, 0)` is fired when it is true, and the cell ends false. Hence `openBox(1, 1)`
returns false whatever the generator draws. -/
theorem openBox_one_by_one (b : Bool) (rng : Nat → Nat) :
    (∃ res, boxToVector 1 1 (SecureBox.mk [[b]] 1 1) = some [b] ∧
      influenceMatrix 1 1 = some [[true]] ∧
      gauss [[true]] [b] = some res ∧ res.success = true ∧ res.unlockSequence = [b] ∧
      firedToggles 1 res.unlockSequence = (if b then [(0, 0)] else []) ∧
      applySolution 1 res.unlockSequence (SecureBox.mk [[b]] 1 1)
        = applyToggles (SecureBox.mk [[b]] 1 1) (firedToggles 1 res.unlockSequence) ∧
      applySolution 1 res.unlockSequence (SecureBox.mk [[b]] 1 1)
        = some (SecureBox.mk [[false]] 1 1)) ∧
    openBoxFrom 1 1 (SecureBox.mk [[b]] 1 1) = some (SecureBox.mk [[false]] 1 1, false) ∧
    openBox rng 1 1 = some false := by
  refine ⟨?_, ?_, ?_⟩
  · cases b
    · exact ⟨GaussResult.mk true [[true]] [false] [false], by decide, by decide, by decide,
        rfl, rfl, by decide, by decide, by decide⟩
    · exact ⟨GaussResult.mk true [[true]] [true] [true], by decide, by decide, by decide,
        rfl, rfl, by decide, by decide, by decide⟩
  · cases b <;> decide
  · obtain ⟨sb, hnew, hr⟩ := new_reachable rng 1 1 (Nat.le_refl 1) (Nat.le_refl 1)
    obtain ⟨_, _, _, t, _, _, _, _, _, _, _, ho⟩ :=
      openBoxFrom_reachable 1 1 (Nat.le_refl 1) (Nat.le_refl 1) (by decide) sb hr
    simp [openBox, hnew, ho]

/-- C15, the code at the failing input: on the all-false 2 by 2 box `toggle(0, 0)` yields
`[[1,1],[1,0]]`; the cell `(0, 1)` to the right of the position and the cell `(1, 0)`
below it are negated, where the doc comment of `toggle` has only the position itself
and the cells before it change, which would give `[[1,0],[0,0]]`. -/
theorem toggle_negates_cells_after_position :
    (SecureBox.blank 2 2).toggle 0 0 = some (SecureBox.mk [[true, true], [true, false]] 2 2) ∧
    (SecureBox.blank 2 2).toggle 0 0 ≠ some (SecureBox.mk [[true, false], [false, false]] 2 2) := by
  constructor <;> decide

/-- C20: there are sizes `ySize, xSize ≥ 1` and a `ySize` by `xSize` box state, not
reachable from the all-false box, on which `gauss`, applied to the influence matrix built
by `openBox` and to the state vector, returns false: `ySize = 1`, `xSize = 2`, the box
`[[1,0]]` with state vector `[1,0]` and influence matrix `[[1,1],[1,1]]`. On it `openBox`
fires no toggle and returns true. -/
theorem gauss_fails_on_unreachable_box :
    ∃ (y x : Nat) (sb : SecureBox), y = 1 ∧ x = 2 ∧ sb = SecureBox.mk [[true, false]] 1 2 ∧
      1 ≤ y ∧ 1 ≤ x ∧ sb.WF ∧ sb.ySize = y ∧ sb.xSize = x ∧ ¬ Reachable y x sb ∧
      boxToVector y x sb = some [true, false] ∧
      influenceMatrix y x = some [[true, true], [true, true]] ∧
      (∃ res, gauss [[true, true], [true, true]] [true, false] = some res ∧
        res.success = false) ∧
      openBoxFrom y x sb = some (sb, true) := by
  refine ⟨1, 2, SecureBox.mk [[true, false]] 1 2, rfl, rfl, rfl, by decide, by decide,
    by decide, rfl, rfl, ?_, by decide, by decide, ?_, by decide⟩
  · intro hr
    obtain ⟨v0, M, res, hv, hM, hg, hs⟩ :=
      reachable_gauss_succeeds 1 2 (by decide) (by decide) (by decide) _ hr
    have e1 : boxToVector 1 2 (SecureBox.mk [[true, false]] 1 2) = some [true, false] := by
      decide
    have e2 : influenceMatrix 1 2 = some [[true, true], [true, true]] := by decide
    rw [e1] at hv
    rw [e2] at hM
    have e3 := Option.some.inj hv
    have e4 := Option.some.inj hM
    subst e3 e4
    have e5 : gauss [[true, true], [true, true]] [true, false]
        = some (GaussResult.mk false [[true, true], [false, false]] [true, true]
          [false, false]) := by decide
    rw [e5] at hg
    have e6 := Option.some.inj hg
    subst e6
    exact Bool.noConfusion hs
  · exact ⟨GaussResult.mk false [[true, true], [false, false]] [true, true] [false, false],
      by decide, rfl⟩

/-! ### Claims about the shapes of the vector and of the matrix -/

theorem boxToVector_wrap_zero (Y X : Nat) (hY : 0 < Y) (hX : 0 < X) (h : Y * X % u32 = 0)
    (sb : SecureBox) (hc : cellAt sb.box 0 0 = some true) : boxToVector Y X sb = none := by
  cases X with
  | zero => omega
  | succ k =>
    cases Y with
    | zero => omega
    | succ n => simp [boxToVector, h, forLoop, SecureBox.getState, hc, writeAt]

theorem influenceMatrix_row (y x : Nat) (hN : y * x < u32) (M : List (List Bool))
    (hM : influenceMatrix y x = some M) (i : Nat) (hi : i < y * x) :
    ∃ e, elementInfluence (i % y) (i / y) y x = some e ∧ M[i]? = some e := by
  obtain ⟨M', hM', hg, hMe⟩ := influenceMatrix_spec y x hN
  rw [hM] at hM'
  have e1 : M = M' := Option.some.inj hM'
  subst e1
  have hy : 0 < y := by
    rcases Nat.eq_zero_or_pos y with h | h
    · rw [h] at hi; simp at hi
    · exact h
  obtain ⟨e, he, hel, hee⟩ := elementInfluence_spec (i % y) (i / y) y x (Nat.mod_lt i hy)
    (Nat.div_lt_of_lt_mul hi) hN
  refine ⟨e, he, ?_⟩
  have hil : i < M.length := by rw [hg.1]; exact hi
  have hrow := isGrid_row _ _ M hg i hi
  have : M[i]?.getD [] = e := by
    apply vec_ext
    · rw [hrow, hel]
    · intro k hk
      rw [hrow] at hk
      have := hMe i k hi hk
      unfold entry at this
      rw [this, hee k hk]
  rw [← this, List.getElem?_eq_getElem hil]
  simp

theorem boxToVector_blank_wrap_zero (Y X : Nat) (h : Y * X % u32 = 0) :
    boxToVector Y X (SecureBox.blank Y X) = some [] := by
  have hcell : ∀ y x, y < Y → x < X →
      cellAt (SecureBox.blank Y X).box y x = some false := by
    intro y x hy hx
    rw [cellAt_eq_some Y X _ (isGrid_blank Y X) y x hy hx, entry_blank]
  obtain ⟨v, hv, hnil⟩ := forLoop_invariant (fun _ (res : List Bool) => res = [])
    (fun x res => forLoop (fun y res => (cellAt (SecureBox.blank Y X).box y x).bind fun c =>
        if c then writeAt res ((x * Y + y) % u32) true else some res) Y 0 res) X 0 [] rfl
    (by
      intro x t _ hx ht
      exact forLoop_invariant (fun _ (res : List Bool) => res = [])
        (fun y res => (cellAt (SecureBox.blank Y X).box y x).bind fun c =>
          if c then writeAt res ((x * Y + y) % u32) true else some res) Y 0 t ht
        (by
          intro y u _ hy hu
          refine ⟨u, ?_, hu⟩
          beta_reduce
          rw [hcell y x (by omega) (by omega)]
          rfl))
  unfold boxToVector
  rw [h]
  rw [hnil] at hv
  exact hv

theorem cornerLocked_wf (n k : Nat) : (SecureBox.cornerLocked n k).WF := by
  refine ⟨by simp [SecureBox.cornerLocked], ?_⟩
  intro r hr
  simp only [SecureBox.cornerLocked] at hr
  rcases List.mem_cons.mp hr with h | h
  · rw [h]; simp [SecureBox.cornerLocked]
  · rw [List.eq_of_mem_replicate h]; simp [SecureBox.cornerLocked]

theorem cornerLocked_cell (n k : Nat) :
    cellAt (SecureBox.cornerLocked n k).box 0 0 = some true := by
  simp [SecureBox.cornerLocked, cellAt, readAt]

/-- C12 (amended): for a `ySize` by `xSize` grid state `g` with `ySize * xSize < 2 ^ 32`,
`boxToVector(ySize, xSize, g)` returns a vector of length `ySize * xSize` whose entry at
index `col * ySize + row` equals `g[row][col]` for every `row < ySize`, `col < xSize`.
The function works on the copy returned by `getState` and returns only the vector, so
the box is not changed. -/
theorem boxToVector_is_column_major (ySize xSize : Nat) (sb : SecureBox)
    (hg : IsGrid ySize xSize sb.box) (hN : ySize * xSize < u32) :
    ∃ v, boxToVector ySize xSize sb = some v ∧ v.length = ySize * xSize ∧
      (∀ row col, row < ySize → col < xSize →
        bitAt v (col * ySize + row) = entry sb.box row col) ∧
      sb.getState = sb.box := by
  obtain ⟨v, hv, hl, he⟩ := boxToVector_spec ySize xSize sb hg hN
  refine ⟨v, hv, hl, ?_, rfl⟩
  intro row col hr hc
  obtain ⟨h1, h2⟩ := (flat_index_iff ySize (col * ySize + row) col row hr).mp rfl
  rw [he _ (flat_index_lt ySize xSize col row hc hr), h1, h2]

/-- Witness of C12 (amended) on the 2 by 3 grid `[[1,0,1],[0,0,1]]`. -/
theorem boxToVector_is_column_major_witness :
    IsGrid 2 3 (SecureBox.mk [[true, false, true], [false, false, true]] 2 3).box ∧
    2 * 3 < u32 ∧
    ∃ v, boxToVector 2 3 (SecureBox.mk [[true, false, true], [false, false, true]] 2 3)
        = some v ∧ v.length = 2 * 3 ∧
      (∀ row col, row < 2 → col < 3 → bitAt v (col * 2 + row) =
        entry (SecureBox.mk [[true, false, true], [false, false, true]] 2 3).box row col) ∧
      (SecureBox.mk [[true, false, true], [false, false, true]] 2 3).getState =
        (SecureBox.mk [[true, false, true], [false, false, true]] 2 3).box :=
  ⟨by decide, by decide,
    boxToVector_is_column_major 2 3
      (SecureBox.mk [[true, false, true], [false, false, true]] 2 3) (by decide) (by decide)⟩

/-- Counterexample to C12 as stated: for `ySize = xSize = 65536` the `uint32_t` product
`ySize * xSize` wraps to `0` and `boxToVector` allocates an empty vector. On the 65536 by
65536 grid whose only true cell is `(0, 0)` its first write `result[0]` is out of range,
so it returns no vector; on the all-false grid of that size it returns the empty vector,
whose length is `0` and not `65536 * 65536`. -/
theorem boxToVector_fails_on_wrap :
    1 ≤ 65536 ∧ 65536 < u32 ∧ (SecureBox.cornerLocked 65535 65535).WF ∧
    (SecureBox.cornerLocked 65535 65535).ySize = 65536 ∧
    (SecureBox.cornerLocked 65535 65535).xSize = 65536 ∧
    (¬ ∃ v, boxToVector 65536 65536 (SecureBox.cornerLocked 65535 65535) = some v ∧
      v.length = 65536 * 65536) ∧
    (SecureBox.blank 65536 65536).WF ∧
    boxToVector 65536 65536 (SecureBox.blank 65536 65536) = some [] ∧
    ¬ ∃ v, boxToVector 65536 65536 (SecureBox.blank 65536 65536) = some v ∧
      v.length = 65536 * 65536 := by
  have hblank := boxToVector_blank_wrap_zero 65536 65536 (by decide)
  refine ⟨by decide, by decide, cornerLocked_wf _ _, rfl, rfl, ?_, isGrid_blank _ _, hblank, ?_⟩
  · rintro ⟨v, hv, _⟩
    rw [boxToVector_wrap_zero 65536 65536 (by decide) (by decide) (by decide) _
      (cornerLocked_cell _ _)] at hv
    exact Option.noConfusion hv
  · rintro ⟨v, hv, hl⟩
    rw [hblank] at hv
    have e : v = [] := (Option.some.inj hv).symm
    rw [e] at hl
    exact absurd hl (by decide)

/-- C16 (amended): for `ySize * xSize < 2 ^ 32`, the influence matrix built by `openBox`
has exactly `ySize * xSize` rows, each of length `ySize * xSize`, and for every index
`i < ySize * xSize` its row `i` is `elementInfluence(i mod ySize, i div ySize, ySize,
xSize)`, the influence vector of the coordinate `openBox` decodes `i` to; and the
decoding inverts the flat mapping: `(col * ySize + row) mod ySize = row` and
`(col * ySize + row) div ySize = col` for `row < ySize`, `col < xSize`. -/
theorem influenceMatrix_rows_are_influence_vectors (ySize xSize : Nat)
    (hN : ySize * xSize < u32) :
    ∃ M, influenceMatrix ySize xSize = some M ∧ M.length = ySize * xSize ∧
      (∀ r ∈ M, r.length = ySize * xSize) ∧
      (∀ i, i < ySize * xSize →
        ∃ e, elementInfluence (i % ySize) (i / ySize) ySize xSize = some e ∧ M[i]? = some e) ∧
      (∀ row col, row < ySize → col < xSize →
        (col * ySize + row) % ySize = row ∧ (col * ySize + row) / ySize = col) := by
  obtain ⟨M, hM, hg, _⟩ := influenceMatrix_spec ySize xSize hN
  refine ⟨M, hM, hg.1, hg.2, ?_, ?_⟩
  · intro i hi
    exact influenceMatrix_row ySize xSize hN M hM i hi
  · intro row col hr _
    exact (flat_index_iff ySize (col * ySize + row) col row hr).mp rfl

/-- Witness of C16 (amended) for the 2 by 3 grid. -/
theorem influenceMatrix_rows_are_influence_vectors_witness :
    2 * 3 < u32 ∧
    ∃ M, influenceMatrix 2 3 = some M ∧ M.length = 2 * 3 ∧
      (∀ r ∈ M, r.length = 2 * 3) ∧
      (∀ i, i < 2 * 3 → ∃ e, elementInfluence (i % 2) (i / 2) 2 3 = some e ∧ M[i]? = some e) ∧
      (∀ row col, row < 2 → col < 3 →
        (col * 2 + row) % 2 = row ∧ (col * 2 + row) / 2 = col) :=
  ⟨by decide, influenceMatrix_rows_are_influence_vectors 2 3 (by decide)⟩

/-- Counterexample to C16 as stated: for `ySize = 2` and `xSize = 2 ^ 31` the `uint32_t`
product `ySize * xSize` wraps to `0`; the first call `elementInfluence(0, 0, 2, 2 ^ 31)`
writes outside its empty vector, so `openBox` builds no influence matrix. -/
theorem influenceMatrix_fails_on_wrap :
    1 ≤ 2 ∧ 1 ≤ 2147483648 ∧ 2147483648 < u32 ∧
    ¬ ∃ M, influenceMatrix 2 2147483648 = some M ∧ M.length = 2 * 2147483648 := by
  refine ⟨by decide, by decide, by decide, ?_⟩
  rintro ⟨M, hM, _⟩
  rw [influenceMatrix_wrap 2 2147483648 (by decide) (by decide)] at hM
  exact Option.noConfusion hM

/-- C17 (amended): for `ySize * xSize < 2 ^ 32` the influence matrix `M` built by
`openBox` is symmetric, `M[i][j] = M[j][i]` for all `i, j < ySize * xSize`; hence for
every vector `s` the product of row `i` of `M` with `s` equals entry `i` of the XOR of
the rows `j` of `M` with `s[j]` true. -/
theorem influenceMatrix_symmetric (ySize xSize : Nat) (hN : ySize * xSize < u32) :
    ∃ M, influenceMatrix ySize xSize = some M ∧
      (∀ i j, i < ySize * xSize → j < ySize * xSize → entry M i j = entry M j i) ∧
      (∀ (s : List Bool) i, i < ySize * xSize →
        xorSum (fun j => entry M i j && bitAt s j) (ySize * xSize) =
          xorSum (fun j => entry M j i && bitAt s j) (ySize * xSize)) := by
  obtain ⟨M, hM, _, hMe⟩ := influenceMatrix_spec ySize xSize hN
  have hsym : ∀ i j, i < ySize * xSize → j < ySize * xSize → entry M i j = entry M j i := by
    intro i j hi hj
    rw [hMe i j hi hj, hMe j i hj hi]
    have : (j % ySize = i % ySize ∨ j / ySize = i / ySize) ↔
        (i % ySize = j % ySize ∨ i / ySize = j / ySize) := by
      constructor
      · rintro (h | h)
        · exact Or.inl h.symm
        · exact Or.inr h.symm
      · rintro (h | h)
        · exact Or.inl h.symm
        · exact Or.inr h.symm
    exact decide_eq_decide.mpr this
  refine ⟨M, hM, hsym, ?_⟩
  intro s i hi
  apply xorSum_congr
  intro j hj
  rw [hsym i j hi hj]

/-- Witness of C17 (amended) for the 2 by 3 grid. -/
theorem influenceMatrix_symmetric_witness :
    2 * 3 < u32 ∧
    ∃ M, influenceMatrix 2 3 = some M ∧
      (∀ i j, i < 2 * 3 → j < 2 * 3 → entry M i j = entry M j i) ∧
      (∀ (s : List Bool) i, i < 2 * 3 →
        xorSum (fun j => entry M i j && bitAt s j) (2 * 3) =
          xorSum (fun j => entry M j i && bitAt s j) (2 * 3)) :=
  ⟨by decide, influenceMatrix_symmetric 2 3 (by decide)⟩

/-- Counterexample to C17 as stated: for `ySize = 1024` and `xSize = 2 ^ 22` the
`uint32_t` product `ySize * xSize` wraps to `0` and `openBox` builds no influence matrix,
so there is no matrix whose entries could be compared. -/
theorem influenceMatrix_symmetric_fails_on_wrap :
    1 ≤ 1024 ∧ 1 ≤ 4194304 ∧ 4194304 < u32 ∧
    ¬ ∃ M, influenceMatrix 1024 4194304 = some M ∧
      ∀ i j, i < 1024 * 4194304 → j < 1024 * 4194304 → entry M i j = entry M j i := by
  refine ⟨by decide, by decide, by decide, ?_⟩
  rintro ⟨M, hM, _⟩
  rw [influenceMatrix_wrap 1024 4194304 (by decide) (by decide)] at hM
  exact Option.noConfusion hM

/-! ## The run of gauss in detail -/

theorem gauss_run (n m : Nat) (A : List (List Bool)) (b : List Bool) (hA : IsGrid n m A)
    (hn : 0 < n) (hb : b.length = n) :
    ∃ s x, forwardLoop n m m 0 { A := A, b := b, row := 0 } = some s ∧
      FwdInv n m A b m s ∧
      forLoop (fun i x => backSubRow s.A s.b i m 0 x) s.row 0 (List.replicate m false)
        = some x ∧ x.length = m ∧
      (∀ j, bitAt x j = true ↔ ∃ k, k < s.row ∧ Leads s.A k j ∧ bitAt s.b k = true) ∧
      gauss A b = some
        (if (List.range' s.row (n - s.row)).any (bitAt s.b)
          then GaussResult.mk false s.A s.b (List.replicate m false)
          else GaussResult.mk true s.A s.b x) := by
  have h0 : readAt A 0 = some (A[0]?.getD []) := readAt_row A 0 (by rw [hA.1]; exact hn)
  have hm : (A[0]?.getD []).length = m := isGrid_row n m A hA 0 hn
  obtain ⟨s, hs, hinv⟩ := forwardLoop_spec n m A b m 0 { A := A, b := b, row := 0 }
    (by omega) (fwdInv_init n m A b hA hb)
  have hany := anyLoop_eq (fun i => readAt s.b i) (bitAt s.b) (n - s.row) s.row
    (fun k _ hk2 => readAt_bool s.b k (by rw [hinv.2.1]; omega))
  obtain ⟨x, hx1, hx2, hx3⟩ := backSub_spec n m A b s hinv
  refine ⟨s, x, hs, hinv, hx1, hx2, hx3, ?_⟩
  simp only [gauss, h0, Option.some_bind, hm, hA.1, hs, hany, hx1]
  cases (List.range' s.row (n - s.row)).any (bitAt s.b) <;> rfl

theorem range_any_false (f : Nat → Bool) (lo len : Nat)
    (h : ∀ i, lo ≤ i → i < lo + len → f i = false) : (List.range' lo len).any f = false := by
  rw [List.any_eq_false]
  intro i hi
  obtain ⟨h1, h2⟩ := List.mem_range'_1.mp hi
  simp [h i h1 h2]

theorem gauss_zero_rhs (n m : Nat) (A : List (List Bool)) (b : List Bool)
    (hA : IsGrid n m A) (hn : 0 < n) (hb : b.length = n) (hz : ∀ i, bitAt b i = false) :
    ∃ res, gauss A b = some res ∧ res.success = true ∧
      res.unlockSequence = List.replicate m false := by
  obtain ⟨s, x, _, hinv, _, hxl, hxe, hg⟩ := gauss_run n m A b hA hn hb
  have hsat0 : Sat n m A b [] := by
    intro i _
    rw [hz i, xorSum_congr _ (fun _ => false) m (by intro j _; simp [bitAt_nil]), xorSum_false]
  have hsat := (hinv.2.2.2.2.2 []).mp hsat0
  have hbz : ∀ i, bitAt s.b i = false := by
    intro i
    by_cases hi : i < n
    · have := hsat i hi
      rw [xorSum_congr _ (fun _ => false) m (by intro j _; simp [bitAt_nil]), xorSum_false]
        at this
      exact this.symm
    · exact bitAt_of_le s.b i (by rw [hinv.2.1]; omega)
  have hany : (List.range' s.row (n - s.row)).any (bitAt s.b) = false :=
    range_any_false _ _ _ (fun i _ _ => hbz i)
  have hx : x = List.replicate m false := by
    apply vec_ext
    · simp [hxl]
    · intro j _
      rw [bitAt_replicate]
      cases hj : bitAt x j
      · rfl
      · obtain ⟨k, _, _, hk⟩ := (hxe j).mp hj
        rw [hbz k] at hk
        exact Bool.noConfusion hk
  rw [hany] at hg
  exact ⟨_, hg, rfl, hx⟩

theorem firedFrom_replicate_false (y n : Nat) :
    ∀ i, firedFrom y (List.replicate n false) i = [] := by
  induction n with
  | zero => intro i; rfl
  | succ n ih => intro i; simp [List.replicate_succ, firedFrom, ih]

theorem applyToggles_nil (sb : SecureBox) : applyToggles sb [] = some sb := rfl

/-! ## The system openBox hands to gauss -/

theorem openBox_system (sb : SecureBox) (hwf : sb.WF) (hy : 1 ≤ sb.ySize)
    (hx : 1 ≤ sb.xSize) (v0 : List Bool) (M : List (List Bool))
    (hv : boxToVector sb.ySize sb.xSize sb = some v0)
    (hM : influenceMatrix sb.ySize sb.xSize = some M) :
    sb.ySize * sb.xSize < u32 ∧ 0 < sb.ySize * sb.xSize ∧
      IsGrid (sb.ySize * sb.xSize) (sb.ySize * sb.xSize) M ∧
      v0.length = sb.ySize * sb.xSize ∧
      (∀ k, k < sb.ySize * sb.xSize →
        bitAt v0 k = entry sb.box (k % sb.ySize) (k / sb.ySize)) ∧
      ∃ res, gauss M v0 = some res ∧ res.unlockSequence.length = sb.ySize * sb.xSize ∧
        (res.success = true →
          Sat (sb.ySize * sb.xSize) (sb.ySize * sb.xSize) M v0 res.unlockSequence) ∧
        ((∃ x, Sat (sb.ySize * sb.xSize) (sb.ySize * sb.xSize) M v0 x) →
          res.success = true) := by
  have hN := influenceMatrix_no_wrap sb.ySize sb.xSize hy M hM
  obtain ⟨v, hv', hvl, hve⟩ := boxToVector_spec sb.ySize sb.xSize sb hwf hN
  obtain ⟨M', hM', hMg, _⟩ := influenceMatrix_spec sb.ySize sb.xSize hN
  rw [hv] at hv'
  rw [hM] at hM'
  have e1 : v0 = v := Option.some.inj hv'
  have e2 : M = M' := Option.some.inj hM'
  subst e1 e2
  have hpos : 0 < sb.ySize * sb.xSize := Nat.mul_pos hy hx
  exact ⟨hN, hpos, hMg, hvl, hve, gauss_spec _ _ M v0 hMg hpos hvl⟩

/-! ### Claims about the outcome of the solve step -/

/-- C13: for a `ySize` by `xSize` box with `ySize, xSize ≥ 1` in any state `g`: if
`gauss` reports failure on the system `openBox` builds for `g`, then `openBox` applies no
toggle, ends with the box equal to `g` and returns true; and `g` has a true cell. -/
theorem gauss_failure_leaves_box_locked (sb : SecureBox) (hwf : sb.WF) (hy : 1 ≤ sb.ySize)
    (hx : 1 ≤ sb.xSize) (v0 : List Bool) (M : List (List Bool)) (res : GaussResult)
    (hv : boxToVector sb.ySize sb.xSize sb = some v0)
    (hM : influenceMatrix sb.ySize sb.xSize = some M)
    (hg : gauss M v0 = some res) (hs : res.success = false) :
    openBoxFrom sb.ySize sb.xSize sb = some (sb, true) ∧ sb.isLocked = some true ∧
      ∃ r c, r < sb.ySize ∧ c < sb.xSize ∧ entry sb.box r c = true := by
  obtain ⟨_, _, _, _, hve, res', hg', _, _, hcomp⟩ := openBox_system sb hwf hy hx v0 M hv hM
  rw [hg] at hg'
  have e : res = res' := Option.some.inj hg'
  subst e
  have hcell : ∃ r c, r < sb.ySize ∧ c < sb.xSize ∧ entry sb.box r c = true := by
    by_contra hno
    have hall : ∀ r c, r < sb.ySize → c < sb.xSize → entry sb.box r c = false := by
      intro r c hr hc
      cases h : entry sb.box r c
      · rfl
      · exact absurd ⟨r, c, hr, hc, h⟩ hno
    have : res.success = true := by
      apply hcomp
      refine ⟨[], ?_⟩
      intro i hi
      rw [hve i hi, hall _ _ (Nat.mod_lt i hy) (Nat.div_lt_of_lt_mul hi),
        xorSum_congr _ (fun _ => false) _ (by intro j _; simp [bitAt_nil]), xorSum_false]
    rw [hs] at this
    exact Bool.noConfusion this
  have hlock : sb.isLocked = some true := by
    have hspec := isLocked_spec sb hwf
    cases hb : (List.range' 0 sb.xSize).any fun x =>
        (List.range' 0 sb.ySize).any fun y => entry sb.box y x
    · rw [hb] at hspec
      obtain ⟨r, c, hr, hc, h⟩ := hcell
      have := (isLocked_false_iff sb hwf).mp hspec r c hr hc
      rw [h] at this
      exact Bool.noConfusion this
    · rw [hb] at hspec
      exact hspec
  refine ⟨?_, hlock, hcell⟩
  simp [openBoxFrom, hv, hM, hg, hs, hlock]

/-- Witness of C13 on the 1 by 2 box `[[1,0]]`: the system `[[1,1],[1,1]] · s = [1,0]`
has no solution and `gauss` returns false. -/
theorem gauss_failure_leaves_box_locked_witness :
    (SecureBox.mk [[true, false]] 1 2).WF ∧ 1 ≤ 1 ∧ 1 ≤ 2 ∧
    boxToVector 1 2 (SecureBox.mk [[true, false]] 1 2) = some [true, false] ∧
    influenceMatrix 1 2 = some [[true, true], [true, true]] ∧
    gauss [[true, true], [true, true]] [true, false]
      = some (GaussResult.mk false [[true, true], [false, false]] [true, true]
          [false, false]) ∧
    (openBoxFrom 1 2 (SecureBox.mk [[true, false]] 1 2)
        = some (SecureBox.mk [[true, false]] 1 2, true) ∧
      (SecureBox.mk [[true, false]] 1 2).isLocked = some true ∧
      ∃ r c, r < 1 ∧ c < 2 ∧ entry (SecureBox.mk [[true, false]] 1 2).box r c = true) :=
  ⟨by decide, by decide, by decide, by decide, by decide, by decide,
    gauss_failure_leaves_box_locked (SecureBox.mk [[true, false]] 1 2) (by decide)
      (by decide) (by decide) [true, false] [[true, true], [true, true]]
      (GaussResult.mk false [[true, true], [false, false]] [true, true] [false, false])
      (by decide) (by decide) (by decide) rfl⟩

/-- C14 (amended): for a `ySize` by `xSize` box with `ySize, xSize ≥ 1` and
`ySize * xSize < 2 ^ 32` in any state, every toggle call `openBox` makes is in bounds:
the state vector and the influence matrix are built, `gauss` returns a solution vector of
exactly `ySize * xSize` entries, every coordinate the application loop decodes from it
lies inside the grid, the loop runs to its end, and `openBox` as a whole returns without
any indexed access leaving its vector or the grid. Every index `i < ySize * xSize`
decodes to `i mod ySize < ySize` and `i div ySize < xSize`. The toggle calls of the
constructor are in bounds as well. -/
theorem openBox_toggles_in_bounds (sb : SecureBox) (hwf : sb.WF) (hy : 1 ≤ sb.ySize)
    (hx : 1 ≤ sb.xSize) (hN : sb.ySize * sb.xSize < u32) (rng : Nat → Nat) :
    (∃ v0 M res, boxToVector sb.ySize sb.xSize sb = some v0 ∧
      influenceMatrix sb.ySize sb.xSize = some M ∧ gauss M v0 = some res ∧
      res.unlockSequence.length = sb.ySize * sb.xSize ∧
      InBounds sb.ySize sb.xSize (firedToggles sb.ySize res.unlockSequence) ∧
      (∃ t, applySolution sb.ySize res.unlockSequence sb = some t ∧
        applyToggles sb (firedToggles sb.ySize res.unlockSequence) = some t) ∧
      ∃ final locked, openBoxFrom sb.ySize sb.xSize sb = some (final, locked)) ∧
    (∀ i, i < sb.ySize * sb.xSize → i % sb.ySize < sb.ySize ∧ i / sb.ySize < sb.xSize) ∧
    (∃ l, InBounds sb.ySize sb.xSize l ∧
      SecureBox.new rng sb.ySize sb.xSize
        = applyToggles (SecureBox.blank sb.ySize sb.xSize) l) := by
  refine ⟨?_, ?_, ?_⟩
  · obtain ⟨v0, hv, _, _⟩ := boxToVector_spec sb.ySize sb.xSize sb hwf hN
    obtain ⟨M, hM, _, _⟩ := influenceMatrix_spec sb.ySize sb.xSize hN
    obtain ⟨_, _, _, _, _, res, hg, hl, _, _⟩ := openBox_system sb hwf hy hx v0 M hv hM
    have hin : InBounds sb.ySize sb.xSize (firedToggles sb.ySize res.unlockSequence) :=
      firedFrom_inBounds sb.ySize sb.xSize hy res.unlockSequence 0 (by omega)
    obtain ⟨t, ht, _, _, htw, _⟩ := applyToggles_entries _ sb hwf hin
    have happ : applySolution sb.ySize res.unlockSequence sb = some t := by
      rw [applySolution_fired sb.ySize (by omega) res.unlockSequence (by omega) sb]
      exact ht
    refine ⟨v0, M, res, hv, hM, hg, hl, hin, ⟨t, happ, ht⟩, ?_⟩
    cases hs : res.success
    · exact ⟨sb, (List.range' 0 sb.xSize).any fun x =>
          (List.range' 0 sb.ySize).any fun y => entry sb.box y x,
        by simp [openBoxFrom, hv, hM, hg, hs, isLocked_spec sb hwf]⟩
    · exact ⟨t, (List.range' 0 t.xSize).any fun x =>
          (List.range' 0 t.ySize).any fun y => entry t.box y x,
        by simp [openBoxFrom, hv, hM, hg, hs, happ, isLocked_spec t htw]⟩
  · intro i hi
    exact ⟨Nat.mod_lt i hy, Nat.div_lt_of_lt_mul hi⟩
  · obtain ⟨l, hin', hl'⟩ := shuffleLoop_applies rng sb.ySize sb.xSize hy hx
      (rng 0 % 1000 % u32) 1 (SecureBox.blank sb.ySize sb.xSize)
      (isGrid_blank sb.ySize sb.xSize) rfl rfl
    exact ⟨l, hin', hl'⟩

/-- Witness of C14 (amended) on the 2 by 2 box `[[1,1],[0,1]]` and the generator stream
`7 k + 3`. -/
theorem openBox_toggles_in_bounds_witness :
    (SecureBox.mk [[true, true], [false, true]] 2 2).WF ∧ 1 ≤ 2 ∧ 1 ≤ 2 ∧ 2 * 2 < u32 ∧
    ((∃ v0 M res, boxToVector 2 2 (SecureBox.mk [[true, true], [false, true]] 2 2) = some v0 ∧
      influenceMatrix 2 2 = some M ∧ gauss M v0 = some res ∧
      res.unlockSequence.length = 2 * 2 ∧
      InBounds 2 2 (firedToggles 2 res.unlockSequence) ∧
      (∃ t, applySolution 2 res.unlockSequence
          (SecureBox.mk [[true, true], [false, true]] 2 2) = some t ∧
        applyToggles (SecureBox.mk [[true, true], [false, true]] 2 2)
          (firedToggles 2 res.unlockSequence) = some t) ∧
      ∃ final locked,
        openBoxFrom 2 2 (SecureBox.mk [[true, true], [false, true]] 2 2)
          = some (final, locked)) ∧
    (∀ i, i < 2 * 2 → i % 2 < 2 ∧ i / 2 < 2) ∧
    (∃ l, InBounds 2 2 l ∧
      SecureBox.new (fun k => 7 * k + 3) 2 2 = applyToggles (SecureBox.blank 2 2) l)) :=
  ⟨by decide, by decide, by decide, by decide,
    openBox_toggles_in_bounds (SecureBox.mk [[true, true], [false, true]] 2 2) (by decide)
      (by decide) (by decide) (by decide) (fun k => 7 * k + 3)⟩

/-- Counterexample to C14 as stated: for `ySize = xSize = 65536` the `uint32_t` product
`ySize * xSize` wraps to `0`; on the all-false box the first call
`elementInfluence(0, 0, 65536, 65536)` writes outside its empty vector, so no influence
matrix is built, `gauss` is never reached and returns no solution vector of
`65536 * 65536` entries, and `openBox` does not run to its end. -/
theorem openBox_toggles_in_bounds_fails_on_wrap :
    (SecureBox.blank 65536 65536).WF ∧ 1 ≤ 65536 ∧ 65536 < u32 ∧
    (¬ ∃ v0 M res, boxToVector 65536 65536 (SecureBox.blank 65536 65536) = some v0 ∧
      influenceMatrix 65536 65536 = some M ∧ gauss M v0 = some res ∧
      res.unlockSequence.length = 65536 * 65536) ∧
    openBoxFrom 65536 65536 (SecureBox.blank 65536 65536) = none := by
  refine ⟨isGrid_blank _ _, by decide, by decide, ?_,
    openBoxFrom_wrap 65536 65536 (by decide) (by decide) _⟩
  rintro ⟨_, M, _, _, hM, _⟩
  rw [influenceMatrix_wrap 65536 65536 (by decide) (by decide)] at hM
  exact Option.noConfusion hM

/-- C18: for a boolean matrix `A` with `n ≥ 1` rows, all of length `m`, and the all-false
right-hand side of length `n`, `gauss` returns true and the solution is the all-false
vector of length `m`. Consequently `openBox` fires no toggle on a `ySize` by `xSize` box
(`ySize, xSize ≥ 1`) that is already fully unlocked: when `ySize * xSize < 2 ^ 32`,
`gauss` succeeds on the system `openBox` builds with the all-false solution, no toggle
is fired, the box is unchanged and `openBox` returns false; otherwise `openBox` stops
before the application loop. -/
theorem gauss_zero_rhs_fires_no_toggle (n m : Nat) (A : List (List Bool)) (hn : 1 ≤ n)
    (hA : IsGrid n m A) (sb : SecureBox) (hwf : sb.WF) (hy : 1 ≤ sb.ySize)
    (hx : 1 ≤ sb.xSize)
    (hzero : ∀ r, r < sb.ySize → ∀ c, c < sb.xSize → entry sb.box r c = false) :
    (∃ res, gauss A (List.replicate n false) = some res ∧ res.success = true ∧
      res.unlockSequence = List.replicate m false) ∧
    (sb.ySize * sb.xSize < u32 →
      ∃ v0 M res, boxToVector sb.ySize sb.xSize sb = some v0 ∧
        influenceMatrix sb.ySize sb.xSize = some M ∧
        gauss M v0 = some res ∧ res.success = true ∧
        res.unlockSequence = List.replicate (sb.ySize * sb.xSize) false ∧
        firedToggles sb.ySize res.unlockSequence = [] ∧
        applySolution sb.ySize res.unlockSequence sb = some sb ∧
        openBoxFrom sb.ySize sb.xSize sb = some (sb, false)) ∧
    (u32 ≤ sb.ySize * sb.xSize → openBoxFrom sb.ySize sb.xSize sb = none) := by
  refine ⟨?_, ?_, fun h => openBoxFrom_wrap sb.ySize sb.xSize hy h sb⟩
  · exact gauss_zero_rhs n m A (List.replicate n false) hA hn (by simp)
      (fun i => bitAt_replicate n i)
  · intro hN
    obtain ⟨v0, hv, _, _⟩ := boxToVector_spec sb.ySize sb.xSize sb hwf hN
    obtain ⟨M, hM, _, _⟩ := influenceMatrix_spec sb.ySize sb.xSize hN
    obtain ⟨_, hpos, hMg, hvl, hve, _⟩ := openBox_system sb hwf hy hx v0 M hv hM
    have hvz : ∀ i, bitAt v0 i = false := by
      intro i
      by_cases hi : i < sb.ySize * sb.xSize
      · rw [hve i hi]
        exact hzero _ (Nat.mod_lt i hy) _ (Nat.div_lt_of_lt_mul hi)
      · exact bitAt_of_le v0 i (by omega)
    obtain ⟨res, hg, hs, hsol⟩ := gauss_zero_rhs _ _ M v0 hMg hpos hvl hvz
    have hfired : firedToggles sb.ySize res.unlockSequence = [] := by
      rw [hsol]
      exact firedFrom_replicate_false sb.ySize _ 0
    have happ : applySolution sb.ySize res.unlockSequence sb = some sb := by
      rw [applySolution_fired sb.ySize (by omega) res.unlockSequence
        (by rw [hsol]; simpa using hN) sb, hfired]
      rfl
    have hlock : sb.isLocked = some false :=
      (isLocked_false_iff sb hwf).mpr (fun r c hr hc => hzero r hr c hc)
    refine ⟨v0, M, res, hv, hM, hg, hs, hsol, hfired, happ, ?_⟩
    simp [openBoxFrom, hv, hM, hg, hs, happ, hlock]

/-- Witness of C18 on a 2 by 3 matrix and on the all-false 2 by 2 box. -/
theorem gauss_zero_rhs_fires_no_toggle_witness :
    1 ≤ 2 ∧ IsGrid 2 3 [[true, false, true], [true, true, false]] ∧
    (SecureBox.mk [[false, false], [false, false]] 2 2).WF ∧ 1 ≤ 2 ∧ 1 ≤ 2 ∧
    (∀ r, r < 2 → ∀ c, c < 2 →
      entry (SecureBox.mk [[false, false], [false, false]] 2 2).box r c = false) ∧
    ((∃ res, gauss [[true, false, true], [true, true, false]] (List.replicate 2 false)
        = some res ∧ res.success = true ∧ res.unlockSequence = List.replicate 3 false) ∧
    (2 * 2 < u32 →
      ∃ v0 M res,
        boxToVector 2 2 (SecureBox.mk [[false, false], [false, false]] 2 2) = some v0 ∧
        influenceMatrix 2 2 = some M ∧
        gauss M v0 = some res ∧ res.success = true ∧
        res.unlockSequence = List.replicate (2 * 2) false ∧
        firedToggles 2 res.unlockSequence = [] ∧
        applySolution 2 res.unlockSequence (SecureBox.mk [[false, false], [false, false]] 2 2)
          = some (SecureBox.mk [[false, false], [false, false]] 2 2) ∧
        openBoxFrom 2 2 (SecureBox.mk [[false, false], [false, false]] 2 2)
          = some (SecureBox.mk [[false, false], [false, false]] 2 2, false)) ∧
    (u32 ≤ 2 * 2 →
      openBoxFrom 2 2 (SecureBox.mk [[false, false], [false, false]] 2 2) = none)) :=
  ⟨by decide, by decide, by decide, by decide, by decide, by decide,
    gauss_zero_rhs_fires_no_toggle 2 3 [[true, false, true], [true, true, false]]
      (by decide) (by decide) (SecureBox.mk [[false, false], [false, false]] 2 2)
      (by decide) (by decide) (by decide) (by decide)⟩

/-! ## The whole-row variant of the elimination -/

theorem eliminateWholeRow_spec (n m : Nat) (A : List (List Bool)) (b : List Bool)
    (hA : IsGrid n m A) (hb : b.length = n) (col row : Nat) (hcol : col < m) (hrow : row < n)
    :
    ∃ A' b', eliminateWholeRow n m col row (A, b) = some (A', b') ∧ IsGrid n m A' ∧ b'.length = n ∧
      (∀ k j, entry A' k j =
        xor (entry A k j) (decide (k ≠ row) && entry A k col && entry A row j)) ∧
      (∀ k, bitAt b' k = xor (bitAt b k) (decide (k ≠ row) && entry A k col && bitAt b row)) := by
  obtain ⟨⟨A', b'⟩, h1, h2, h3, h4, h5⟩ := forLoop_invariant
    (fun i (s : List (List Bool) × List Bool) => IsGrid n m s.1 ∧ s.2.length = n ∧
      (∀ k j, entry s.1 k j =
        xor (entry A k j) (decide (k ≠ row ∧ k < i) && entry A k col && entry A row j)) ∧
      (∀ k, bitAt s.2 k =
        xor (bitAt b k) (decide (k ≠ row ∧ k < i) && entry A k col && bitAt b row)))
    (fun i s =>
      if i ≠ row then
        (cellAt s.1 i col).bind fun t =>
          if t then
            (xorRowFrom m 0 i row s.1).bind fun A' =>
            (readAt s.2 i).bind fun bi =>
            (readAt s.2 row).bind fun br =>
            (writeAt s.2 i (xor bi br)).bind fun b' =>
            some (A', b')
          else some s
      else some s) n 0 (A, b)
    ⟨hA, hb, by intro k j; simp, by intro k; simp⟩
    (by
      intro i s _ hi ⟨hs, hsb, he, hbe⟩
      have hi' : i < n := by omega
      beta_reduce
      by_cases hir : i = row
      · refine ⟨s, by simp [hir], hs, hsb, ?_, ?_⟩
        · intro k j
          rw [he]
          have : (k ≠ row ∧ k < i) ↔ (k ≠ row ∧ k < i + 1) := by omega
          rw [decide_eq_decide.mpr this]
        · intro k
          rw [hbe]
          have : (k ≠ row ∧ k < i) ↔ (k ≠ row ∧ k < i + 1) := by omega
          rw [decide_eq_decide.mpr this]
      · rw [if_pos hir, cellAt_eq_some n m s.1 hs i col hi' hcol, Option.some_bind]
        have hic : entry s.1 i col = entry A i col := by
          rw [he]
          have : ¬ (i ≠ row ∧ i < i) := by omega
          simp [this]
        have hrowj : ∀ j, entry s.1 row j = entry A row j := by
          intro j; rw [he]; simp
        have hij : ∀ j, entry s.1 i j = entry A i j := by
          intro j
          rw [he]
          have : ¬ (i ≠ row ∧ i < i) := by omega
          simp [this]
        cases hc : entry A i col
        · rw [hic, hc]
          refine ⟨s, by simp, hs, hsb, ?_, ?_⟩
          · intro k j
            rw [he]
            by_cases hk : k = i
            · subst hk; simp [hc]
            · have : (k ≠ row ∧ k < i) ↔ (k ≠ row ∧ k < i + 1) := by omega
              rw [decide_eq_decide.mpr this]
          · intro k
            rw [hbe]
            by_cases hk : k = i
            · subst hk; simp [hc]
            · have : (k ≠ row ∧ k < i) ↔ (k ≠ row ∧ k < i + 1) := by omega
              rw [decide_eq_decide.mpr this]
        · rw [hic, hc]
          obtain ⟨A1, hx, hA1, hxe⟩ := xorRowFrom_spec n m s.1 hs 0 i row hi' hrow hir
            (Nat.zero_le m)
          have hbi : i < s.2.length := by rw [hsb]; exact hi'
          have hbr : row < s.2.length := by rw [hsb]; exact hrow
          refine ⟨(A1, s.2.set i (xor (bitAt s.2 i) (bitAt s.2 row))), ?_, hA1, ?_, ?_, ?_⟩
          · simp [hx, readAt_bool s.2 i hbi, readAt_bool s.2 row hbr, writeAt_eq_some, hbi]
          · simp [hsb]
          · intro k j
            rw [hxe]
            by_cases hk : k = i
            · subst hk
              have h1 : k ≠ row ∧ k < k + 1 := ⟨hir, by omega⟩
              by_cases hj : 0 ≤ j ∧ j < m
              · rw [if_pos ⟨rfl, hj⟩, hij, hrowj]
                simp [h1, hc]
              · rw [if_neg (fun h => hj h.2), hij]
                have : entry A row j = false :=
                  entry_of_col_le n m A hA row j (by omega)
                simp [this]
            · rw [if_neg (fun h => hk h.1), he]
              have : (k ≠ row ∧ k < i) ↔ (k ≠ row ∧ k < i + 1) := by omega
              rw [decide_eq_decide.mpr this]
          · intro k
            show bitAt (s.2.set i (xor (bitAt s.2 i) (bitAt s.2 row))) k = _
            rw [bitAt_set]
            by_cases hk : k = i
            · subst hk
              have h1 : k ≠ row ∧ k < k + 1 := ⟨hir, by omega⟩
              have h2 : ¬ (k ≠ row ∧ k < k) := by omega
              have h3 : ¬ (row ≠ row ∧ row < k) := by omega
              rw [if_pos ⟨rfl, hbi⟩, hbe, hbe]
              simp [h1, h2, hc]
            · rw [if_neg (fun h => hk h.1), hbe]
              have : (k ≠ row ∧ k < i) ↔ (k ≠ row ∧ k < i + 1) := by omega
              rw [decide_eq_decide.mpr this])
  refine ⟨A', b', h1, h2, h3, ?_, ?_⟩
  · intro k j
    rw [h4]
    by_cases hk : k < n
    · have : (k ≠ row ∧ k < 0 + n) ↔ k ≠ row := by omega
      rw [decide_eq_decide.mpr this]
    · have : entry A k col = false := entry_of_row_le A k col (by rw [hA.1]; omega)
      simp [this]
  · intro k
    rw [h5]
    by_cases hk : k < n
    · have : (k ≠ row ∧ k < 0 + n) ↔ k ≠ row := by omega
      rw [decide_eq_decide.mpr this]
    · have : entry A k col = false := entry_of_row_le A k col (by rw [hA.1]; omega)
      simp [this]

theorem eliminate_eq_wholeRow (n m : Nat) (A : List (List Bool)) (b : List Bool)
    (hA : IsGrid n m A) (hb : b.length = n) (col row : Nat) (hcol : col < m) (hrow : row < n)
    (hzero : ∀ j, j < col → entry A row j = false) :
    eliminateWholeRow n m col row (A, b) = eliminate n m col row (A, b) := by
  obtain ⟨A1, b1, h1, hA1, hb1, he1, hbe1⟩ := eliminate_spec n m A b hA hb col row hcol hrow hzero
  obtain ⟨A2, b2, h2, hA2, hb2, he2, hbe2⟩ := eliminateWholeRow_spec n m A b hA hb col row hcol hrow
  rw [h1, h2]
  have eA : A2 = A1 := by
    apply grid_ext n m A2 A1 hA2 hA1
    intro i j _ _
    rw [he1, he2]
  have eb : b2 = b1 := by
    apply vec_ext
    · rw [hb1, hb2]
    · intro k _
      rw [hbe1, hbe2]
  rw [eA, eb]

theorem forwardLoop_eq_wholeRow (n m : Nat) (A0 : List (List Bool)) (b0 : List Bool) :
    ∀ (f col : Nat) (s : GaussState), col + f = m → FwdInv n m A0 b0 col s →
      forwardLoopWholeRow n m f col s = forwardLoop n m f col s := by
  intro f
  induction f with
  | zero => intro col s _ _; rfl
  | succ f ih =>
    intro col s hf h
    have hcol : col < m := by omega
    simp only [forwardLoop, forwardLoopWholeRow]
    by_cases hrow : s.row < n
    · rw [if_pos hrow, if_pos hrow]
      obtain ⟨A1, b1, p, hps, hA1, hb1, hp1, hp2, he1, hbe1, hz1⟩ :=
        pivotSearch_spec n m s.A s.b h.1 h.2.1 col s.row hcol hrow (n - s.row) s.row
          (Nat.le_refl _) (by omega) (by intro k hk1 hk2; omega)
      rw [hps, Option.some_bind, Option.some_bind]
      have hinv1 := fwdInv_swap n m A0 b0 col s h hrow A1 b1 hA1 hb1 p hp1 hp2 he1 hbe1
      rw [cellAt_eq_some n m A1 hA1 s.row col hrow hcol, Option.some_bind, Option.some_bind]
      cases hc : entry A1 s.row col
      · simp only [Bool.not_false, if_true]
        exact ih (col + 1) _ (by omega) (fwdInv_skip n m A0 b0 col _ hinv1 (hz1 hc))
      · simp only [Bool.not_true, Bool.false_eq_true, if_false]
        have hzero : ∀ j, j < col → entry A1 s.row j = false :=
          fun j hj => hinv1.2.2.2.1 s.row j (Nat.le_refl _) hrow hj
        rw [eliminate_eq_wholeRow n m A1 b1 hA1 hb1 col s.row hcol hrow hzero]
        obtain ⟨A2, b2, hel, hA2, hb2, he2, hbe2⟩ :=
          eliminate_spec n m A1 b1 hA1 hb1 col s.row hcol hrow hzero
        rw [hel, Option.some_bind, Option.some_bind]
        exact ih (col + 1) _ (by omega)
          (fwdInv_eliminate n m A0 b0 col _ hinv1 hrow hcol hc A2 b2 hA2 hb2 he2 hbe2)
    · rw [if_neg hrow, if_neg hrow]

theorem gauss_eq_wholeRow (n m : Nat) (A : List (List Bool)) (b : List Bool)
    (hA : IsGrid n m A) (hn : 0 < n) (hb : b.length = n) : gaussWholeRow A b = gauss A b := by
  have h0 : readAt A 0 = some (A[0]?.getD []) := readAt_row A 0 (by rw [hA.1]; exact hn)
  have hm : (A[0]?.getD []).length = m := isGrid_row n m A hA 0 hn
  simp only [gauss, gaussWholeRow, h0, Option.some_bind, hm, hA.1]
  rw [forwardLoop_eq_wholeRow n m A b m 0 _ (by omega) (fwdInv_init n m A b hA hb)]

/-! ## The state on entering a column -/

theorem fwdInv_weaken (n m : Nat) (A0 : List (List Bool)) (b0 : List Bool) (col col' : Nat)
    (s : GaussState) (h : FwdInv n m A0 b0 col s) (hle : col ≤ col')
    (hend : col = col' ∨ ¬ s.row < n) : FwdInv n m A0 b0 col' s := by
  obtain ⟨h1, h2, h3, h4, h5, h6⟩ := h
  refine ⟨h1, h2, h3, ?_, ?_, h6⟩
  · intro i j hi1 hi2 hj
    rcases hend with hend | hend
    · exact h4 i j hi1 hi2 (by omega)
    · omega
  · intro k hk
    obtain ⟨c, hc1, hc⟩ := h5 k hk
    exact ⟨c, by omega, hc⟩

theorem forwardLoop_prefix_inv (n m : Nat) (A0 : List (List Bool)) (b0 : List Bool) :
    ∀ (f col : Nat) (s : GaussState), col + f ≤ m → FwdInv n m A0 b0 col s →
      ∃ s', forwardLoop n m f col s = some s' ∧ FwdInv n m A0 b0 (col + f) s' := by
  intro f
  induction f with
  | zero => intro col s _ h; exact ⟨s, rfl, h⟩
  | succ f ih =>
    intro col s hf h
    have hcol : col < m := by omega
    have hadd : col + (f + 1) = col + 1 + f := by omega
    simp only [forwardLoop]
    by_cases hrow : s.row < n
    · rw [if_pos hrow, hadd]
      obtain ⟨A1, b1, p, hps, hA1, hb1, hp1, hp2, he1, hbe1, hz1⟩ :=
        pivotSearch_spec n m s.A s.b h.1 h.2.1 col s.row hcol hrow (n - s.row) s.row
          (Nat.le_refl _) (by omega) (by intro k hk1 hk2; omega)
      rw [hps, Option.some_bind]
      have hinv1 := fwdInv_swap n m A0 b0 col s h hrow A1 b1 hA1 hb1 p hp1 hp2 he1 hbe1
      rw [cellAt_eq_some n m A1 hA1 s.row col hrow hcol, Option.some_bind]
      cases hc : entry A1 s.row col
      · simp only [Bool.not_false, if_true]
        exact ih (col + 1) _ (by omega) (fwdInv_skip n m A0 b0 col _ hinv1 (hz1 hc))
      · simp only [Bool.not_true, Bool.false_eq_true, if_false]
        obtain ⟨A2, b2, hel, hA2, hb2, he2, hbe2⟩ :=
          eliminate_spec n m A1 b1 hA1 hb1 col s.row hcol hrow
            (fun j hj => hinv1.2.2.2.1 s.row j (Nat.le_refl _) hrow hj)
        rw [hel, Option.some_bind]
        exact ih (col + 1) _ (by omega)
          (fwdInv_eliminate n m A0 b0 col _ hinv1 hrow hcol hc A2 b2 hA2 hb2 he2 hbe2)
    · rw [if_neg hrow]
      exact ⟨s, rfl, fwdInv_weaken n m A0 b0 col _ s h (by omega) (Or.inr hrow)⟩

theorem forwardLoop_stop (n m : Nat) (g col : Nat) (s : GaussState) (h : ¬ s.row < n) :
    forwardLoop n m g col s = some s := by
  cases g with
  | zero => rfl
  | succ g => simp only [forwardLoop, if_neg h]

theorem forwardLoop_split (n m : Nat) :
    ∀ (f g col : Nat) (s : GaussState),
      forwardLoop n m (f + g) col s =
        (forwardLoop n m f col s).bind fun s' => forwardLoop n m g (col + f) s' := by
  intro f
  induction f with
  | zero => intro g col s; simp [forwardLoop]
  | succ f ih =>
    intro g col s
    have hfg : f + 1 + g = (f + g) + 1 := by omega
    have hcf : ∀ s', forwardLoop n m g (col + (f + 1)) s' = forwardLoop n m g (col + 1 + f) s' := by
      intro s'
      have : col + (f + 1) = col + 1 + f := by omega
      rw [this]
    rw [hfg]
    simp only [forwardLoop, hcf]
    by_cases hrow : s.row < n
    · rw [if_pos hrow, if_pos hrow]
      cases pivotSearch col s.row (n - s.row) s.row (s.A, s.b) with
      | none => rfl
      | some s1 =>
        simp only [Option.some_bind]
        cases cellAt s1.1 s.row col with
        | none => rfl
        | some p =>
          simp only [Option.some_bind]
          cases p
          · simp only [Bool.not_false, if_true]
            exact ih g (col + 1) _
          · simp only [Bool.not_true, Bool.false_eq_true, if_false]
            cases eliminate n m col s.row s1 with
            | none => rfl
            | some s2 =>
              simp only [Option.some_bind]
              exact ih g (col + 1) _
    · rw [if_neg hrow, if_neg hrow, Option.some_bind]
      exact (forwardLoop_stop n m g _ s hrow).symm

theorem pivot_row_zero_before (n m : Nat) (A : List (List Bool)) (b : List Bool)
    (hA : IsGrid n m A) (hb : b.length = n) (c : Nat) (hc : c < m) (s : GaussState)
    (hs : forwardLoop n m c 0 { A := A, b := b, row := 0 } = some s) (hrow : s.row < n)
    (s1 : List (List Bool) × List Bool)
    (hp : pivotSearch c s.row (n - s.row) s.row (s.A, s.b) = some s1) :
    ∀ j, j < c → entry s1.1 s.row j = false := by
  obtain ⟨s', hs', hinv⟩ := forwardLoop_prefix_inv n m A b c 0 _ (by omega)
    (fwdInv_init n m A b hA hb)
  rw [hs] at hs'
  have e : s = s' := Option.some.inj hs'
  subst e
  rw [Nat.zero_add] at hinv
  obtain ⟨A1, b1, p, hps, hA1, hb1, hp1, hp2, he1, hbe1, _⟩ :=
    pivotSearch_spec n m s.A s.b hinv.1 hinv.2.1 c s.row hc hrow (n - s.row) s.row
      (Nat.le_refl _) (by omega) (by intro k hk1 hk2; omega)
  rw [hp] at hps
  have e1 : s1 = (A1, b1) := Option.some.inj hps
  subst e1
  have hinv1 := fwdInv_swap n m A b c s hinv hrow A1 b1 hA1 hb1 p hp1 hp2 he1 hbe1
  intro j hj
  exact hinv1.2.2.2.1 s.row j (Nat.le_refl _) hrow hj

/-! ### The refinement claim -/

/-- C19: in `gauss` on a matrix `A` with `n ≥ 1` rows of equal length `m` and a right-hand
side of length `n`, on entering any column `c` (the state after the first `c` rounds of
the forward loop, from which the remaining `m - c` rounds continue) the row the pivot
search puts at the cursor is false in every column before `c`. Hence `gauss`, which XORs
the pivot row into the other rows only on the columns `≥ c`, returns, and returns the
same success flag, solution, final matrix and final right-hand side as the variant
`gaussWholeRow` that XORs the whole pivot row into each target row. -/
theorem gauss_refines_wholeRow (n m : Nat) (A : List (List Bool)) (b : List Bool)
    (hn : 1 ≤ n) (hA : IsGrid n m A) (hb : b.length = n) :
    (∀ c s s1, c < m → forwardLoop n m c 0 { A := A, b := b, row := 0 } = some s →
      s.row < n → pivotSearch c s.row (n - s.row) s.row (s.A, s.b) = some s1 →
      ∀ j, j < c → entry s1.1 s.row j = false) ∧
    (∀ c, c ≤ m → forwardLoop n m m 0 { A := A, b := b, row := 0 } =
      (forwardLoop n m c 0 { A := A, b := b, row := 0 }).bind fun s =>
        forwardLoop n m (m - c) c s) ∧
    (∃ res, gauss A b = some res ∧ gaussWholeRow A b = some res) := by
  refine ⟨?_, ?_, ?_⟩
  · intro c s s1 hc hs hrow hp
    exact pivot_row_zero_before n m A b hA hb c hc s hs hrow s1 hp
  · intro c hc
    have h := forwardLoop_split n m c (m - c) 0 { A := A, b := b, row := 0 }
    have e : c + (m - c) = m := by omega
    rw [e] at h
    rw [h]
    simp only [Nat.zero_add]
  · obtain ⟨res, hres, _⟩ := gauss_spec n m A b hA hn hb
    exact ⟨res, hres, by rw [gauss_eq_wholeRow n m A b hA hn hb, hres]⟩

/-- Witness of C19 on the 3 by 3 system `[[0,1,1],[1,1,0],[1,0,1]] · s = [1,0,1]`. -/
theorem gauss_refines_wholeRow_witness :
    1 ≤ 3 ∧ IsGrid 3 3 [[false, true, true], [true, true, false], [true, false, true]] ∧
    [true, false, true].length = 3 ∧
    ((∀ c s s1, c < 3 →
      forwardLoop 3 3 c 0 (GaussState.mk [[false, true, true], [true, true, false], [true, false, true]]
        [true, false, true] 0) = some s →
      s.row < 3 → pivotSearch c s.row (3 - s.row) s.row (s.A, s.b) = some s1 →
      ∀ j, j < c → entry s1.1 s.row j = false) ∧
    (∀ c, c ≤ 3 →
      forwardLoop 3 3 3 0 (GaussState.mk [[false, true, true], [true, true, false], [true, false, true]]
        [true, false, true] 0) =
      (forwardLoop 3 3 c 0 (GaussState.mk [[false, true, true], [true, true, false], [true, false, true]]
        [true, false, true] 0)).bind fun s => forwardLoop 3 3 (3 - c) c s) ∧
    (∃ res, gauss [[false, true, true], [true, true, false], [true, false, true]]
        [true, false, true] = some res ∧
      gaussWholeRow [[false, true, true], [true, true, false], [true, false, true]]
        [true, false, true] = some res)) :=
  ⟨by decide, by decide, by decide,
    gauss_refines_wholeRow 3 3 [[false, true, true], [true, true, false], [true, false, true]]
      [true, false, true] (by decide) (by decide) (by decide)⟩

end BoxUnlocking
